import Mathlib

/-!
# bigpipe: the asynchronous dispatch client and the configuration loader

A shallow embedding of `bigpipe/client/async_client.go` and
`bigpipe/config/config.go`.

* Go's `int` is the 64-bit two's-complement integer: values are kept in `Int`
  and the one addition of the client (`client.retries + 1`) is wrapped.
* A goroutine talks to its collaborators (statistics, HTTP transport, token
  bucket, scheduler) through calls; every such call is appended to a trace, in
  program order.  Log lines and the clock readings that only feed log lines
  are left out.
* What the HTTP stack answers on attempt `i` is an input: `http i`.
* A run-time panic (failed type assertion, negative channel size, write into a
  nil map) is the `Except.error` result; a goroutine that panics ends as
  `Progress.panicked`.
* `ParseConfig` is run on what reading and decoding the file gave; a decoded
  number is a finite `float64`, kept exactly as `mant / 2 ^ scale`.
* The `Headers` of a message is a Go map and may be nil; writing into a nil map
  panics.
-/

namespace Bigpipe

/-! ## Go values -/

/-- Smallest value of Go's 64-bit `int`. -/
def minInt : Int := -9223372036854775808

/-- Largest value of Go's 64-bit `int`. -/
def maxInt : Int := 9223372036854775807

/-- Result of an `int` operation whose exact value is `x`: two's-complement
wrap-around into `[minInt, maxInt]`. -/
def wrapInt (x : Int) : Int :=
  (x + 9223372036854775808) % 18446744073709551616 - 9223372036854775808

/-- A Go `map[string]α` as the list of its bindings. -/
abbrev GoMap (α : Type) := List (String × α)

namespace GoMap

/-- Value of `m[k]` together with the `exists` flag (`none`: no such key). -/
def get? {α : Type} (m : GoMap α) (k : String) : Option α :=
  List.lookup k m

/-- The assignment `m[k] = v`: overwrite the binding of `k`, or add one. -/
def set {α : Type} : GoMap α → String → α → GoMap α
  | [], k, v => [(k, v)]
  | (k1, v1) :: rest, k, v =>
    if k1 == k then (k, v) :: rest else (k1, v1) :: set rest k v

/-- Keys of the map, in insertion order. -/
def keys {α : Type} (m : GoMap α) : List String :=
  m.map Prod.fst

end GoMap

/-- Run-time panics of the Go code. -/
inductive Panic where
  /-- A type assertion `dict[key].(T)` on a missing key or a value of another type. -/
  | interfaceConversion (key : String)
  /-- The call `make(chan byte, n)` with `n < 0`. -/
  | makeChanSize
  /-- An assignment `m[k] = v` into a nil map. -/
  | nilMapAssignment
  deriving DecidableEq, Repr

/-- A buffered Go channel of bytes: capacity and queued elements, oldest first. -/
structure Chan where
  cap : Nat
  buf : List UInt8
  deriving DecidableEq, Repr

namespace Chan

/-- Go's `len(ch)`. -/
def len (ch : Chan) : Nat :=
  ch.buf.length

/-- The statement `ch <- b`; `none` when the buffer is full and the sender blocks. -/
def send (ch : Chan) (b : UInt8) : Option Chan :=
  if ch.buf.length < ch.cap then some { ch with buf := ch.buf ++ [b] } else none

/-- The statement `<- ch`; `none` when the buffer is empty and the receiver blocks. -/
def recv (ch : Chan) : Option Chan :=
  match ch.buf with
  | [] => none
  | _ :: rest => some { ch with buf := rest }

end Chan

/-! ## config.go: data model -/

/-- Go struct `TopicInfo`. -/
structure TopicInfo where
  Partitions : Int
  deriving DecidableEq, Repr

/-- Go struct `ProducerACL`. -/
structure ProducerACL where
  Secret : String
  Topic : String
  Name : String
  deriving DecidableEq, Repr

/-- A finite `float64` value `mant / 2 ^ scale`, as JSON decoding produces it. -/
structure Float64 where
  mant : Int
  scale : Nat
  deriving DecidableEq, Repr

namespace Float64

/-- The `float64` holding the integer `n`. -/
def ofInt (n : Int) : Float64 :=
  ⟨n, 0⟩

/-- Comparison `f <= n` with an integer constant. -/
def leInt (f : Float64) (n : Int) : Bool :=
  decide (f.mant ≤ n * 2 ^ f.scale)

/-- Comparison `f > n` with an integer constant. -/
def gtInt (f : Float64) (n : Int) : Bool :=
  decide (n * 2 ^ f.scale < f.mant)

/-- The value with its fraction dropped (rounding toward zero). -/
def trunc (f : Float64) : Int :=
  f.mant.tdiv (2 ^ f.scale)

/-- The value is a whole number, of any size. -/
def isWhole (f : Float64) : Bool :=
  decide ((2 : Int) ^ f.scale ∣ f.mant)

/-- The value is a whole number that an `int` holds. -/
def isInt (f : Float64) : Bool :=
  decide ((2 : Int) ^ f.scale ∣ f.mant) && decide (minInt ≤ f.trunc) && decide (f.trunc ≤ maxInt)

/-- The conversion `int(f)`: truncation toward zero.  For a value outside the
range of `int` Go leaves the result to the implementation; amd64 yields
`minInt` there. -/
def toInt (f : Float64) : Int :=
  if minInt ≤ f.trunc ∧ f.trunc ≤ maxInt then f.trunc else minInt

end Float64

/-- Go struct `CircuitBreakerInfo`. -/
structure CircuitBreakerInfo where
  BreakPeriod : Int
  RecoverPeriod : Int
  WinSize : Int
  MinStats : Int
  HealthRate : Float64
  deriving DecidableEq, Repr

/-- Go struct `ConsumerInfo`; a nil `CircuiteBreakerInfo` pointer is `none`. -/
structure ConsumerInfo where
  Topic : String
  GroupId : String
  RateLimit : Int
  Retries : Int
  Timeout : Int
  Concurrency : Int
  CircuiteBreakerInfo : Option CircuitBreakerInfo
  deriving DecidableEq, Repr

/-- Go struct `Config`. -/
structure Config where
  Log_directory : String
  Log_level : Int
  Kafka_bootstrap_servers : String
  Kafka_topics : GoMap TopicInfo
  Kafka_producer_retries : Int
  Kafka_producer_acl : GoMap ProducerACL
  Kafka_consumer_list : List ConsumerInfo
  Http_server_port : Int
  Http_server_read_timeout : Int
  Http_server_write_timeout : Int
  Http_server_handler_channel_size : Int
  deriving DecidableEq, Repr

/-! ## config.go: ParseConfig -/

/-- A value of type `interface{}` as `json.Unmarshal` builds it: nil, bool,
float64, string, `[]interface{}` or `map[string]interface{}`. -/
inductive JSON where
  | null
  | bool (b : Bool)
  | number (f : Float64)
  | string (s : String)
  | array (items : List JSON)
  | object (fields : List (String × JSON))

/-- What `ioutil.ReadFile` followed by `json.Unmarshal` into `dict` gives. -/
inductive FileContent where
  /-- The file could not be read. -/
  | readError
  /-- The bytes are not JSON for a `map[string]interface{}`. -/
  | unmarshalError
  /-- The decoded `dict`. -/
  | decoded (dict : List (String × JSON))

/-- Type assertion `v.(string)` on the value found under `key`. -/
def asString (key : String) : Option JSON → Except Panic String
  | some (JSON.string s) => Except.ok s
  | _ => Except.error (Panic.interfaceConversion key)

/-- Type assertion `v.(float64)` on the value found under `key`. -/
def asFloat64 (key : String) : Option JSON → Except Panic Float64
  | some (JSON.number f) => Except.ok f
  | _ => Except.error (Panic.interfaceConversion key)

/-- Type assertion `v.([]interface{})` on the value found under `key`. -/
def asArray (key : String) : Option JSON → Except Panic (List JSON)
  | some (JSON.array items) => Except.ok items
  | _ => Except.error (Panic.interfaceConversion key)

/-- Type assertion `v.(map[string]interface{})` on the value found under `key`. -/
def asObject (key : String) : Option JSON → Except Panic (List (String × JSON))
  | some (JSON.object fields) => Except.ok fields
  | _ => Except.error (Panic.interfaceConversion key)

/-- The expression `int(m[key].(float64))`. -/
def asInt (key : String) (v : Option JSON) : Except Panic Int :=
  (asFloat64 key v).map Float64.toInt

/-- The loop over `topicsArr` (lines 89-94). -/
def parseTopics : List JSON → GoMap TopicInfo → Except Panic (GoMap TopicInfo)
  | [], topics => Except.ok topics
  | value :: rest, topics => do
    let topicMap ← asObject "kafka.topics[]" (some value)
    let name ← asString "name" (topicMap.lookup "name")
    let partitions ← asInt "partitions" (topicMap.lookup "partitions")
    parseTopics rest (topics.set name ⟨partitions⟩)

/-- The loop over `aclArr` (lines 99-110); `none` is the `return nil` of line 108. -/
def parseAcl (topics : GoMap TopicInfo) :
    List JSON → GoMap ProducerACL → Except Panic (Option (GoMap ProducerACL))
  | [], acl => Except.ok (some acl)
  | value :: rest, acl => do
    let aclMap ← asObject "kafka.producer.acl[]" (some value)
    let name ← asString "name" (aclMap.lookup "name")
    let secret ← asString "secret" (aclMap.lookup "secret")
    let topic ← asString "topic" (aclMap.lookup "topic")
    let acl1 := acl.set name { Name := name, Secret := secret, Topic := topic }
    if (topics.get? topic).isNone then Except.ok none
    else parseAcl topics rest acl1

/-- The condition of line 131. -/
def breakerRejected (cb : CircuitBreakerInfo) : Bool :=
  decide (cb.WinSize ≤ 0) || decide (cb.MinStats ≤ 0) || cb.HealthRate.leInt 0 ||
    cb.HealthRate.gtInt 100

/-- Lines 123-135: the optional `circuitBreaker` block of a consumer entry; the
inner `none` is the `return nil` of line 133. -/
def parseBreaker (item : List (String × JSON)) :
    Except Panic (Option (Option CircuitBreakerInfo)) :=
  match item.lookup "circuitBreaker" with
  | none => Except.ok (some none)
  | some circuitValue => do
    let circuitMap ← asObject "circuitBreaker" (some circuitValue)
    let recoverPeriod ← asInt "recoverPeriod" (circuitMap.lookup "recoverPeriod")
    let breakPeriod ← asInt "breakPeriod" (circuitMap.lookup "breakPeriod")
    let winSize ← asInt "winSize" (circuitMap.lookup "winSize")
    let healthRate ← asFloat64 "healthRate" (circuitMap.lookup "healthRate")
    let minStats ← asInt "minStats" (circuitMap.lookup "minStats")
    let cb : CircuitBreakerInfo :=
      { BreakPeriod := breakPeriod, RecoverPeriod := recoverPeriod, WinSize := winSize,
        MinStats := minStats, HealthRate := healthRate }
    if breakerRejected cb then Except.ok none else Except.ok (some (some cb))

/-- The loop over `consumerArr` (lines 113-143); `none` is a `return nil`. -/
def parseConsumers (topics : GoMap TopicInfo) :
    List JSON → List ConsumerInfo → Except Panic (Option (List ConsumerInfo))
  | [], list => Except.ok (some list)
  | value :: rest, list => do
    let item ← asObject "kafka.consumer.list[]" (some value)
    let topic ← asString "topic" (item.lookup "topic")
    let groupId ← asString "groupId" (item.lookup "groupId")
    let rateLimit ← asInt "rateLimit" (item.lookup "rateLimit")
    let retries ← asInt "retries" (item.lookup "retries")
    let timeout ← asInt "timeout" (item.lookup "timeout")
    let concurrency ← asInt "concurrency" (item.lookup "concurrency")
    match ← parseBreaker item with
    | none => Except.ok none
    | some breaker =>
      let consumerInfo : ConsumerInfo :=
        { Topic := topic, GroupId := groupId, RateLimit := rateLimit, Retries := retries,
          Timeout := timeout, Concurrency := concurrency, CircuiteBreakerInfo := breaker }
      if (topics.get? topic).isNone then Except.ok none
      else parseConsumers topics rest (list ++ [consumerInfo])

/-- Lines 74-84 of `ParseConfig`: the scalar fields of a fresh `Config`. -/
def parseScalars (dict : List (String × JSON)) : Except Panic Config := do
  let logDirectory ← asString "log.directory" (dict.lookup "log.directory")
  let logLevel ← asInt "log.level" (dict.lookup "log.level")
  let servers ← asString "kafka.bootstrap.servers" (dict.lookup "kafka.bootstrap.servers")
  let producerRetries ← asInt "kafka.producer.retries" (dict.lookup "kafka.producer.retries")
  let port ← asInt "http.server.port" (dict.lookup "http.server.port")
  let readTimeout ← asInt "http.server.read.timeout" (dict.lookup "http.server.read.timeout")
  let writeTimeout ← asInt "http.server.write.timeout" (dict.lookup "http.server.write.timeout")
  let channelSize ← asInt "http.server.handler.channel.size"
    (dict.lookup "http.server.handler.channel.size")
  Except.ok
    { Log_directory := logDirectory
      Log_level := logLevel
      Kafka_bootstrap_servers := servers
      Kafka_topics := []
      Kafka_producer_retries := producerRetries
      Kafka_producer_acl := []
      Kafka_consumer_list := []
      Http_server_port := port
      Http_server_read_timeout := readTimeout
      Http_server_write_timeout := writeTimeout
      Http_server_handler_channel_size := channelSize }

/-- Lines 86-144 of `ParseConfig`: the topics, the ACL entries and the consumers
are added to `config`. -/
def parseLists (dict : List (String × JSON)) (config : Config) :
    Except Panic (Option Config) := do
  let topicsArr ← asArray "kafka.topics" (dict.lookup "kafka.topics")
  let topics ← parseTopics topicsArr []
  let aclArr ← asArray "kafka.producer.acl" (dict.lookup "kafka.producer.acl")
  match ← parseAcl topics aclArr [] with
  | none => Except.ok none
  | some acl =>
    let consumerArr ← asArray "kafka.consumer.list" (dict.lookup "kafka.consumer.list")
    match ← parseConsumers topics consumerArr config.Kafka_consumer_list with
    | none => Except.ok none
    | some consumers =>
      Except.ok (some { config with
        Kafka_topics := topics, Kafka_producer_acl := acl, Kafka_consumer_list := consumers })

/-- Lines 74-144 of `ParseConfig`, on the decoded `dict`. -/
def parseDict (dict : List (String × JSON)) : Except Panic (Option Config) := do
  let config ← parseScalars dict
  parseLists dict config

/-- Function `ParseConfig`: `Except.ok none` is the nil result, `Except.error` a
run-time panic. -/
def ParseConfig : FileContent → Except Panic (Option Config)
  | FileContent.readError => Except.ok none
  | FileContent.unmarshalError => Except.ok none
  | FileContent.decoded dict => parseDict dict

/-! ## async_client.go -/

/-- Modelled from the spec: `proto.CallMessage`, whose declaration is outside
these sources: topic, destination URL, payload bytes and the caller's header
mapping (header name to list of values).  `Headers` is a Go map: `none` is the nil
map, `some h` an allocated one. -/
structure CallMessage where
  Topic : String
  Url : String
  Data : List UInt8
  Headers : Option (GoMap (List String))
  deriving DecidableEq, Repr

/-- The fields of an `http.Request` that `callWithRetry` sets. -/
structure Request where
  Method : String
  Url : String
  Header : GoMap (List String)
  Body : List UInt8
  deriving DecidableEq, Repr

/-- Modelled from the spec: the token bucket of the client (`CreateBucketForRate`
and `getToken` are outside these sources); only the configured rate is kept. -/
structure TokenBucket where
  rate : Int
  deriving DecidableEq, Repr

/-- Go struct `AsyncClient` (the HTTP transport itself is the `http` input of
`callWithRetry`). -/
structure AsyncClient where
  retries : Int
  timeout : Int
  pending : Chan
  rateLimit : TokenBucket
  deriving DecidableEq, Repr

/-- Calls a goroutine makes to its collaborators. -/
inductive Event where
  /-- Call of `stats.ClientStats_rpcTotal`. -/
  | rpcTotal (topic : String)
  /-- Call of `stats.ClientStats_rpcRetries`. -/
  | rpcRetries (topic : String)
  /-- Call of `stats.ClientStats_rpcSuccess`. -/
  | rpcSuccess (topic : String)
  /-- Call of `stats.ClientStats_rpcFail`. -/
  | rpcFail (topic : String)
  /-- Call of `http.NewRequest`, one per loop iteration; `i` is the loop index. -/
  | newRequest (i : Nat) (method url : String) (body : List UInt8)
  /-- Call of `client.httpClient.Do`. -/
  | httpDo (i : Nat) (req : Request)
  /-- Call of `response.Body.Close`. -/
  | bodyClose (i : Nat)
  /-- Completed `client.pending <- byte(1)`. -/
  | pendingSend
  /-- Completed `<- client.pending`. -/
  | pendingRecv
  /-- Call of `client.rateLimit.getToken`. -/
  | getToken (n : Int)
  /-- Statement `go client.callWithRetry(message)`. -/
  | spawn (message : CallMessage)
  deriving DecidableEq, Repr

/-- What the HTTP stack gives back on one attempt. -/
inductive Outcome where
  /-- Result `err != nil` of `http.NewRequest`. -/
  | buildError
  /-- Result `rErr != nil` of `httpClient.Do`. -/
  | transportError
  /-- A response with this `StatusCode`. -/
  | response (statusCode : Int)
  deriving DecidableEq, Repr

/-- Go's `strconv.Itoa`. -/
def Itoa (n : Int) : String :=
  toString n

/-- The two assignments of lines 51-52 on an allocated header map. -/
def stampHeaders (headers : GoMap (List String)) (data : List UInt8) : GoMap (List String) :=
  (headers.set "Content-Length" [Itoa (Int.ofNat data.length)]).set
    "Content-Type" ["application/octet-stream"]

/-- Lines 50-52 of `callWithRetry`: `req.Header` is the message's own map, into
which the two entries are written; the first write panics when that map is nil. -/
def setHeaders (headers : Option (GoMap (List String))) (data : List UInt8) :
    Except Panic (GoMap (List String)) :=
  match headers with
  | none => Except.error Panic.nilMapAssignment
  | some h => Except.ok (stampHeaders h data)

/-- Variables of `callWithRetry` that its loop changes, with the trace so far and
the panic that ended the loop, if one did. -/
structure LoopState where
  success : Bool
  message : CallMessage
  trace : List Event
  panic : Option Panic
  deriving DecidableEq, Repr

/-- The loop `for i := 0; i < client.retries + 1; i++` of `callWithRetry`, from
index `i` on, with `n` iterations left before the condition fails. -/
def retryLoop (http : Nat → Outcome) : Nat → Nat → LoopState → LoopState
  | 0, _, st => st
  | n + 1, i, st =>
    let topic := st.message.Topic
    let tr1 := if i ≠ 0 then st.trace ++ [Event.rpcRetries topic] else st.trace
    let tr2 := tr1 ++ [Event.newRequest i "POST" st.message.Url st.message.Data]
    match http i with
    | Outcome.buildError => retryLoop http n (i + 1) { st with trace := tr2 }
    | Outcome.transportError =>
      match setHeaders st.message.Headers st.message.Data with
      | Except.error e => { st with trace := tr2, panic := some e }
      | Except.ok hdr =>
        let msg := { st.message with Headers := some hdr }
        let req : Request := ⟨"POST", msg.Url, hdr, msg.Data⟩
        retryLoop http n (i + 1) { st with message := msg, trace := tr2 ++ [Event.httpDo i req] }
    | Outcome.response statusCode =>
      match setHeaders st.message.Headers st.message.Data with
      | Except.error e => { st with trace := tr2, panic := some e }
      | Except.ok hdr =>
        let msg := { st.message with Headers := some hdr }
        let req : Request := ⟨"POST", msg.Url, hdr, msg.Data⟩
        let tr3 := tr2 ++ [Event.httpDo i req, Event.bodyClose i]
        if statusCode ≠ 200 then
          retryLoop http n (i + 1) { st with message := msg, trace := tr3 }
        else
          { st with success := true, message := msg, trace := tr3 }

/-- State of one client and of the world it acts on. -/
structure World where
  client : AsyncClient
  trace : List Event
  deriving DecidableEq, Repr

/-- How far a goroutine gets when it runs alone: it returns, it stays blocked on a
channel operation, or it panics; in each case with the state it has reached. -/
inductive Progress (α : Type) where
  | blocked (state : α)
  | returned (state : α)
  | panicked (state : α)
  deriving DecidableEq, Repr

/-- The state reached. -/
def Progress.state {α : Type} : Progress α → α
  | Progress.blocked a => a
  | Progress.returned a => a
  | Progress.panicked a => a

/-- Number of loop iterations the condition `i < client.retries + 1` admits. -/
def loopBound (client : AsyncClient) : Nat :=
  (wrapInt (client.retries + 1)).toNat

/-- Method `callWithRetry`.  A panic in the loop ends the goroutine there, before
line 75; otherwise the goroutine stays blocked when the final `<- client.pending`
finds the channel empty. -/
def callWithRetry (http : Nat → Outcome) (message : CallMessage) (w : World) :
    Progress (CallMessage × World) :=
  let st := retryLoop http (loopBound w.client) 0 ⟨false, message, w.trace, none⟩
  match st.panic with
  | some _ => Progress.panicked (st.message, { w with trace := st.trace })
  | none =>
    match w.client.pending.recv with
    | none => Progress.blocked (st.message, { w with trace := st.trace })
    | some ch =>
      let tr := st.trace ++ [Event.pendingRecv]
      let tr1 :=
        if st.success then tr ++ [Event.rpcSuccess message.Topic]
        else tr ++ [Event.rpcFail message.Topic]
      Progress.returned (st.message, { client := { w.client with pending := ch }, trace := tr1 })

/-- Method `Call`.  The caller stays blocked when `client.pending <- byte(1)`
finds the channel full. -/
def Call (message : CallMessage) (w : World) : Progress World :=
  let tr := w.trace ++ [Event.rpcTotal message.Topic]
  match w.client.pending.send 1 with
  | none => Progress.blocked { w with trace := tr }
  | some ch =>
    let tr1 := tr ++ [Event.pendingSend]
    let tr2 := tr1 ++ [Event.getToken 1]
    let tr3 := tr2 ++ [Event.spawn message]
    Progress.returned { client := { w.client with pending := ch }, trace := tr3 }

/-- Method `PendingCount`. -/
def PendingCount (client : AsyncClient) : Nat :=
  client.pending.len

/-- Function `CreateAsyncClient`.  Of the panics of `make(chan byte, n)` only the one
for `n < 0` is kept: a size above the allocation limit of the run-time, which
panics as well, is not told apart from one below it. -/
def CreateAsyncClient (info : ConsumerInfo) : Except Panic AsyncClient :=
  if info.Concurrency < 0 then Except.error Panic.makeChanSize
  else Except.ok
    { retries := info.Retries
      timeout := info.Timeout
      pending := ⟨info.Concurrency.toNat, []⟩
      rateLimit := ⟨info.RateLimit⟩ }

/-! ## Statistics read off a trace -/

/-- Loop indices of the delivery attempts in a trace, one per call of
`http.NewRequest`, in order. -/
def attemptIndices : List Event → List Nat
  | [] => []
  | Event.newRequest i _ _ _ :: rest => i :: attemptIndices rest
  | _ :: rest => attemptIndices rest

/-- Number of loop iterations (delivery attempts) in a trace. -/
def attempts (tr : List Event) : Nat :=
  (attemptIndices tr).length

/-- Modelled from the spec: the per-topic "retried" counter of package stats
(outside these sources), one increment per `ClientStats_rpcRetries` call. -/
def retried (tr : List Event) (topic : String) : Nat :=
  tr.count (Event.rpcRetries topic)

/-- Modelled from the spec: the per-topic "succeeded" counter of package stats,
one increment per `ClientStats_rpcSuccess` call. -/
def succeeded (tr : List Event) (topic : String) : Nat :=
  tr.count (Event.rpcSuccess topic)

/-- Modelled from the spec: the per-topic "failed" counter of package stats,
one increment per `ClientStats_rpcFail` call. -/
def failed (tr : List Event) (topic : String) : Nat :=
  tr.count (Event.rpcFail topic)

/-- Modelled from the spec: the per-topic "attempted" counter of package stats,
one increment per `ClientStats_rpcTotal` call. -/
def attempted (tr : List Event) (topic : String) : Nat :=
  tr.count (Event.rpcTotal topic)

/-- Number of completed receives from `client.pending` in a trace. -/
def releases (tr : List Event) : Nat :=
  tr.count Event.pendingRecv

/-! ## Interleavings of `Call` and `callWithRetry` on one client -/

/-- Where one delivery stands. -/
inductive Phase where
  /-- In `Call`, line 85 done, at `client.pending <- byte(1)`. -/
  | waiting
  /-- Line 88 done: the slot is taken; `getToken` and `go` are still to come. -/
  | admitted
  /-- In the loop of `callWithRetry`, about to test `i < client.retries + 1`. -/
  | looping (i : Nat)
  /-- Left the loop through `break`, at `<- client.pending`. -/
  | delivered
  /-- Line 75 done: the slot is given back. -/
  | released
  deriving DecidableEq, Repr

/-- The delivery holds a slot of `client.pending`. -/
def Phase.holdsSlot : Phase → Bool
  | Phase.admitted => true
  | Phase.looping _ => true
  | Phase.delivered => true
  | _ => false

/-- One client shared by the deliveries in flight: delivery `k` is entry `k`. -/
structure System where
  client : AsyncClient
  deliveries : List Phase
  deriving DecidableEq, Repr

/-- Atomic steps of the goroutines. -/
inductive Step where
  /-- Some caller enters `Call` with a new message (line 85). -/
  | enter
  /-- Delivery `k` completes `client.pending <- byte(1)` (line 88). -/
  | send (k : Nat)
  /-- Delivery `k` gets its token and its goroutine is started (lines 91-94). -/
  | start (k : Nat)
  /-- Delivery `k` runs one loop iteration, the HTTP stack answering `o`. -/
  | attempt (k : Nat) (o : Outcome)
  /-- Delivery `k` completes `<- client.pending` (line 75). -/
  | release (k : Nat)
  deriving DecidableEq, Repr

/-- The system after one step; `none` when the step cannot be taken in this state.
An iteration that panics ends the whole process, so that no state follows it: the
states that the code reaches are among those reached here. -/
def System.step (s : System) : Step → Option System
  | Step.enter => some { s with deliveries := s.deliveries ++ [Phase.waiting] }
  | Step.send k =>
    match s.deliveries.get? k, s.client.pending.send 1 with
    | some Phase.waiting, some ch =>
      some { client := { s.client with pending := ch }
             deliveries := s.deliveries.set k Phase.admitted }
    | _, _ => none
  | Step.start k =>
    match s.deliveries.get? k with
    | some Phase.admitted => some { s with deliveries := s.deliveries.set k (Phase.looping 0) }
    | _ => none
  | Step.attempt k o =>
    match s.deliveries.get? k with
    | some (Phase.looping i) =>
      if i < loopBound s.client then
        let next := if o = Outcome.response 200 then Phase.delivered else Phase.looping (i + 1)
        some { s with deliveries := s.deliveries.set k next }
      else none
    | _ => none
  | Step.release k =>
    match s.deliveries.get? k, s.client.pending.recv with
    | some (Phase.looping i), some ch =>
      if i < loopBound s.client then none
      else some { client := { s.client with pending := ch }
                  deliveries := s.deliveries.set k Phase.released }
    | some Phase.delivered, some ch =>
      some { client := { s.client with pending := ch }
             deliveries := s.deliveries.set k Phase.released }
    | _, _ => none

/-- The system after a sequence of steps. -/
def System.run (s : System) : List Step → Option System
  | [] => some s
  | a :: rest => (s.step a).bind fun s1 => s1.run rest

/-- A fresh client with no delivery yet. -/
def System.init (client : AsyncClient) : System :=
  { client := { client with pending := { client.pending with buf := [] } }, deliveries := [] }

/-- Number of admitted deliveries that have not yet released their slot. -/
def System.outstanding (s : System) : Nat :=
  s.deliveries.countP Phase.holdsSlot

/-! ## Reading a decoded configuration -/

/-- The string held by a decoded value, when it is one. -/
def JSON.str? : Option JSON → Option String
  | some (JSON.string s) => some s
  | _ => none

/-- The number held by a decoded value, when it is one. -/
def JSON.num? : Option JSON → Option Float64
  | some (JSON.number f) => some f
  | _ => none

/-- The elements of a decoded value, when it is an array. -/
def JSON.arr? : Option JSON → Option (List JSON)
  | some (JSON.array items) => some items
  | _ => none

/-- The value under `key` of a decoded value, when it is an object with that key. -/
def JSON.field (j : JSON) (key : String) : Option JSON :=
  match j with
  | JSON.object fields => fields.lookup key
  | _ => none

/-- The entry is an object whose `keys` all hold strings. -/
def JSON.hasStrings (j : JSON) (keys : List String) : Bool :=
  match j with
  | JSON.object fields => keys.all fun k => (JSON.str? (fields.lookup k)).isSome
  | _ => false

/-- The entry is an object whose `keys` all hold numbers. -/
def JSON.hasNumbers (j : JSON) (keys : List String) : Bool :=
  match j with
  | JSON.object fields => keys.all fun k => (JSON.num? (fields.lookup k)).isSome
  | _ => false

/-- An entry of `kafka.topics` has the fields that lines 90-92 assert. -/
def topicTyped (j : JSON) : Bool :=
  j.hasStrings ["name"] && j.hasNumbers ["partitions"]

/-- An entry of `kafka.producer.acl` has the fields that lines 100-103 assert. -/
def aclTyped (j : JSON) : Bool :=
  j.hasStrings ["name", "secret", "topic"]

/-- A `circuitBreaker` block has the fields that lines 124-130 assert. -/
def breakerTyped (j : JSON) : Bool :=
  j.hasNumbers ["recoverPeriod", "breakPeriod", "winSize", "healthRate", "minStats"]

/-- An entry of `kafka.consumer.list` has the fields that lines 114-130 assert. -/
def consumerTyped (j : JSON) : Bool :=
  j.hasStrings ["topic", "groupId"] &&
    j.hasNumbers ["rateLimit", "retries", "timeout", "concurrency"] &&
    match j.field "circuitBreaker" with
    | none => true
    | some block => breakerTyped block

/-- The top-level scalars have the types that lines 76-84 assert. -/
def scalarsTyped (dict : List (String × JSON)) : Bool :=
  (JSON.object dict).hasStrings ["log.directory", "kafka.bootstrap.servers"] &&
    (JSON.object dict).hasNumbers ["log.level", "kafka.producer.retries", "http.server.port",
      "http.server.read.timeout", "http.server.write.timeout",
      "http.server.handler.channel.size"]

/-- The array under `key` is present and all its entries pass `typed`. -/
def arrayTyped (dict : List (String × JSON)) (key : String) (typed : JSON → Bool) : Bool :=
  match JSON.arr? (dict.lookup key) with
  | some items => items.all typed
  | none => false

/-- Every field that `ParseConfig` asserts is present with the asserted type. -/
def wellTyped (dict : List (String × JSON)) : Bool :=
  scalarsTyped dict && arrayTyped dict "kafka.topics" topicTyped &&
    arrayTyped dict "kafka.producer.acl" aclTyped &&
    arrayTyped dict "kafka.consumer.list" consumerTyped

/-- The entries of the array under `key` (none when it is not an array). -/
def entriesOf (dict : List (String × JSON)) (key : String) : List JSON :=
  (JSON.arr? (dict.lookup key)).getD []

/-- The strings that the entries of `items` hold under `key`. -/
def stringsOf (items : List JSON) (key : String) : List String :=
  items.filterMap fun j => JSON.str? (j.field key)

/-- Names of the configured topics. -/
def topicNames (dict : List (String × JSON)) : List String :=
  stringsOf (entriesOf dict "kafka.topics") "name"

/-- Topics named by the producer ACL entries. -/
def aclTopics (dict : List (String × JSON)) : List String :=
  stringsOf (entriesOf dict "kafka.producer.acl") "topic"

/-- Topics named by the consumer entries. -/
def consumerTopics (dict : List (String × JSON)) : List String :=
  stringsOf (entriesOf dict "kafka.consumer.list") "topic"

/-- The `circuitBreaker` blocks of the entries of `items`. -/
def blocksOf (items : List JSON) : List JSON :=
  items.filterMap fun j => j.field "circuitBreaker"

/-- The `circuitBreaker` blocks of the consumer entries. -/
def breakerBlocks (dict : List (String × JSON)) : List JSON :=
  blocksOf (entriesOf dict "kafka.consumer.list")

/-- The constraint `winSize > 0 ∧ minStats > 0 ∧ 0 < healthRate ≤ 100` on the numbers
written in a block. -/
def blockValid (block : JSON) : Bool :=
  match JSON.num? (block.field "winSize"), JSON.num? (block.field "minStats"),
    JSON.num? (block.field "healthRate") with
  | some winSize, some minStats, some healthRate =>
    winSize.gtInt 0 && minStats.gtInt 0 && healthRate.gtInt 0 && healthRate.leInt 100
  | _, _, _ => false

/-- The numbers `winSize` and `minStats` written in a block are whole numbers
that an `int` holds. -/
def blockIntegral (block : JSON) : Bool :=
  match JSON.num? (block.field "winSize"), JSON.num? (block.field "minStats") with
  | some winSize, some minStats => winSize.isInt && minStats.isInt
  | _, _ => false

/-- The test of line 131 on the numbers written in a block, as the code converts them. -/
def blockRejected (block : JSON) : Bool :=
  match JSON.num? (block.field "winSize"), JSON.num? (block.field "minStats"),
    JSON.num? (block.field "healthRate") with
  | some winSize, some minStats, some healthRate =>
    decide (winSize.toInt ≤ 0) || decide (minStats.toInt ≤ 0) || healthRate.leInt 0 ||
      healthRate.gtInt 100
  | _, _, _ => false

/-- The numbers `winSize` and `minStats` written in a block are whole numbers,
of any size. -/
def blockWhole (block : JSON) : Bool :=
  match JSON.num? (block.field "winSize"), JSON.num? (block.field "minStats") with
  | some winSize, some minStats => winSize.isWhole && minStats.isWhole
  | _, _ => false

/-- The entry names a topic that is not among `names`: the test of lines 106 and
139 fails for it. -/
def topicMissing (names : List String) (j : JSON) : Bool :=
  match JSON.str? (j.field "topic") with
  | some t => !names.contains t
  | none => false

/-- The consumer entry fails one of its two checks: its `circuitBreaker` block
meets the test of line 131, or its topic is not among `names`. -/
def consumerFails (names : List String) (j : JSON) : Bool :=
  (match j.field "circuitBreaker" with
    | some block => blockRejected block
    | none => false) || topicMissing names j

/-- Some entry of `items` fails its check, and this entry and all entries before it
have their fields with the asserted types (in one entry every type assertion comes
before the checks): going through the entries in order, the failing check is
reached before any missing or wrongly typed field. -/
def checkFailsFirst (typed fails : JSON → Bool) : List JSON → Bool
  | [] => false
  | j :: rest => typed j && (fails j || checkFailsFirst typed fails rest)

/-- A check of `ParseConfig` fails before any type assertion does, in the order in
which the loader works: the top-level scalars, the topics, the ACL entries, the
consumer entries.  The scalars and the topics are well typed, and either an ACL entry
fails its topic check before any defective ACL field, or all ACL entries are well
typed and pass and a consumer entry fails a check before any defective consumer
field. -/
def nilBeforePanic (dict : List (String × JSON)) : Bool :=
  scalarsTyped dict && arrayTyped dict "kafka.topics" topicTyped &&
    match JSON.arr? (dict.lookup "kafka.producer.acl") with
    | none => false
    | some acl =>
      checkFailsFirst aclTyped (topicMissing (topicNames dict)) acl ||
        (acl.all (fun j => aclTyped j && !topicMissing (topicNames dict) j) &&
          match JSON.arr? (dict.lookup "kafka.consumer.list") with
          | none => false
          | some consumers =>
            checkFailsFirst consumerTyped (consumerFails (topicNames dict)) consumers)

/-! ## Predicates used by the proofs -/

/-- What `n` loop iterations from index `i` on do to the counters of a trace:
`a` is the number of iterations that ran, the last of them ending in success, in
the exhaustion of the loop, or in the panic of a write into a nil header map. -/
structure LoopEffect (http : Nat → Outcome) (n i : Nat) (st r : LoopState) (a : Nat) : Prop where
  le : a ≤ n
  indices_eq : attemptIndices r.trace = attemptIndices st.trace ++ List.range' i a
  retried_eq : ∀ t, retried r.trace t =
    retried st.trace t + if st.message.Topic = t then (if i = 0 then a - 1 else a) else 0
  succeeded_eq : ∀ t, succeeded r.trace t = succeeded st.trace t
  failed_eq : ∀ t, failed r.trace t = failed st.trace t
  attempted_eq : ∀ t, attempted r.trace t = attempted st.trace t
  releases_eq : releases r.trace = releases st.trace
  topic_eq : r.message.Topic = st.message.Topic
  verdict : (r.success = true ∧ r.panic = st.panic ∧ st.message.Headers ≠ none ∧ 1 ≤ a ∧
      http (i + (a - 1)) = Outcome.response 200 ∧
      ∀ j, j < a - 1 → http (i + j) ≠ Outcome.response 200) ∨
    (r.success = st.success ∧ r.panic = st.panic ∧ a = n ∧
      (∀ j, j < n → http (i + j) ≠ Outcome.response 200) ∧
      (st.message.Headers = none → ∀ j, j < n → http (i + j) = Outcome.buildError)) ∨
    (r.success = st.success ∧ r.panic = some Panic.nilMapAssignment ∧
      st.message.Headers = none ∧ 1 ≤ a ∧ http (i + (a - 1)) ≠ Outcome.buildError ∧
      ∀ j, j < a - 1 → http (i + j) = Outcome.buildError)

/-- The gate invariant: the channel keeps its capacity `K`, holds at most `K`
elements, and holds one element per delivery that has a slot. -/
def System.Inv (K : Nat) (s : System) : Prop :=
  s.client.pending.cap = K ∧ s.client.pending.len ≤ K ∧ s.client.pending.len = s.outstanding

/-- The message `m` of a running loop still is the caller's message `orig`, whose
allocated header map is `h0`, up to the two header entries that the loop writes. -/
def SameUpToStamp (orig : CallMessage) (h0 : GoMap (List String)) (m : CallMessage) : Prop :=
  m.Topic = orig.Topic ∧ m.Url = orig.Url ∧ m.Data = orig.Data ∧
    ∃ h, m.Headers = some h ∧
      ∀ k, k ≠ "Content-Length" → k ≠ "Content-Type" → h.get? k = h0.get? k

/-- The request is the one the claim describes for the caller's message `orig`,
whose allocated header map is `h0`. -/
def StampedRequest (orig : CallMessage) (h0 : GoMap (List String)) (req : Request) : Prop :=
  req.Method = "POST" ∧ req.Url = orig.Url ∧ req.Body = orig.Data ∧
    req.Header.get? "Content-Length" = some [Nat.repr orig.Data.length] ∧
    req.Header.get? "Content-Type" = some ["application/octet-stream"] ∧
    ∀ k, k ≠ "Content-Length" → k ≠ "Content-Type" → req.Header.get? k = h0.get? k

/-! ## Sample inputs -/

/-- The decoded number `n`. -/
def JSON.int (n : Int) : JSON :=
  JSON.number (Float64.ofInt n)

/-- A decoded `circuitBreaker` block with the given winSize, minStats and healthRate. -/
def sampleBlock (winSize minStats healthRate : Float64) : JSON :=
  JSON.object [("breakPeriod", JSON.int 5000), ("recoverPeriod", JSON.int 30000),
    ("winSize", JSON.number winSize), ("minStats", JSON.number minStats),
    ("healthRate", JSON.number healthRate)]

/-- The fields other than `retries` of a decoded consumer entry for `topic`. -/
def sampleConsumerFields (topic : String) : List (String × JSON) :=
  [("topic", JSON.string topic), ("groupId", JSON.string "g1"), ("rateLimit", JSON.int 100),
    ("timeout", JSON.int 3000), ("concurrency", JSON.int 4)]

/-- A decoded consumer entry for `topic` without a `circuitBreaker` block. -/
def sampleConsumer (topic : String) : JSON :=
  JSON.object (("retries", JSON.int 2) :: sampleConsumerFields topic)

/-- A decoded consumer entry for `topic` with a `circuitBreaker` block. -/
def sampleConsumerWith (topic : String) (block : JSON) : JSON :=
  JSON.object (("retries", JSON.int 2) :: ("circuitBreaker", block) ::
    sampleConsumerFields topic)

/-- The top-level scalar fields of a decoded configuration, `log.directory` apart. -/
def sampleScalars (logLevel : JSON) : List (String × JSON) :=
  [("log.level", logLevel), ("kafka.bootstrap.servers", JSON.string "localhost:9092"),
    ("kafka.producer.retries", JSON.int 2), ("http.server.port", JSON.int 10086),
    ("http.server.read.timeout", JSON.int 5000), ("http.server.write.timeout", JSON.int 5000),
    ("http.server.handler.channel.size", JSON.int 10)]

/-- The three arrays of a decoded configuration: the one topic `orders`, one ACL
entry that names `aclTopic`, and the given consumer entries. -/
def sampleLists (aclTopic : String) (consumers : List JSON) : List (String × JSON) :=
  [("kafka.topics", JSON.array [JSON.object [("name", JSON.string "orders"),
      ("partitions", JSON.int 3)]]),
    ("kafka.producer.acl", JSON.array [JSON.object [("name", JSON.string "shop"),
      ("secret", JSON.string "s3cret"), ("topic", JSON.string aclTopic)]]),
    ("kafka.consumer.list", JSON.array consumers)]

/-- A decoded configuration with every top-level field. -/
def sampleDict (aclTopic : String) (consumers : List JSON) : List (String × JSON) :=
  ("log.directory", JSON.string "./logs") :: sampleScalars (JSON.int 5) ++
    sampleLists aclTopic consumers

/-- A message for the topic `orders`, with a caller header of its own and a
caller value for `Content-Type`. -/
def sampleMessage : CallMessage :=
  { Topic := "orders", Url := "http://localhost:8080/hook", Data := [104, 105],
    Headers := some [("X-Trace", ["abc"]), ("Content-Type", ["text/plain"])] }

/-- The same message with a nil header map. -/
def sampleNilMessage : CallMessage :=
  { sampleMessage with Headers := none }

/-- A client with the given `retries`, capacity 1 and one slot taken, on an empty trace. -/
def sampleWorld (retries : Int) : World :=
  { client := { retries := retries, timeout := 3000, pending := ⟨1, [1]⟩, rateLimit := ⟨100⟩ }
    trace := [] }

/-- A consumer descriptor with concurrency 1 and two retries. -/
def sampleInfo : ConsumerInfo :=
  { Topic := "orders", GroupId := "g1", RateLimit := 100, Retries := 2, Timeout := 3000,
    Concurrency := 1, CircuiteBreakerInfo := none }

/-- The client that `CreateAsyncClient` builds from `sampleInfo`. -/
def sampleClient : AsyncClient :=
  { retries := 2, timeout := 3000, pending := ⟨1, []⟩, rateLimit := ⟨100⟩ }

/-- Two calls: the first is admitted, fails once, succeeds and releases its slot,
then the second is admitted. -/
def sampleSteps : List Step :=
  [Step.enter, Step.enter, Step.send 0, Step.start 0, Step.attempt 0 (Outcome.response 500),
    Step.attempt 0 (Outcome.response 200), Step.release 0, Step.send 1]

/-- The HTTP stack that answers 200 on attempt 0 and 500 afterwards. -/
def okAtFirst (i : Nat) : Outcome :=
  if i = 0 then Outcome.response 200 else Outcome.response 500

/-- A decoded configuration whose one consumer has a block with these numbers. -/
def sampleDictWith (winSize minStats healthRate : Int) : List (String × JSON) :=
  sampleDict "orders" [sampleConsumerWith "orders"
    (sampleBlock (Float64.ofInt winSize) (Float64.ofInt minStats) (Float64.ofInt healthRate))]

/-! ## Events of an attempt -/

/-- The event belongs to a delivery attempt: the retry count, the request
construction, the send or the closing of the response body. -/
def Event.isAttemptEvent : Event → Bool
  | Event.rpcRetries _ => true
  | Event.newRequest _ _ _ _ => true
  | Event.httpDo _ _ => true
  | Event.bodyClose _ => true
  | _ => false

/-! ## What a loaded configuration holds -/

/-- The comparison `f == n` with an integer. -/
def Float64.eqInt (f : Float64) (n : Int) : Bool :=
  decide (f.mant = n * 2 ^ f.scale)

/-- The comparison `f < n` with an integer constant. -/
def Float64.ltInt (f : Float64) (n : Int) : Bool :=
  decide (f.mant < n * 2 ^ f.scale)

/-- The `int` that the number written under `key` converts to. -/
def JSON.intField (j : JSON) (key : String) : Option Int :=
  (JSON.num? (j.field key)).map Float64.toInt

/-- The stored circuit-breaker parameters are those written in the block, the four
int fields converted by `int(...)`. -/
def BreakerMatches (block : JSON) (cb : CircuitBreakerInfo) : Prop :=
  block.intField "breakPeriod" = some cb.BreakPeriod ∧
    block.intField "recoverPeriod" = some cb.RecoverPeriod ∧
    block.intField "winSize" = some cb.WinSize ∧
    block.intField "minStats" = some cb.MinStats ∧
    JSON.num? (block.field "healthRate") = some cb.HealthRate

/-- The stored pointer is nil exactly when the entry has no block, and otherwise
points to the parameters written in the block. -/
def BlockMatches : Option JSON → Option CircuitBreakerInfo → Prop
  | none, none => True
  | some block, some cb => BreakerMatches block cb
  | _, _ => False

/-- The stored consumer is the one written in the entry, the four int fields
converted by `int(...)`, with a nil `CircuiteBreakerInfo` exactly when the entry has
no `circuitBreaker` block. -/
def ConsumerMatches (entry : JSON) (c : ConsumerInfo) : Prop :=
  JSON.str? (entry.field "topic") = some c.Topic ∧
    JSON.str? (entry.field "groupId") = some c.GroupId ∧
    entry.intField "rateLimit" = some c.RateLimit ∧
    entry.intField "retries" = some c.Retries ∧
    entry.intField "timeout" = some c.Timeout ∧
    entry.intField "concurrency" = some c.Concurrency ∧
    BlockMatches (entry.field "circuitBreaker") c.CircuiteBreakerInfo

/-- Name and content of an entry of `kafka.topics`. -/
def topicOf (entry : JSON) : Option (String × TopicInfo) :=
  match JSON.str? (entry.field "name"), entry.intField "partitions" with
  | some name, some partitions => some (name, { Partitions := partitions })
  | _, _ => none

/-- Name and content of an entry of `kafka.producer.acl`. -/
def aclOf (entry : JSON) : Option (String × ProducerACL) :=
  match JSON.str? (entry.field "name"), JSON.str? (entry.field "secret"),
    JSON.str? (entry.field "topic") with
  | some name, some secret, some topic =>
    some (name, { Name := name, Secret := secret, Topic := topic })
  | _, _, _ => none

/-- The content of the last pair named `name`, in list order. -/
def lastWith {α : Type} (pairs : List (String × α)) (name : String) : Option α :=
  List.lookup name pairs.reverse

/-- The map after the assignments `m[p.1] = p.2` for the pairs in list order. -/
def GoMap.setAll {α : Type} (m : GoMap α) (pairs : List (String × α)) : GoMap α :=
  pairs.foldl (fun acc p => acc.set p.1 p.2) m

/-- A block whose `winSize` or `minStats` is strictly between 0 and 1. -/
def blockFractional (block : JSON) : Prop :=
  (∃ f, JSON.num? (block.field "winSize") = some f ∧ f.gtInt 0 = true ∧ f.ltInt 1 = true) ∨
    ∃ f, JSON.num? (block.field "minStats") = some f ∧ f.gtInt 0 = true ∧ f.ltInt 1 = true

/-! ## More sample inputs -/

/-- A decoded consumer entry for `topic` with the given number under `retries`. -/
def sampleConsumerRetries (retries : Float64) (topic : String) : JSON :=
  JSON.object (("retries", JSON.number retries) :: sampleConsumerFields topic)

/-- A decoded entry of `kafka.topics`. -/
def sampleTopic (name : String) (partitions : Int) : JSON :=
  JSON.object [("name", JSON.string name), ("partitions", JSON.int partitions)]

/-- A decoded entry of `kafka.producer.acl`. -/
def sampleAcl (name secret topic : String) : JSON :=
  JSON.object [("name", JSON.string name), ("secret", JSON.string secret),
    ("topic", JSON.string topic)]

/-- A decoded configuration with the given entries in its three arrays. -/
def sampleDictOf (topics acl consumers : List JSON) : List (String × JSON) :=
  ("log.directory", JSON.string "./logs") :: sampleScalars (JSON.int 5) ++
    [("kafka.topics", JSON.array topics), ("kafka.producer.acl", JSON.array acl),
      ("kafka.consumer.list", JSON.array consumers)]

/-- A decoded configuration whose one consumer has a block with this `winSize`. -/
def sampleDictWinSize (winSize : Float64) : List (String × JSON) :=
  sampleDict "orders" [sampleConsumerWith "orders"
    (sampleBlock winSize (Float64.ofInt 5) (Float64.ofInt 50))]

/-- The `Retries` of the consumers of a load result. -/
def loadedRetries (r : Except Panic (Option Config)) : Except Panic (Option (List Int)) :=
  r.map fun c => c.map fun cfg => cfg.Kafka_consumer_list.map ConsumerInfo.Retries

/-- The `WinSize` of the circuit breakers of the consumers of a load result. -/
def loadedWinSizes (r : Except Panic (Option Config)) :
    Except Panic (Option (List (Option Int))) :=
  r.map fun c => c.map fun cfg =>
    cfg.Kafka_consumer_list.map fun info => info.CircuiteBreakerInfo.map CircuitBreakerInfo.WinSize

/-- A client of concurrency 1 whose first delivery has made one failed attempt of
its three, while a second call waits. -/
def sampleMidRetry : List Step :=
  [Step.enter, Step.enter, Step.send 0, Step.start 0, Step.attempt 0 (Outcome.response 500)]

/-- The state that `sampleMidRetry` leads to. -/
def sampleMidState : System :=
  ⟨{ sampleClient with pending := ⟨1, [1]⟩ }, [Phase.looping 1, Phase.waiting]⟩

/-! # Theorems -/

/-! ## Go maps -/

theorem GoMap.get?_set_self {α : Type} (m : GoMap α) (k : String) (v : α) :
    (m.set k v).get? k = some v := by
  induction m with
  | nil => simp [GoMap.set, GoMap.get?, List.lookup]
  | cons p rest ih =>
    obtain ⟨k1, v1⟩ := p
    by_cases h : k1 = k
    · subst h
      simp [GoMap.set, GoMap.get?, List.lookup]
    · have hb : (k == k1) = false := by simpa using fun e => h e.symm
      simp only [GoMap.get?] at ih
      simp [GoMap.set, GoMap.get?, List.lookup, h, hb, ih]

theorem GoMap.get?_set_of_ne {α : Type} (m : GoMap α) (k j : String) (v : α) (hj : j ≠ k) :
    (m.set k v).get? j = m.get? j := by
  induction m with
  | nil =>
    have hb : (j == k) = false := by simpa using hj
    simp [GoMap.set, GoMap.get?, List.lookup, hb]
  | cons p rest ih =>
    obtain ⟨k1, v1⟩ := p
    simp only [GoMap.get?] at ih
    by_cases h : k1 = k
    · subst h
      have hb : (j == k1) = false := by simpa using hj
      simp [GoMap.set, GoMap.get?, List.lookup, hb]
    · by_cases hj1 : j = k1
      · subst hj1
        simp [GoMap.set, GoMap.get?, List.lookup, h]
      · have hb : (j == k1) = false := by simpa using hj1
        simp [GoMap.set, GoMap.get?, List.lookup, h, hb, ih]

/-! ## The retry loop -/

theorem attemptIndices_append (l1 l2 : List Event) :
    attemptIndices (l1 ++ l2) = attemptIndices l1 ++ attemptIndices l2 := by
  induction l1 with
  | nil => rfl
  | cons e rest ih => cases e <;> simp [attemptIndices, ih]

theorem LoopEffect.attempts_eq {http : Nat → Outcome} {n i : Nat} {st r : LoopState} {a : Nat}
    (h : LoopEffect http n i st r a) : attempts r.trace = attempts st.trace + a := by
  simp [attempts, h.indices_eq]

/-- One failed iteration in front of the remaining loop. -/
theorem LoopEffect.failedIteration {http : Nat → Outcome} {n i : Nat} {st st1 r : LoopState}
    {a : Nat} (h : LoopEffect http n (i + 1) st1 r a) (hne : http i ≠ Outcome.response 200)
    (hT : st1.message.Topic = st.message.Topic) (hS : st1.success = st.success)
    (hP : st1.panic = st.panic)
    (hN : st1.message.Headers = none →
      st.message.Headers = none ∧ http i = Outcome.buildError)
    (hM : st.message.Headers = none → st1.message.Headers = none)
    (hA : attemptIndices st1.trace = attemptIndices st.trace ++ [i])
    (hR : ∀ t, retried st1.trace t =
      retried st.trace t + if st.message.Topic = t ∧ i ≠ 0 then 1 else 0)
    (hSu : ∀ t, succeeded st1.trace t = succeeded st.trace t)
    (hF : ∀ t, failed st1.trace t = failed st.trace t)
    (hTo : ∀ t, attempted st1.trace t = attempted st.trace t)
    (hRe : releases st1.trace = releases st.trace) :
    LoopEffect http (n + 1) i st r (a + 1) where
  le := Nat.succ_le_succ h.le
  indices_eq := by rw [h.indices_eq, hA, List.range'_succ]; simp
  retried_eq := by
    intro t
    rw [h.retried_eq t, hR t, hT]
    by_cases ht : st.message.Topic = t <;> by_cases hi : i = 0 <;> simp [ht, hi]
    omega
  succeeded_eq := fun t => by rw [h.succeeded_eq t, hSu t]
  failed_eq := fun t => by rw [h.failed_eq t, hF t]
  attempted_eq := fun t => by rw [h.attempted_eq t, hTo t]
  releases_eq := by rw [h.releases_eq, hRe]
  topic_eq := by rw [h.topic_eq, hT]
  verdict := by
    have shift : ∀ j, 0 < j → i + 1 + (j - 1) = i + j := fun j hj => by omega
    rcases h.verdict with ⟨h1, hp, hs, h2, h3, h4⟩ | ⟨h1, hp, h2, h3, h5⟩ |
      ⟨h1, hp, hn, h2, h3, h4⟩
    · left
      refine ⟨h1, by rw [hp, hP], fun hno => hs (hM hno), by omega, ?_, ?_⟩
      · have e : i + (a + 1 - 1) = i + 1 + (a - 1) := by omega
        rw [e]; exact h3
      · intro j hj
        rcases Nat.eq_zero_or_pos j with rfl | hpos
        · simpa using hne
        · rw [← shift j hpos]; exact h4 (j - 1) (by omega)
    · right; left
      refine ⟨by rw [h1, hS], by rw [hp, hP], by omega, ?_, ?_⟩
      · intro j hj
        rcases Nat.eq_zero_or_pos j with rfl | hpos
        · simpa using hne
        · rw [← shift j hpos]; exact h3 (j - 1) (by omega)
      · intro hno j hj
        rcases Nat.eq_zero_or_pos j with rfl | hpos
        · simpa using (hN (hM hno)).2
        · rw [← shift j hpos]; exact h5 (hM hno) (j - 1) (by omega)
    · right; right
      obtain ⟨hn0, hb⟩ := hN hn
      refine ⟨by rw [h1, hS], hp, hn0, by omega, ?_, ?_⟩
      · have e : i + (a + 1 - 1) = i + 1 + (a - 1) := by omega
        rw [e]; exact h3
      · intro j hj
        rcases Nat.eq_zero_or_pos j with rfl | hpos
        · simpa using hb
        · rw [← shift j hpos]; exact h4 (j - 1) (by omega)

/-- The iteration that panics on the nil header map. -/
theorem LoopEffect.panicIteration (http : Nat → Outcome) (n i : Nat) (st : LoopState)
    (hH : st.message.Headers = none) (hb : http i ≠ Outcome.buildError) :
    LoopEffect http (n + 1) i st
      { st with
        trace := (if i ≠ 0 then st.trace ++ [Event.rpcRetries st.message.Topic]
            else st.trace) ++ [Event.newRequest i "POST" st.message.Url st.message.Data]
        panic := some Panic.nilMapAssignment } 1 := by
  refine ⟨by omega, ?_, ?_, ?_, ?_, ?_, ?_, rfl,
    Or.inr (Or.inr ⟨rfl, rfl, hH, le_refl 1, by simpa using hb, by simp⟩)⟩ <;>
    intros <;> by_cases h0 : i = 0 <;>
    simp [attemptIndices_append, attemptIndices, retried, succeeded, failed, attempted,
      releases, h0, List.count_append, List.count_cons]

theorem retryLoop_effect (http : Nat → Outcome) (n : Nat) :
    ∀ (i : Nat) (st : LoopState), ∃ a, LoopEffect http n i st (retryLoop http n i st) a := by
  induction n with
  | zero =>
    intro i st
    exact ⟨0, by constructor <;> simp [retryLoop]⟩
  | succ n ih =>
    intro i st
    rcases hi : http i with _ | _ | code
    · simp only [retryLoop, hi]
      obtain ⟨a, ha⟩ := ih (i + 1) { st with trace := (if i ≠ 0 then st.trace ++ [Event.rpcRetries st.message.Topic] else st.trace) ++ [Event.newRequest i "POST" st.message.Url st.message.Data] }
      refine ⟨a + 1, ha.failedIteration (by simp [hi]) rfl rfl rfl (fun h => ⟨h, hi⟩)
        (fun h => h) ?_ ?_ ?_ ?_ ?_ ?_⟩ <;>
        intros <;> by_cases h0 : i = 0 <;>
        simp [attemptIndices_append, attemptIndices, retried, succeeded, failed, attempted,
          releases, h0, List.count_append, List.count_cons]
    · cases hH : st.message.Headers with
      | none =>
        simp only [retryLoop, hi, hH, setHeaders]
        exact ⟨1, LoopEffect.panicIteration http n i st hH (by simp [hi])⟩
      | some hdr0 =>
        simp only [retryLoop, hi, hH, setHeaders]
        obtain ⟨a, ha⟩ := ih (i + 1) { st with
          message := { st.message with Headers := some (stampHeaders hdr0 st.message.Data) }
          trace := (if i ≠ 0 then st.trace ++ [Event.rpcRetries st.message.Topic] else st.trace) ++ [Event.newRequest i "POST" st.message.Url st.message.Data] ++
            [Event.httpDo i ⟨"POST", st.message.Url, stampHeaders hdr0 st.message.Data, st.message.Data⟩] }
        refine ⟨a + 1, ha.failedIteration (by simp [hi]) rfl rfl rfl (fun h => by simp at h)
          (fun h => by simp [hH] at h) ?_ ?_ ?_ ?_ ?_ ?_⟩ <;>
          intros <;> by_cases h0 : i = 0 <;>
          simp [attemptIndices_append, attemptIndices, retried, succeeded, failed, attempted,
            releases, h0, List.count_append, List.count_cons]
    · cases hH : st.message.Headers with
      | none =>
        simp only [retryLoop, hi, hH, setHeaders]
        exact ⟨1, LoopEffect.panicIteration http n i st hH (by simp [hi])⟩
      | some hdr0 =>
        by_cases hc : code = 200
        · subst hc
          refine ⟨1, ?_⟩
          simp only [retryLoop, hi, hH, setHeaders]
          refine ⟨by omega, ?_, ?_, ?_, ?_, ?_, ?_, by simp, Or.inl (by simp [hi, hH])⟩ <;>
            intros <;> by_cases h0 : i = 0 <;>
            simp [attemptIndices_append, attemptIndices, retried, succeeded, failed, attempted,
              releases, h0, List.count_append, List.count_cons]
        · simp only [retryLoop, hi, hH, setHeaders]
          obtain ⟨a, ha⟩ := ih (i + 1) { st with
            message := { st.message with Headers := some (stampHeaders hdr0 st.message.Data) }
            trace := (if i ≠ 0 then st.trace ++ [Event.rpcRetries st.message.Topic] else st.trace) ++ [Event.newRequest i "POST" st.message.Url st.message.Data] ++
              [Event.httpDo i ⟨"POST", st.message.Url, stampHeaders hdr0 st.message.Data, st.message.Data⟩, Event.bodyClose i] }
          refine ⟨a + 1, ?_⟩
          simp only [ne_eq, hc, not_false_eq_true, if_true]
          refine ha.failedIteration (by simp [hi, hc]) rfl rfl rfl (fun h => by simp at h)
            (fun h => by simp [hH] at h) ?_ ?_ ?_ ?_ ?_ ?_ <;>
            intros <;> by_cases h0 : i = 0 <;>
            simp [attemptIndices_append, attemptIndices, retried, succeeded, failed, attempted,
              releases, h0, List.count_append, List.count_cons]

theorem Itoa_ofNat (n : Nat) : Itoa (Int.ofNat n) = Nat.repr n := rfl

theorem stampHeaders_contentLength (h : GoMap (List String)) (data : List UInt8) :
    (stampHeaders h data).get? "Content-Length" = some [Nat.repr data.length] := by
  unfold stampHeaders
  rw [GoMap.get?_set_of_ne _ _ _ _ (by decide), GoMap.get?_set_self, Itoa_ofNat]

theorem stampHeaders_contentType (h : GoMap (List String)) (data : List UInt8) :
    (stampHeaders h data).get? "Content-Type" = some ["application/octet-stream"] := by
  unfold stampHeaders
  rw [GoMap.get?_set_self]

theorem stampHeaders_other (h : GoMap (List String)) (data : List UInt8) (k : String)
    (h1 : k ≠ "Content-Length") (h2 : k ≠ "Content-Type") :
    (stampHeaders h data).get? k = h.get? k := by
  unfold stampHeaders
  rw [GoMap.get?_set_of_ne _ _ _ _ h2, GoMap.get?_set_of_ne _ _ _ _ h1]

theorem stamped_of_same (orig m : CallMessage) (h0 h : GoMap (List String))
    (hm : m.Headers = some h) (hs : SameUpToStamp orig h0 m) :
    StampedRequest orig h0 ⟨"POST", m.Url, stampHeaders h m.Data, m.Data⟩ ∧
      SameUpToStamp orig h0 { m with Headers := some (stampHeaders h m.Data) } := by
  obtain ⟨hT, hU, hD, h1, hm1, hH⟩ := hs
  rw [hm] at hm1
  simp only [Option.some.injEq] at hm1
  subst hm1
  refine ⟨⟨rfl, hU, hD, ?_, stampHeaders_contentType _ _, ?_⟩, hT, hU, hD, _, rfl, ?_⟩
  · rw [stampHeaders_contentLength, hD]
  · intro k h1 h2
    show (stampHeaders h m.Data).get? k = _
    rw [stampHeaders_other _ _ k h1 h2]
    exact hH k h1 h2
  · intro k h1 h2
    rw [stampHeaders_other _ _ k h1 h2]
    exact hH k h1 h2

/-- One iteration of the loop: the events of its first lines, and the four ways it
goes on. -/
theorem retryLoop_succ (http : Nat → Outcome) (n i : Nat) (st : LoopState) :
    ∃ pre, (∀ e, e ∈ pre → e.isAttemptEvent = true) ∧ attemptIndices pre = [i] ∧
      (∀ j req, Event.httpDo j req ∉ pre) ∧
      ((http i = Outcome.buildError ∧
          retryLoop http (n + 1) i st =
            retryLoop http n (i + 1) { st with trace := st.trace ++ pre }) ∨
        (http i ≠ Outcome.buildError ∧ st.message.Headers = none ∧
          retryLoop http (n + 1) i st =
            { st with trace := st.trace ++ pre, panic := some Panic.nilMapAssignment }) ∨
        (∃ h sent, http i ≠ Outcome.buildError ∧ st.message.Headers = some h ∧
          (∀ e, e ∈ sent → e.isAttemptEvent = true) ∧ attemptIndices sent = [] ∧
          (∀ j req, Event.httpDo j req ∈ sent ↔ j = i ∧
            req = ⟨"POST", st.message.Url, stampHeaders h st.message.Data, st.message.Data⟩) ∧
          (retryLoop http (n + 1) i st =
              retryLoop http n (i + 1) { st with
                message := { st.message with Headers := some (stampHeaders h st.message.Data) }
                trace := st.trace ++ pre ++ sent } ∨
            retryLoop http (n + 1) i st =
              { st with
                success := true
                message := { st.message with Headers := some (stampHeaders h st.message.Data) }
                trace := st.trace ++ pre ++ sent }))) := by
  have hpre : ∃ pre, (if i ≠ 0 then st.trace ++ [Event.rpcRetries st.message.Topic]
        else st.trace) ++ [Event.newRequest i "POST" st.message.Url st.message.Data] =
      st.trace ++ pre ∧ (∀ e, e ∈ pre → e.isAttemptEvent = true) ∧
      attemptIndices pre = [i] ∧ ∀ j req, Event.httpDo j req ∉ pre := by
    by_cases h0 : i = 0
    · exact ⟨[Event.newRequest i "POST" st.message.Url st.message.Data], by simp [h0],
        by simp [Event.isAttemptEvent], rfl, by simp⟩
    · exact ⟨[Event.rpcRetries st.message.Topic,
        Event.newRequest i "POST" st.message.Url st.message.Data], by simp [h0],
        by simp [Event.isAttemptEvent], rfl, by simp⟩
  obtain ⟨pre, hpre, hpreA, hpreIdx, hpreDo⟩ := hpre
  refine ⟨pre, hpreA, hpreIdx, hpreDo, ?_⟩
  rcases hi : http i with _ | _ | code
  · left
    refine ⟨rfl, ?_⟩
    simp only [retryLoop, hi, hpre]
  · right
    cases hH : st.message.Headers with
    | none =>
      left
      refine ⟨by simp, rfl, ?_⟩
      simp only [retryLoop, hi, hH, setHeaders, hpre]
    | some h =>
      right
      refine ⟨h, [Event.httpDo i ⟨"POST", st.message.Url, stampHeaders h st.message.Data,
        st.message.Data⟩], by simp, rfl, by simp [Event.isAttemptEvent], rfl, by simp, Or.inl ?_⟩
      simp only [retryLoop, hi, hH, setHeaders, hpre]
  · right
    cases hH : st.message.Headers with
    | none =>
      left
      refine ⟨by simp, rfl, ?_⟩
      simp only [retryLoop, hi, hH, setHeaders, hpre]
    | some h =>
      right
      refine ⟨h, [Event.httpDo i ⟨"POST", st.message.Url, stampHeaders h st.message.Data,
        st.message.Data⟩, Event.bodyClose i], by simp, rfl, by simp [Event.isAttemptEvent],
        rfl, by simp, ?_⟩
      by_cases hc : code = 200
      · subst hc
        right
        simp only [retryLoop, hi, hH, setHeaders, hpre]
        simp
      · left
        simp only [retryLoop, hi, hH, setHeaders, hpre, ne_eq, hc, not_false_eq_true, if_true]

/-- The events of the loop: all belong to attempts; a request is handed to the HTTP
stack at exactly the attempts whose request was built, provided the header map is
allocated; and each request handed over is stamped as the source stamps it. -/
theorem retryLoop_events (http : Nat → Outcome) (n : Nat) :
    ∀ (i : Nat) (st : LoopState), ∃ evs, (retryLoop http n i st).trace = st.trace ++ evs ∧
      (∀ e, e ∈ evs → e.isAttemptEvent = true) ∧
      (∀ j, (∃ req, Event.httpDo j req ∈ evs) ↔
        (j ∈ attemptIndices evs ∧ http j ≠ Outcome.buildError ∧ st.message.Headers ≠ none)) ∧
      (∀ orig h0, SameUpToStamp orig h0 st.message →
        ∀ j req, Event.httpDo j req ∈ evs → StampedRequest orig h0 req) := by
  induction n with
  | zero =>
    intro i st
    exact ⟨[], by simp [retryLoop], by simp, by simp [attemptIndices], by simp⟩
  | succ n ih =>
    intro i st
    obtain ⟨pre, hpreA, hpreIdx, hpreDo, hcase⟩ := retryLoop_succ http n i st
    rcases hcase with ⟨hb, heq⟩ | ⟨hb, hH, heq⟩ | ⟨h, sent, hb, hH, hsA, hsIdx, hsDo, heq⟩
    · obtain ⟨evs, h1, h2, h3, h4⟩ := ih (i + 1) { st with trace := st.trace ++ pre }
      refine ⟨pre ++ evs, by rw [heq, h1, List.append_assoc], ?_, ?_, ?_⟩
      · intro e he
        rcases List.mem_append.1 he with he | he
        · exact hpreA e he
        · exact h2 e he
      · intro j
        rw [attemptIndices_append, hpreIdx]
        constructor
        · rintro ⟨req, hreq⟩
          rcases List.mem_append.1 hreq with hreq | hreq
          · exact absurd hreq (hpreDo j req)
          · obtain ⟨a1, a2, a3⟩ := (h3 j).1 ⟨req, hreq⟩
            exact ⟨List.mem_append_right _ a1, a2, a3⟩
        · rintro ⟨a1, a2, a3⟩
          rcases List.mem_append.1 a1 with a1 | a1
          · simp only [List.mem_singleton] at a1
            subst a1
            exact absurd hb a2
          · obtain ⟨req, hreq⟩ := (h3 j).2 ⟨a1, a2, a3⟩
            exact ⟨req, List.mem_append_right _ hreq⟩
      · intro orig h0 hs j req hreq
        rcases List.mem_append.1 hreq with hreq | hreq
        · exact absurd hreq (hpreDo j req)
        · exact h4 orig h0 hs j req hreq
    · refine ⟨pre, by rw [heq], hpreA, ?_, ?_⟩
      · intro j
        constructor
        · rintro ⟨req, hreq⟩
          exact absurd hreq (hpreDo j req)
        · rintro ⟨-, -, a3⟩
          exact absurd hH a3
      · intro orig h0 hs j req hreq
        exact absurd hreq (hpreDo j req)
    · have hdo : ∀ j req, Event.httpDo j req ∈ pre ++ sent ↔ j = i ∧
          req = ⟨"POST", st.message.Url, stampHeaders h st.message.Data, st.message.Data⟩ := by
        intro j req
        rw [List.mem_append, hsDo]
        constructor
        · rintro (hreq | hreq)
          · exact absurd hreq (hpreDo j req)
          · exact hreq
        · exact Or.inr
      have hne : st.message.Headers ≠ none := by simp [hH]
      rcases heq with heq | heq
      · obtain ⟨evs, h1, h2, h3, h4⟩ := ih (i + 1) { st with
          message := { st.message with Headers := some (stampHeaders h st.message.Data) }
          trace := st.trace ++ pre ++ sent }
        refine ⟨pre ++ sent ++ evs, by rw [heq, h1]; simp, ?_, ?_, ?_⟩
        · intro e he
          rcases List.mem_append.1 he with he | he
          · rcases List.mem_append.1 he with he | he
            · exact hpreA e he
            · exact hsA e he
          · exact h2 e he
        · intro j
          rw [attemptIndices_append, attemptIndices_append, hpreIdx, hsIdx]
          constructor
          · rintro ⟨req, hreq⟩
            rcases List.mem_append.1 hreq with hreq | hreq
            · obtain ⟨rfl, -⟩ := (hdo j req).1 hreq
              exact ⟨by simp, hb, hne⟩
            · obtain ⟨a1, a2, -⟩ := (h3 j).1 ⟨req, hreq⟩
              exact ⟨List.mem_append_right _ a1, a2, hne⟩
          · rintro ⟨a1, a2, -⟩
            rcases List.mem_append.1 a1 with a1 | a1
            · simp only [List.append_nil, List.mem_singleton] at a1
              subst a1
              exact ⟨_, List.mem_append_left _ ((hdo j _).2 ⟨rfl, rfl⟩)⟩
            · obtain ⟨req, hreq⟩ := (h3 j).2 ⟨a1, a2, by simp⟩
              exact ⟨req, List.mem_append_right _ hreq⟩
        · intro orig h0 hs j req hreq
          obtain ⟨s1, s2⟩ := stamped_of_same orig st.message h0 h hH hs
          rcases List.mem_append.1 hreq with hreq | hreq
          · obtain ⟨-, rfl⟩ := (hdo j req).1 hreq
            exact s1
          · exact h4 orig h0 s2 j req hreq
      · refine ⟨pre ++ sent, by rw [heq]; simp, ?_, ?_, ?_⟩
        · intro e he
          rcases List.mem_append.1 he with he | he
          · exact hpreA e he
          · exact hsA e he
        · intro j
          rw [attemptIndices_append, hpreIdx, hsIdx]
          constructor
          · rintro ⟨req, hreq⟩
            obtain ⟨rfl, -⟩ := (hdo j req).1 hreq
            exact ⟨by simp, hb, hne⟩
          · rintro ⟨a1, -, -⟩
            simp only [List.append_nil, List.mem_singleton] at a1
            subst a1
            exact ⟨_, (hdo j _).2 ⟨rfl, rfl⟩⟩
        · intro orig h0 hs j req hreq
          obtain ⟨s1, -⟩ := stamped_of_same orig st.message h0 h hH hs
          obtain ⟨-, rfl⟩ := (hdo j req).1 hreq
          exact s1

/-! ## callWithRetry -/

theorem wrapInt_of_inRange (x : Int) (h0 : minInt ≤ x) (h1 : x ≤ maxInt) : wrapInt x = x := by
  unfold wrapInt
  unfold minInt at h0
  unfold maxInt at h1
  omega

theorem loopBound_of_nonneg (client : AsyncClient) (h0 : 0 ≤ client.retries)
    (h1 : client.retries < maxInt) : loopBound client = client.retries.toNat + 1 := by
  unfold loopBound
  rw [wrapInt_of_inRange _ (by unfold minInt; omega) (by omega)]
  omega

/-- The loop panics only when a request is built for a message whose header map
is nil. -/
theorem LoopEffect.panic_eq {http : Nat → Outcome} {n i : Nat} {st r : LoopState} {a : Nat}
    (h : LoopEffect http n i st r a)
    (hH : st.message.Headers = none → ∀ j, j < n → http (i + j) = Outcome.buildError) :
    r.panic = st.panic := by
  rcases h.verdict with ⟨-, hp, -⟩ | ⟨-, hp, -⟩ | ⟨-, -, hn, h1, hb, -⟩
  · exact hp
  · exact hp
  · have hle := h.le
    exact absurd (hH hn (a - 1) (by omega)) hb

theorem retryLoop_panic_none (http : Nat → Outcome) (n : Nat) (message : CallMessage)
    (tr : List Event)
    (hH : message.Headers = none → ∀ j, j < n → http j = Outcome.buildError) :
    (retryLoop http n 0 ⟨false, message, tr, none⟩).panic = none := by
  obtain ⟨a, ha⟩ := retryLoop_effect http n 0 ⟨false, message, tr, none⟩
  exact ha.panic_eq (fun hno j hj => by simpa using hH hno j hj)

/-- The trace and the message that `callWithRetry` reaches are those of its loop,
followed, when the loop did not panic and the gate holds an element, by the receive
and the disposition. -/
theorem callWithRetry_returned (http : Nat → Outcome) (message : CallMessage) (w : World)
    (hp : (retryLoop http (loopBound w.client) 0 ⟨false, message, w.trace, none⟩).panic = none)
    (h : w.client.pending.buf ≠ []) :
    callWithRetry http message w =
      Progress.returned
        ((retryLoop http (loopBound w.client) 0 ⟨false, message, w.trace, none⟩).message,
          { client := { w.client with pending := { w.client.pending with
              buf := w.client.pending.buf.tail } }
            trace := (retryLoop http (loopBound w.client) 0
                ⟨false, message, w.trace, none⟩).trace ++
              [Event.pendingRecv,
                if (retryLoop http (loopBound w.client) 0
                  ⟨false, message, w.trace, none⟩).success
                then Event.rpcSuccess message.Topic else Event.rpcFail message.Topic] }) := by
  unfold callWithRetry Chan.recv
  simp only [hp]
  cases hb : w.client.pending.buf with
  | nil => exact absurd hb h
  | cons b rest =>
    by_cases hs : (retryLoop http (loopBound w.client) 0
      ⟨false, message, w.trace, none⟩).success = true
    · simp [hs]
    · simp [hs]

theorem callWithRetry_panicked (http : Nat → Outcome) (message : CallMessage) (w : World)
    (e : Panic)
    (hp : (retryLoop http (loopBound w.client) 0 ⟨false, message, w.trace, none⟩).panic =
      some e) :
    callWithRetry http message w =
      Progress.panicked
        ((retryLoop http (loopBound w.client) 0 ⟨false, message, w.trace, none⟩).message,
          { w with trace := (retryLoop http (loopBound w.client) 0
            ⟨false, message, w.trace, none⟩).trace }) := by
  unfold callWithRetry
  simp only [hp]

theorem callWithRetry_state_trace (http : Nat → Outcome) (message : CallMessage) (w : World) :
    ∃ tail, (callWithRetry http message w).state.2.trace =
      (retryLoop http (loopBound w.client) 0 ⟨false, message, w.trace, none⟩).trace ++ tail ∧
      attemptIndices tail = [] ∧ (∀ t, retried tail t = 0) ∧
      (∀ i req, Event.httpDo i req ∉ tail) ∧
      (tail = [] ∨ ∃ d, (d = Event.rpcSuccess message.Topic ∨ d = Event.rpcFail message.Topic) ∧
        tail = [Event.pendingRecv, d]) := by
  cases hp : (retryLoop http (loopBound w.client) 0 ⟨false, message, w.trace, none⟩).panic with
  | some e =>
    rw [callWithRetry_panicked http message w e hp]
    exact ⟨[], by simp [Progress.state], rfl, fun t => rfl, by simp, Or.inl rfl⟩
  | none =>
    cases hb : w.client.pending.buf with
    | nil =>
      refine ⟨[], ?_, rfl, fun t => rfl, by simp, Or.inl rfl⟩
      simp [callWithRetry, hp, Chan.recv, hb, Progress.state]
    | cons b rest =>
      rw [callWithRetry_returned http message w hp (by simp [hb])]
      by_cases hs : (retryLoop http (loopBound w.client) 0
        ⟨false, message, w.trace, none⟩).success = true
      · exact ⟨[Event.pendingRecv, Event.rpcSuccess message.Topic],
          by simp [Progress.state, hs], rfl, fun t => by simp [retried, List.count_cons],
          by simp, Or.inr ⟨_, Or.inl rfl, rfl⟩⟩
      · exact ⟨[Event.pendingRecv, Event.rpcFail message.Topic],
          by simp [Progress.state, hs], rfl, fun t => by simp [retried, List.count_cons],
          by simp, Or.inr ⟨_, Or.inr rfl, rfl⟩⟩

/-- C1 as amended: for every message whose header map is allocated (or, the map
being nil, when no attempt gets its request built), every retries value and every
sequence of attempt outcomes, one run of callWithRetry (on a gate that holds the
slot its Call took) returns having recorded exactly one disposition for the topic of
the message, rpcSuccess once or rpcFail once and not both, and having removed
exactly one element from the pending gate. -/
theorem callWithRetry_one_disposition_one_release (http : Nat → Outcome)
    (message : CallMessage) (w : World)
    (hH : message.Headers = none →
      ∀ i, i < loopBound w.client → http i = Outcome.buildError)
    (h : w.client.pending.buf ≠ []) :
    ∃ msg w1, callWithRetry http message w = Progress.returned (msg, w1) ∧
      ((succeeded w1.trace message.Topic = succeeded w.trace message.Topic + 1 ∧
          failed w1.trace message.Topic = failed w.trace message.Topic) ∨
        (succeeded w1.trace message.Topic = succeeded w.trace message.Topic ∧
          failed w1.trace message.Topic = failed w.trace message.Topic + 1)) ∧
      (∀ t, t ≠ message.Topic →
        succeeded w1.trace t = succeeded w.trace t ∧ failed w1.trace t = failed w.trace t) ∧
      releases w1.trace = releases w.trace + 1 ∧
      PendingCount w1.client + 1 = PendingCount w.client ∧
      w1.client.pending.buf = w.client.pending.buf.tail := by
  obtain ⟨a, ha⟩ := retryLoop_effect http (loopBound w.client) 0 ⟨false, message, w.trace, none⟩
  refine ⟨_, _, callWithRetry_returned http message w
    (retryLoop_panic_none http _ message w.trace hH) h, ?_, ?_, ?_, ?_, rfl⟩
  · by_cases hs : (retryLoop http (loopBound w.client) 0
      ⟨false, message, w.trace, none⟩).success = true
    · left
      have h1 := ha.succeeded_eq message.Topic
      have h2 := ha.failed_eq message.Topic
      simp only [succeeded, failed] at h1 h2 ⊢
      simp [hs, List.count_append, List.count_cons, h1, h2]
    · right
      have h1 := ha.succeeded_eq message.Topic
      have h2 := ha.failed_eq message.Topic
      simp only [succeeded, failed] at h1 h2 ⊢
      simp [hs, List.count_append, List.count_cons, h1, h2]
  · intro t ht
    have h1 := ha.succeeded_eq t
    have h2 := ha.failed_eq t
    simp only [succeeded, failed] at h1 h2 ⊢
    by_cases hs : (retryLoop http (loopBound w.client) 0
      ⟨false, message, w.trace, none⟩).success = true
      <;> simp [hs, List.count_append, List.count_cons, h1, h2, Ne.symm ht]
  · have h1 := ha.releases_eq
    simp only [releases] at h1 ⊢
    by_cases hs : (retryLoop http (loopBound w.client) 0
      ⟨false, message, w.trace, none⟩).success = true
      <;> simp [hs, List.count_append, List.count_cons, h1]
  · simp only [PendingCount, Chan.len]
    cases hb : w.client.pending.buf with
    | nil => exact absurd hb h
    | cons b rest => simp

/-- C1 as amended, on a run with retries = 2 whose three attempts all get status
500. -/
theorem callWithRetry_one_disposition_one_release_witness :
    sampleMessage.Headers ≠ none ∧ (sampleWorld 2).client.pending.buf ≠ [] ∧
    ∃ msg w1, callWithRetry (fun _ => Outcome.response 500) sampleMessage (sampleWorld 2) =
        Progress.returned (msg, w1) ∧
      ((succeeded w1.trace "orders" = succeeded (sampleWorld 2).trace "orders" + 1 ∧
          failed w1.trace "orders" = failed (sampleWorld 2).trace "orders") ∨
        (succeeded w1.trace "orders" = succeeded (sampleWorld 2).trace "orders" ∧
          failed w1.trace "orders" = failed (sampleWorld 2).trace "orders" + 1)) ∧
      (∀ t, t ≠ "orders" →
        succeeded w1.trace t = succeeded (sampleWorld 2).trace t ∧
          failed w1.trace t = failed (sampleWorld 2).trace t) ∧
      releases w1.trace = releases (sampleWorld 2).trace + 1 ∧
      PendingCount w1.client + 1 = PendingCount (sampleWorld 2).client ∧
      w1.client.pending.buf = (sampleWorld 2).client.pending.buf.tail :=
  ⟨by decide, by decide,
    callWithRetry_one_disposition_one_release (fun _ => Outcome.response 500)
      sampleMessage (sampleWorld 2) (fun h => absurd h (by decide)) (by decide)⟩

/-- C1, counterexample: a message whose Headers map is nil, on a client with
retries = 2 whose gate holds the slot of the call, with an HTTP stack that would
answer 200. The first attempt builds its request and panics at the assignment of
the Content-Length header, before the request is sent: the run does not return,
records neither success nor fail, and removes nothing from the gate. -/
theorem callWithRetry_nil_headers_no_disposition :
    (sampleWorld 2).client.pending.buf ≠ [] ∧
    callWithRetry okAtFirst sampleNilMessage (sampleWorld 2) =
      Progress.panicked (sampleNilMessage,
        { sampleWorld 2 with trace :=
          [Event.newRequest 0 "POST" "http://localhost:8080/hook" [104, 105]] }) ∧
    succeeded (callWithRetry okAtFirst sampleNilMessage (sampleWorld 2)).state.2.trace
      "orders" = 0 ∧
    failed (callWithRetry okAtFirst sampleNilMessage (sampleWorld 2)).state.2.trace
      "orders" = 0 ∧
    releases (callWithRetry okAtFirst sampleNilMessage (sampleWorld 2)).state.2.trace = 0 ∧
    PendingCount (callWithRetry okAtFirst sampleNilMessage (sampleWorld 2)).state.2.client =
      PendingCount (sampleWorld 2).client := by
  decide

/-- Attempts and retries of one run, however it ends. -/
theorem callWithRetry_loop_summary (http : Nat → Outcome) (message : CallMessage) (w : World) :
    ∃ a, LoopEffect http (loopBound w.client) 0 ⟨false, message, w.trace, none⟩
        (retryLoop http (loopBound w.client) 0 ⟨false, message, w.trace, none⟩) a ∧
      attemptIndices (callWithRetry http message w).state.2.trace =
        attemptIndices w.trace ++ List.range a ∧
      retried (callWithRetry http message w).state.2.trace message.Topic =
        retried w.trace message.Topic + (a - 1) := by
  obtain ⟨a, ha⟩ := retryLoop_effect http (loopBound w.client) 0 ⟨false, message, w.trace, none⟩
  obtain ⟨tail, h1, h2, h3, -⟩ := callWithRetry_state_trace http message w
  refine ⟨a, ha, ?_, ?_⟩
  · rw [h1, attemptIndices_append, h2, ha.indices_eq, List.range_eq_range']
    simp
  · have e := ha.retried_eq message.Topic
    have e3 := h3 message.Topic
    rw [h1]
    simp only [retried, List.count_append] at e e3 ⊢
    rw [e, e3]
    simp

/-- Dispositions of a run, however it ends: one is recorded exactly when the loop
did not panic and the final receive does not block. -/
theorem callWithRetry_dispositions (http : Nat → Outcome) (message : CallMessage) (w : World)
    (h : w.client.pending.buf ≠ []) :
    succeeded (callWithRetry http message w).state.2.trace message.Topic =
        succeeded w.trace message.Topic +
        (if (retryLoop http (loopBound w.client) 0 ⟨false, message, w.trace, none⟩).panic = none ∧
            (retryLoop http (loopBound w.client) 0 ⟨false, message, w.trace, none⟩).success = true
          then 1 else 0) ∧
      failed (callWithRetry http message w).state.2.trace message.Topic =
        failed w.trace message.Topic +
        (if (retryLoop http (loopBound w.client) 0 ⟨false, message, w.trace, none⟩).panic = none ∧
            (retryLoop http (loopBound w.client) 0 ⟨false, message, w.trace, none⟩).success = false
          then 1 else 0) := by
  obtain ⟨a, ha⟩ := retryLoop_effect http (loopBound w.client) 0 ⟨false, message, w.trace, none⟩
  have h1 := ha.succeeded_eq message.Topic
  have h2 := ha.failed_eq message.Topic
  simp only [succeeded, failed] at h1 h2 ⊢
  cases hp : (retryLoop http (loopBound w.client) 0 ⟨false, message, w.trace, none⟩).panic with
  | some e =>
    rw [callWithRetry_panicked http message w e hp]
    simp [Progress.state, h1, h2]
  | none =>
    rw [callWithRetry_returned http message w hp h]
    by_cases hs : (retryLoop http (loopBound w.client) 0
      ⟨false, message, w.trace, none⟩).success = true
      <;> simp [Progress.state, hs, List.count_append, List.count_cons, h1, h2]

/-- C2: for every message and every sequence of attempt outcomes, callWithRetry
records success exactly when one of the attempts it made produced a response with
status 200 (its request was sent and the answer was 200), and records fail exactly
when every attempt it made was a failed attempt: a request-build error, or a request
sent that met a transport error or a response with any other status, 201 and 204
included. -/
theorem callWithRetry_success_iff_status_200 (http : Nat → Outcome) (message : CallMessage)
    (w : World) (h : w.client.pending.buf ≠ []) :
    ∃ evs a, (callWithRetry http message w).state.2.trace = w.trace ++ evs ∧
      attemptIndices evs = List.range a ∧
      (succeeded (callWithRetry http message w).state.2.trace message.Topic =
          succeeded w.trace message.Topic + 1 ↔
        ∃ i req, i < a ∧ Event.httpDo i req ∈ evs ∧ http i = Outcome.response 200) ∧
      (failed (callWithRetry http message w).state.2.trace message.Topic =
          failed w.trace message.Topic + 1 ↔
        ∀ i, i < a → http i = Outcome.buildError ∨
          ((∃ req, Event.httpDo i req ∈ evs) ∧ http i ≠ Outcome.response 200)) := by
  obtain ⟨a, ha, hidx, -⟩ := callWithRetry_loop_summary http message w
  obtain ⟨hs, hf⟩ := callWithRetry_dispositions http message w h
  obtain ⟨evs, e1, -, e3, -⟩ := retryLoop_events http (loopBound w.client) 0
    ⟨false, message, w.trace, none⟩
  obtain ⟨tail, t1, t2, -, t4, -⟩ := callWithRetry_state_trace http message w
  have hi : attemptIndices evs = List.range a := by
    have := ha.indices_eq
    rw [e1, attemptIndices_append, List.append_cancel_left_eq, ← List.range_eq_range'] at this
    exact this
  have hdo : ∀ i, (∃ req, Event.httpDo i req ∈ evs ++ tail) ↔
      (i < a ∧ http i ≠ Outcome.buildError ∧ message.Headers ≠ none) := by
    intro i
    rw [← List.mem_range, ← hi, ← e3 i]
    constructor
    · rintro ⟨req, hreq⟩
      rcases List.mem_append.1 hreq with hreq | hreq
      · exact ⟨req, hreq⟩
      · exact absurd hreq (t4 i req)
    · rintro ⟨req, hreq⟩
      exact ⟨req, List.mem_append_left _ hreq⟩
  refine ⟨evs ++ tail, a, by rw [t1, e1, List.append_assoc],
    by rw [attemptIndices_append, t2, hi, List.append_nil], ?_, ?_⟩
  · rw [hs]
    rcases ha.verdict with ⟨h1, hp, hH, h2, h3, -⟩ | ⟨h1, hp, hn, h3, -⟩ | ⟨h1, hp, hH, -⟩
    · simp only [hp, h1, and_self, if_true, true_iff]
      obtain ⟨req, hreq⟩ := (hdo (a - 1)).2 ⟨by omega, by simp at h3; simp [h3], hH⟩
      exact ⟨a - 1, req, by omega, hreq, by simpa using h3⟩
    · simp only [h1, Bool.false_eq_true, and_false, if_false, add_zero, self_eq_add_right,
        one_ne_zero, false_iff, not_exists, not_and]
      intro i req hia _
      simpa using h3 i (by omega)
    · simp only [hp, reduceCtorEq, false_and, if_false, add_zero, self_eq_add_right,
        one_ne_zero, false_iff, not_exists, not_and]
      intro i req _ hreq
      exact absurd hH ((hdo i).1 ⟨req, hreq⟩).2.2
  · rw [hf]
    rcases ha.verdict with ⟨h1, hp, hH, h2, h3, -⟩ | ⟨h1, hp, hn, h3, h5⟩ |
      ⟨h1, hp, hH, h2, h3, -⟩
    · simp only [h1, Bool.true_eq_false, and_false, if_false, add_zero, self_eq_add_right,
        one_ne_zero, false_iff, not_forall]
      refine ⟨a - 1, by omega, ?_⟩
      simp only [Nat.zero_add] at h3
      simp [h3]
    · simp only [hp, h1, and_self, if_true, true_iff]
      intro i hia
      by_cases hb : http i = Outcome.buildError
      · exact Or.inl hb
      · refine Or.inr ⟨(hdo i).2 ⟨hia, hb, ?_⟩, by simpa using h3 i (by omega)⟩
        intro hno
        exact hb (by simpa using h5 hno i (by omega))
    · simp only [hp, reduceCtorEq, false_and, if_false, add_zero, self_eq_add_right,
        one_ne_zero, false_iff, not_forall]
      refine ⟨a - 1, by omega, ?_⟩
      simp only [Nat.zero_add] at h3
      rintro (hb | ⟨⟨req, hreq⟩, -⟩)
      · exact h3 hb
      · exact absurd hH ((hdo (a - 1)).1 ⟨req, hreq⟩).2.2

/-- C2 on a run with retries = 1 whose attempts all get status 201. -/
theorem callWithRetry_success_iff_status_200_witness :
    (sampleWorld 1).client.pending.buf ≠ [] ∧
    ∃ evs a, (callWithRetry (fun _ => Outcome.response 201) sampleMessage
        (sampleWorld 1)).state.2.trace = (sampleWorld 1).trace ++ evs ∧
      attemptIndices evs = List.range a ∧
      (succeeded (callWithRetry (fun _ => Outcome.response 201) sampleMessage
          (sampleWorld 1)).state.2.trace "orders" =
          succeeded (sampleWorld 1).trace "orders" + 1 ↔
        ∃ i req, i < a ∧ Event.httpDo i req ∈ evs ∧
          (fun _ => Outcome.response 201) i = Outcome.response 200) ∧
      (failed (callWithRetry (fun _ => Outcome.response 201) sampleMessage
          (sampleWorld 1)).state.2.trace "orders" =
          failed (sampleWorld 1).trace "orders" + 1 ↔
        ∀ i, i < a → (fun _ => Outcome.response 201) i = Outcome.buildError ∨
          ((∃ req, Event.httpDo i req ∈ evs) ∧
            (fun _ => Outcome.response 201) i ≠ Outcome.response 200)) :=
  ⟨by decide, callWithRetry_success_iff_status_200 (fun _ => Outcome.response 201)
    sampleMessage (sampleWorld 1) (by decide)⟩

/-- C3 as amended: for every client with 0 ≤ retries < maxInt and every sequence of
attempt outcomes, callWithRetry makes a attempts, at the loop indices 0 .. a-1, with
1 ≤ a ≤ retries + 1, and increments the retry statistic of the topic exactly a - 1
times. -/
theorem callWithRetry_attempt_count (http : Nat → Outcome) (message : CallMessage) (w : World)
    (h0 : 0 ≤ w.client.retries) (h1 : w.client.retries < maxInt) :
    ∃ a : Nat, 1 ≤ a ∧ (a : Int) ≤ w.client.retries + 1 ∧
      attemptIndices (callWithRetry http message w).state.2.trace =
        attemptIndices w.trace ++ List.range a ∧
      attempts (callWithRetry http message w).state.2.trace = attempts w.trace + a ∧
      retried (callWithRetry http message w).state.2.trace message.Topic =
        retried w.trace message.Topic + (a - 1) := by
  obtain ⟨a, ha, hidx, hret⟩ := callWithRetry_loop_summary http message w
  have hb := loopBound_of_nonneg w.client h0 h1
  have hle := ha.le
  refine ⟨a, ?_, by omega, hidx, by simp [attempts, hidx], hret⟩
  rcases ha.verdict with ⟨-, -, -, h2, -⟩ | ⟨-, -, h2, -⟩ | ⟨-, -, -, h2, -⟩ <;> omega

/-- C3 as amended, on a run with retries = 2 whose first attempt gets status 200. -/
theorem callWithRetry_attempt_count_witness :
    (0 : Int) ≤ (sampleWorld 2).client.retries ∧ (sampleWorld 2).client.retries < maxInt ∧
    ∃ a : Nat, 1 ≤ a ∧ (a : Int) ≤ (sampleWorld 2).client.retries + 1 ∧
      attemptIndices (callWithRetry okAtFirst sampleMessage (sampleWorld 2)).state.2.trace =
        attemptIndices (sampleWorld 2).trace ++ List.range a ∧
      attempts (callWithRetry okAtFirst sampleMessage (sampleWorld 2)).state.2.trace =
        attempts (sampleWorld 2).trace + a ∧
      retried (callWithRetry okAtFirst sampleMessage (sampleWorld 2)).state.2.trace "orders" =
        retried (sampleWorld 2).trace "orders" + (a - 1) :=
  ⟨by decide, by decide,
    callWithRetry_attempt_count okAtFirst sampleMessage (sampleWorld 2) (by decide) (by decide)⟩

/-- C3, counterexample: a client with retries = 9223372036854775807 ≥ 0 makes no
attempt at all, because the loop bound retries + 1 wraps around to a negative int. -/
theorem callWithRetry_no_attempt_at_maxInt :
    (0 : Int) ≤ (sampleWorld 9223372036854775807).client.retries ∧
    ¬ 1 ≤ attempts (callWithRetry (fun _ => Outcome.response 500) sampleMessage
      (sampleWorld 9223372036854775807)).state.2.trace := by
  decide

/-- C4 as amended: for every message whose header map is allocated (or, the map
being nil, when no attempt gets its request built) and every client with
0 ≤ retries < maxInt the attempts follow the state machine: when k ≤ retries is the
first index whose attempt returns 200, exactly the attempts 0 .. k are made, the
retry counter grows by k and success is recorded; when no index 0 .. retries returns
200, exactly the attempts 0 .. retries are made, the retry counter grows by retries
and fail is recorded. -/
theorem callWithRetry_state_machine (http : Nat → Outcome) (message : CallMessage) (w : World)
    (hH : message.Headers = none →
      ∀ i, i < loopBound w.client → http i = Outcome.buildError)
    (h0 : 0 ≤ w.client.retries) (h1 : w.client.retries < maxInt)
    (h : w.client.pending.buf ≠ []) :
    ∃ msg w1, callWithRetry http message w = Progress.returned (msg, w1) ∧
      (∀ k : Nat, (k : Int) ≤ w.client.retries → http k = Outcome.response 200 →
        (∀ j, j < k → http j ≠ Outcome.response 200) →
        attemptIndices w1.trace = attemptIndices w.trace ++ List.range (k + 1) ∧
        retried w1.trace message.Topic = retried w.trace message.Topic + k ∧
        succeeded w1.trace message.Topic = succeeded w.trace message.Topic + 1 ∧
        failed w1.trace message.Topic = failed w.trace message.Topic) ∧
      ((∀ j : Nat, (j : Int) ≤ w.client.retries → http j ≠ Outcome.response 200) →
        attemptIndices w1.trace =
          attemptIndices w.trace ++ List.range (w.client.retries.toNat + 1) ∧
        retried w1.trace message.Topic =
          retried w.trace message.Topic + w.client.retries.toNat ∧
        succeeded w1.trace message.Topic = succeeded w.trace message.Topic ∧
        failed w1.trace message.Topic = failed w.trace message.Topic + 1) := by
  obtain ⟨a, ha, hidx, hret⟩ := callWithRetry_loop_summary http message w
  obtain ⟨hs, hf⟩ := callWithRetry_dispositions http message w h
  have hp := retryLoop_panic_none http _ message w.trace hH
  obtain ⟨msg, w1, hr⟩ : ∃ msg w1, callWithRetry http message w = Progress.returned (msg, w1) :=
    ⟨_, _, callWithRetry_returned http message w hp h⟩
  rw [hr] at hidx hret hs hf
  simp only [Progress.state] at hidx hret hs hf
  have hb := loopBound_of_nonneg w.client h0 h1
  have hle := ha.le
  refine ⟨msg, w1, hr, ?_, ?_⟩
  · intro k hk h200 hfirst
    rcases ha.verdict with ⟨e1, -, -, e2, e3, e4⟩ | ⟨-, -, e2, e3, -⟩ | ⟨-, e5, -⟩
    · have hka : a = k + 1 := by
        rcases Nat.lt_trichotomy (a - 1) k with hlt | heq | hgt
        · exact absurd (by simpa using e3) (hfirst (a - 1) hlt)
        · omega
        · exact absurd (by simpa using h200) (e4 k hgt)
      subst hka
      simp only [hp, e1, and_self, if_true, Bool.true_eq_false, and_false, if_false] at hs hf
      exact ⟨hidx, by simpa using hret, hs, by simpa using hf⟩
    · exact absurd (by simpa using h200) (e3 k (by omega))
    · rw [hp] at e5; cases e5
  · intro hnone
    rcases ha.verdict with ⟨-, -, -, e2, e3, -⟩ | ⟨e1, -, e2, -⟩ | ⟨-, e5, -⟩
    · exact absurd (by simpa using e3) (hnone (a - 1) (by omega))
    · simp only [hp, e1, and_self, if_true, Bool.false_eq_true, and_false, if_false] at hs hf
      have : a = w.client.retries.toNat + 1 := by omega
      subst this
      exact ⟨hidx, by simpa using hret, by simpa using hs, hf⟩
    · rw [hp] at e5; cases e5

/-- C4, the two scenarios: with retries = 2 and every response 500 the result is
fail after 3 attempts, the retry counter grown by 2 and the success counter
unchanged; with retries = 2 and attempt 0 answering 200 the result is success after
exactly 1 attempt, the retry counter unchanged. -/
theorem callWithRetry_state_machine_witness :
    (∃ msg w1, callWithRetry (fun _ => Outcome.response 500) sampleMessage (sampleWorld 2) =
        Progress.returned (msg, w1) ∧
      attemptIndices w1.trace = [0, 1, 2] ∧ retried w1.trace "orders" = 2 ∧
      succeeded w1.trace "orders" = 0 ∧ failed w1.trace "orders" = 1) ∧
    (∃ msg w1, callWithRetry okAtFirst sampleMessage (sampleWorld 2) =
        Progress.returned (msg, w1) ∧
      attemptIndices w1.trace = [0] ∧ retried w1.trace "orders" = 0 ∧
      succeeded w1.trace "orders" = 1 ∧ failed w1.trace "orders" = 0) := by
  constructor
  · obtain ⟨msg, w1, hr, -, hnone⟩ := callWithRetry_state_machine
      (fun _ => Outcome.response 500) sampleMessage (sampleWorld 2)
      (fun h => absurd h (by decide)) (by decide) (by decide) (by decide)
    obtain ⟨h1, h2, h3, h4⟩ := hnone (fun j _ => by simp)
    exact ⟨msg, w1, hr, h1, h2, h3, h4⟩
  · obtain ⟨msg, w1, hr, hk, -⟩ := callWithRetry_state_machine
      okAtFirst sampleMessage (sampleWorld 2) (fun h => absurd h (by decide)) (by decide)
      (by decide) (by decide)
    obtain ⟨h1, h2, h3, h4⟩ := hk 0 (by decide) rfl (fun j hj => absurd hj (Nat.not_lt_zero j))
    exact ⟨msg, w1, hr, h1, h2, h3, h4⟩

/-- C4, counterexamples. With retries = 9223372036854775807 and attempt 0 answering
200 (so k = 0 ≤ retries) not one attempt is made, instead of exactly k + 1 = 1, and
fail is recorded. With retries = 2, a message whose Headers map is nil and an HTTP
stack that answers 500 every time, so that no attempt returns 200, one attempt is
made instead of retries + 1 = 3: it panics before its request is sent, the retry
counter stays at 0 and no fail is recorded. -/
theorem callWithRetry_state_machine_fails :
    ((0 : Int) ≤ (sampleWorld 9223372036854775807).client.retries ∧
      okAtFirst 0 = Outcome.response 200 ∧
      attemptIndices (callWithRetry okAtFirst sampleMessage
        (sampleWorld 9223372036854775807)).state.2.trace = [] ∧
      failed (callWithRetry okAtFirst sampleMessage
        (sampleWorld 9223372036854775807)).state.2.trace "orders" = 1) ∧
    ((0 : Int) ≤ (sampleWorld 2).client.retries ∧ (sampleWorld 2).client.retries < maxInt ∧
      (sampleWorld 2).client.pending.buf ≠ [] ∧
      callWithRetry (fun _ => Outcome.response 500) sampleNilMessage (sampleWorld 2) =
        Progress.panicked (sampleNilMessage,
          { sampleWorld 2 with trace :=
            [Event.newRequest 0 "POST" "http://localhost:8080/hook" [104, 105]] }) ∧
      attemptIndices (callWithRetry (fun _ => Outcome.response 500) sampleNilMessage
        (sampleWorld 2)).state.2.trace = [0] ∧
      retried (callWithRetry (fun _ => Outcome.response 500) sampleNilMessage
        (sampleWorld 2)).state.2.trace "orders" = 0 ∧
      failed (callWithRetry (fun _ => Outcome.response 500) sampleNilMessage
        (sampleWorld 2)).state.2.trace "orders" = 0) := by
  decide

/-! ## The gate -/

theorem countP_set_of_get? (f : Phase → Bool) :
    ∀ (l : List Phase) (k : Nat) (p q : Phase), l.get? k = some p →
      (l.set k q).countP f + (if f p then 1 else 0) = l.countP f + (if f q then 1 else 0) := by
  intro l
  induction l with
  | nil => intro k p q h; simp at h
  | cons x rest ih =>
    intro k p q h
    cases k with
    | zero =>
      simp only [List.get?_cons_zero, Option.some.injEq] at h
      subst h
      simp only [List.set_cons_zero, List.countP_cons]
      omega
    | succ k =>
      simp only [List.get?_cons_succ] at h
      have := ih k p q h
      simp only [List.set_cons_succ, List.countP_cons]
      omega

theorem System.step_inv (K : Nat) (s s1 : System) (a : Step) (hs : s.Inv K)
    (h : s.step a = some s1) : s1.Inv K := by
  obtain ⟨hcap, hle, hlen⟩ := hs
  cases a with
  | enter =>
    simp only [System.step, Option.some.injEq] at h
    subst h
    refine ⟨hcap, hle, ?_⟩
    simp [System.outstanding, List.countP_append, Phase.holdsSlot] at hlen ⊢
    exact hlen
  | send k =>
    simp only [System.step] at h
    split at h
    · rename_i hk hsend
      simp only [Option.some.injEq] at h
      subst h
      simp only [Chan.send] at hsend
      split at hsend
      · rename_i hlt
        simp only [Option.some.injEq] at hsend
        subst hsend
        have := countP_set_of_get? Phase.holdsSlot s.deliveries k _ Phase.admitted hk
        simp only [Phase.holdsSlot] at this
        simp only [System.Inv, System.outstanding, Chan.len, List.length_append,
          List.length_singleton] at hcap hle hlen ⊢
        refine ⟨hcap, by omega, ?_⟩
        simp at this
        omega
      · simp at hsend
    · simp at h
  | start k =>
    simp only [System.step] at h
    split at h
    · rename_i hk
      simp only [Option.some.injEq] at h
      subst h
      have := countP_set_of_get? Phase.holdsSlot s.deliveries k _ (Phase.looping 0) hk
      simp only [Phase.holdsSlot] at this
      simp only [System.Inv, System.outstanding] at hcap hle hlen ⊢
      exact ⟨hcap, hle, by omega⟩
    · simp at h
  | attempt k o =>
    simp only [System.step] at h
    split at h
    · rename_i i hk
      split at h
      · simp only [Option.some.injEq] at h
        subst h
        have := countP_set_of_get? Phase.holdsSlot s.deliveries k _
          (if o = Outcome.response 200 then Phase.delivered else Phase.looping (i + 1)) hk
        have hq : Phase.holdsSlot
            (if o = Outcome.response 200 then Phase.delivered else Phase.looping (i + 1)) = true := by
          split <;> rfl
        rw [hq] at this
        simp only [Phase.holdsSlot] at this
        simp only [System.Inv, System.outstanding] at hcap hle hlen ⊢
        exact ⟨hcap, hle, by omega⟩
      · simp at h
    · simp at h
  | release k =>
    simp only [System.step] at h
    split at h
    · rename_i i ch hk hrecv
      split at h
      · simp at h
      · simp only [Option.some.injEq] at h
        subst h
        simp only [Chan.recv] at hrecv
        split at hrecv
        · simp at hrecv
        · rename_i b rest hb
          simp only [Option.some.injEq] at hrecv
          subst hrecv
          have := countP_set_of_get? Phase.holdsSlot s.deliveries k _ Phase.released hk
          simp only [Phase.holdsSlot] at this
          simp only [System.Inv, System.outstanding, Chan.len, hb, List.length_cons]
            at hcap hle hlen ⊢
          simp at this
          exact ⟨hcap, by omega, by omega⟩
    · rename_i ch hk hrecv
      simp only [Option.some.injEq] at h
      subst h
      simp only [Chan.recv] at hrecv
      split at hrecv
      · simp at hrecv
      · rename_i b rest hb
        simp only [Option.some.injEq] at hrecv
        subst hrecv
        have := countP_set_of_get? Phase.holdsSlot s.deliveries k _ Phase.released hk
        simp only [Phase.holdsSlot] at this
        simp only [System.Inv, System.outstanding, Chan.len, hb, List.length_cons]
          at hcap hle hlen ⊢
        simp at this
        exact ⟨hcap, by omega, by omega⟩
    · simp at h

theorem System.run_inv (K : Nat) (steps : List Step) :
    ∀ (s s1 : System), s.Inv K → s.run steps = some s1 → s1.Inv K := by
  induction steps with
  | nil =>
    intro s s1 hs h
    simp only [System.run, Option.some.injEq] at h
    exact h ▸ hs
  | cons a rest ih =>
    intro s s1 hs h
    simp only [System.run] at h
    cases hstep : s.step a with
    | none => simp [hstep] at h
    | some s2 =>
      simp only [hstep, Option.some_bind] at h
      exact ih s2 s1 (System.step_inv K s s2 a hs hstep) h

theorem countP_pos_of_get? (f : Phase → Bool) :
    ∀ (l : List Phase) (k : Nat) (p : Phase), l.get? k = some p → f p = true →
      0 < l.countP f := by
  intro l k p h hp
  have hmem : p ∈ l := List.get?_mem h
  exact List.countP_pos_iff.2 ⟨p, hmem, hp⟩

/-- A delivery that holds a slot in a state satisfying the invariant finds the
channel non-empty: its `<- client.pending` does not block. -/
theorem System.Inv.buf_ne_nil {K : Nat} {s : System} (hs : s.Inv K) (k : Nat) (p : Phase)
    (h : s.deliveries.get? k = some p) (hp : p.holdsSlot = true) :
    s.client.pending.buf ≠ [] := by
  obtain ⟨-, -, hlen⟩ := hs
  have := countP_pos_of_get? Phase.holdsSlot s.deliveries k p h hp
  intro hnil
  simp only [Chan.len, hnil, List.length_nil, System.outstanding] at hlen
  omega

/-- C5: for a client created with concurrency K ≥ 1, in every state reached by any
interleaving of Call admissions and callWithRetry steps, the number of admitted
deliveries that have not yet released their gate slot is at most K (and at least 0,
being a count), and PendingCount returns exactly that number. -/
theorem gate_bounded_and_counted (info : ConsumerInfo) (client : AsyncClient)
    (hK : 1 ≤ info.Concurrency) (hc : CreateAsyncClient info = Except.ok client)
    (steps : List Step) (s : System) (hrun : (System.init client).run steps = some s) :
    0 ≤ s.outstanding ∧ (s.outstanding : Int) ≤ info.Concurrency ∧
      PendingCount s.client = s.outstanding := by
  have hcap : client.pending.cap = info.Concurrency.toNat := by
    unfold CreateAsyncClient at hc
    split at hc
    · simp at hc
    · simp only [Except.ok.injEq] at hc
      subst hc
      rfl
  have hinit : (System.init client).Inv info.Concurrency.toNat :=
    ⟨hcap, by simp [System.init, Chan.len], by simp [System.init, Chan.len, System.outstanding]⟩
  obtain ⟨-, h2, h3⟩ := System.run_inv _ steps _ _ hinit hrun
  refine ⟨Nat.zero_le _, ?_, h3⟩
  rw [← h3]
  omega

/-- C5 on a client of concurrency 1 and two calls, the second admitted only after
the first released its slot. -/
theorem gate_bounded_and_counted_witness :
    1 ≤ sampleInfo.Concurrency ∧ CreateAsyncClient sampleInfo = Except.ok sampleClient ∧
    (System.init sampleClient).run sampleSteps =
      some ⟨{ sampleClient with pending := ⟨1, [1]⟩ }, [Phase.released, Phase.admitted]⟩ ∧
    0 ≤ System.outstanding
      ⟨{ sampleClient with pending := ⟨1, [1]⟩ }, [Phase.released, Phase.admitted]⟩ ∧
    (System.outstanding
      ⟨{ sampleClient with pending := ⟨1, [1]⟩ }, [Phase.released, Phase.admitted]⟩ : Int) ≤
      sampleInfo.Concurrency ∧
    PendingCount (System.mk { sampleClient with pending := ⟨1, [1]⟩ }
      [Phase.released, Phase.admitted]).client =
      System.outstanding
        ⟨{ sampleClient with pending := ⟨1, [1]⟩ }, [Phase.released, Phase.admitted]⟩ :=
  ⟨by decide, rfl, by decide,
    gate_bounded_and_counted sampleInfo sampleClient (by decide) rfl sampleSteps _ (by decide)⟩

/-! ## Requests of the retry loop -/

/-- C10: every request that callWithRetry sends is a POST to message.Url with body
message.Data, whose Content-Length header is exactly the one-element list with the
decimal byte length of Data and whose Content-Type header is exactly
["application/octet-stream"], whatever the caller supplied under those two names,
while every other header name keeps the value list of the caller's map; and a
request is sent on exactly the attempts whose request could be built, a message
whose header map is nil excepted, for which the first such attempt panics and none
is sent. -/
theorem callWithRetry_request_headers (http : Nat → Outcome) (message : CallMessage)
    (w : World) :
    ∃ evs, (callWithRetry http message w).state.2.trace = w.trace ++ evs ∧
      (∀ i, (∃ req, Event.httpDo i req ∈ evs) ↔
        (i ∈ attemptIndices evs ∧ http i ≠ Outcome.buildError ∧ message.Headers ≠ none)) ∧
      ∀ i req, Event.httpDo i req ∈ evs →
        req.Method = "POST" ∧ req.Url = message.Url ∧ req.Body = message.Data ∧
        req.Header.get? "Content-Length" = some [Nat.repr message.Data.length] ∧
        req.Header.get? "Content-Type" = some ["application/octet-stream"] ∧
        ∃ h0, message.Headers = some h0 ∧
          ∀ k, k ≠ "Content-Length" → k ≠ "Content-Type" →
            req.Header.get? k = h0.get? k := by
  obtain ⟨evs, h1, -, h3, h4⟩ := retryLoop_events http (loopBound w.client) 0
    ⟨false, message, w.trace, none⟩
  obtain ⟨tail, t1, t2, -, htail, -⟩ := callWithRetry_state_trace http message w
  have hmem : ∀ i req, Event.httpDo i req ∈ evs ++ tail → Event.httpDo i req ∈ evs := by
    intro i req hreq
    rcases List.mem_append.1 hreq with hreq | hreq
    · exact hreq
    · exact absurd hreq (htail i req)
  refine ⟨evs ++ tail, by rw [t1, h1, List.append_assoc], ?_, ?_⟩
  · intro i
    rw [attemptIndices_append, t2, List.append_nil, ← h3 i]
    constructor
    · rintro ⟨req, hreq⟩
      exact ⟨req, hmem i req hreq⟩
    · rintro ⟨req, hreq⟩
      exact ⟨req, List.mem_append_left _ hreq⟩
  · intro i req hreq
    have hreq1 := hmem i req hreq
    have hne : message.Headers ≠ none := ((h3 i).1 ⟨req, hreq1⟩).2.2
    obtain ⟨h0, hh0⟩ := Option.ne_none_iff_exists'.1 hne
    obtain ⟨a1, a2, a3, a4, a5, a6⟩ := h4 message h0
      ⟨rfl, rfl, rfl, h0, hh0, fun _ _ _ => rfl⟩ i req hreq1
    exact ⟨a1, a2, a3, a4, a5, h0, hh0, a6⟩

/-- C9: Call increments the total-attempted statistic of the topic of the message
exactly once and first, so also when the admission then blocks; when the gate has
room it then takes one gate slot, then exactly one rate token, then starts
callWithRetry for that message, in this order; it records no retry, success or fail
statistic itself. -/
theorem Call_effects_in_order (message : CallMessage) (w : World) :
    (Call message w).state.trace = w.trace ++
      (Event.rpcTotal message.Topic ::
        if w.client.pending.len < w.client.pending.cap
        then [Event.pendingSend, Event.getToken 1, Event.spawn message] else []) ∧
    (Call message w = Progress.returned (Call message w).state ↔
      w.client.pending.len < w.client.pending.cap) ∧
    PendingCount (Call message w).state.client = PendingCount w.client +
      (if w.client.pending.len < w.client.pending.cap then 1 else 0) ∧
    attempted (Call message w).state.trace message.Topic =
      attempted w.trace message.Topic + 1 ∧
    ∀ t, retried (Call message w).state.trace t = retried w.trace t ∧
      succeeded (Call message w).state.trace t = succeeded w.trace t ∧
      failed (Call message w).state.trace t = failed w.trace t := by
  by_cases h : w.client.pending.buf.length < w.client.pending.cap
  · simp [Call, Chan.send, Chan.len, PendingCount, Progress.state, h, attempted, retried,
      succeeded, failed, List.count_append, List.count_cons]
  · simp [Call, Chan.send, Chan.len, PendingCount, Progress.state, h, attempted, retried,
      succeeded, failed, List.count_append, List.count_cons]

/-! ## Type assertions -/

theorem asString_eq (key : String) (v : Option JSON) :
    asString key v = match JSON.str? v with
      | some s => Except.ok s
      | none => Except.error (Panic.interfaceConversion key) := by
  rcases v with _ | v
  · rfl
  · cases v <;> rfl

theorem asInt_eq (key : String) (v : Option JSON) :
    asInt key v = match JSON.num? v with
      | some f => Except.ok f.toInt
      | none => Except.error (Panic.interfaceConversion key) := by
  rcases v with _ | v
  · rfl
  · cases v <;> rfl

theorem asFloat64_eq (key : String) (v : Option JSON) :
    asFloat64 key v = match JSON.num? v with
      | some f => Except.ok f
      | none => Except.error (Panic.interfaceConversion key) := by
  rcases v with _ | v
  · rfl
  · cases v <;> rfl

theorem asArray_eq (key : String) (v : Option JSON) :
    asArray key v = match JSON.arr? v with
      | some items => Except.ok items
      | none => Except.error (Panic.interfaceConversion key) := by
  rcases v with _ | v
  · rfl
  · cases v <;> rfl

/-- One iteration of the topics loop. -/
theorem parseTopics_cons (value : JSON) (rest : List JSON) (acc : GoMap TopicInfo) :
    (topicTyped value = false ∧ ∃ key, parseTopics (value :: rest) acc =
        Except.error (Panic.interfaceConversion key)) ∨
    (topicTyped value = true ∧ ∃ name p, JSON.str? (value.field "name") = some name ∧
      parseTopics (value :: rest) acc = parseTopics rest (acc.set name ⟨p⟩)) := by
  cases value with
  | object o =>
    simp only [parseTopics, asObject, topicTyped, JSON.hasStrings, JSON.hasNumbers, JSON.field,
      asString_eq, asInt_eq, bind, Except.bind, List.all_cons, List.all_nil, Bool.and_true]
    cases h1 : JSON.str? (List.lookup "name" o) with
    | none => left; simp
    | some name =>
      cases h2 : JSON.num? (List.lookup "partitions" o) with
      | none => left; simp
      | some p => right; simp; exact ⟨_, rfl⟩
  | _ => left; simp [parseTopics, asObject, topicTyped, JSON.hasStrings, bind, Except.bind]

/-- One iteration of the ACL loop. -/
theorem parseAcl_cons (topics : GoMap TopicInfo) (value : JSON) (rest : List JSON)
    (acc : GoMap ProducerACL) :
    (aclTyped value = false ∧ ∃ key, parseAcl topics (value :: rest) acc =
        Except.error (Panic.interfaceConversion key)) ∨
    (aclTyped value = true ∧ ∃ name secret topic,
      JSON.str? (value.field "topic") = some topic ∧
      parseAcl topics (value :: rest) acc =
        if (topics.get? topic).isNone then Except.ok none
        else parseAcl topics rest (acc.set name ⟨secret, topic, name⟩)) := by
  cases value with
  | object o =>
    simp only [parseAcl, asObject, aclTyped, JSON.hasStrings, JSON.field,
      asString_eq, bind, Except.bind, List.all_cons, List.all_nil, Bool.and_true]
    cases h1 : JSON.str? (List.lookup "name" o) with
    | none => left; simp
    | some name =>
      cases h2 : JSON.str? (List.lookup "secret" o) with
      | none => left; simp
      | some secret =>
        cases h3 : JSON.str? (List.lookup "topic" o) with
        | none => left; simp
        | some topic => right; simp; exact ⟨_, _, rfl⟩
  | _ => left; simp [parseAcl, asObject, aclTyped, JSON.hasStrings, bind, Except.bind]

/-- The optional block of a consumer entry: a wrongly typed block panics, a typed
one is refused exactly when the test of line 131 holds for its numbers. -/
theorem parseBreaker_cases (o : List (String × JSON)) :
    ((∃ block, o.lookup "circuitBreaker" = some block ∧ breakerTyped block = false) ∧
      ∃ key, parseBreaker o = Except.error (Panic.interfaceConversion key)) ∨
    (o.lookup "circuitBreaker" = none ∧ parseBreaker o = Except.ok (some none)) ∨
    (∃ block, o.lookup "circuitBreaker" = some block ∧ breakerTyped block = true ∧
      ((blockRejected block = true ∧ parseBreaker o = Except.ok none) ∨
        (blockRejected block = false ∧ ∃ cb, parseBreaker o = Except.ok (some (some cb))))) := by
  unfold parseBreaker
  cases hb : o.lookup "circuitBreaker" with
  | none => right; left; simp
  | some block =>
    cases block with
    | object b =>
      simp only [asObject, breakerTyped, JSON.hasNumbers, asInt_eq, asFloat64_eq, bind,
        Except.bind, List.all_cons, List.all_nil, Bool.and_true, blockRejected, JSON.field,
        breakerRejected]
      cases h1 : JSON.num? (List.lookup "recoverPeriod" b) with
      | none => left; simp [h1]
      | some recoverPeriod =>
        cases h2 : JSON.num? (List.lookup "breakPeriod" b) with
        | none => left; simp [h1, h2]
        | some breakPeriod =>
          cases h3 : JSON.num? (List.lookup "winSize" b) with
          | none => left; simp [h1, h2, h3]
          | some winSize =>
            cases h4 : JSON.num? (List.lookup "healthRate" b) with
            | none => left; simp [h1, h2, h3, h4]
            | some healthRate =>
              cases h5 : JSON.num? (List.lookup "minStats" b) with
              | none => left; simp [h1, h2, h3, h4, h5]
              | some minStats =>
                right; right
                by_cases hr : (decide (winSize.toInt ≤ 0) || decide (minStats.toInt ≤ 0) ||
                  healthRate.leInt 0 || healthRate.gtInt 100) = true
                · simp [h1, h2, h3, h4, h5, hr]
                · simp only [Bool.not_eq_true] at hr
                  simp [h1, h2, h3, h4, h5, hr]
    | _ => left; simp [asObject, breakerTyped, JSON.hasNumbers, bind, Except.bind]

/-- One iteration of the consumer loop. -/
theorem parseConsumers_cons (topics : GoMap TopicInfo) (value : JSON) (rest : List JSON)
    (list : List ConsumerInfo) :
    (consumerTyped value = false ∧ ∃ key, parseConsumers topics (value :: rest) list =
        Except.error (Panic.interfaceConversion key)) ∨
    (consumerTyped value = true ∧ ∃ topic, JSON.str? (value.field "topic") = some topic ∧
      (((∃ block, value.field "circuitBreaker" = some block ∧ blockRejected block = true) ∧
          parseConsumers topics (value :: rest) list = Except.ok none) ∨
        ((∀ block, value.field "circuitBreaker" = some block → blockRejected block = false) ∧
          ∃ info, parseConsumers topics (value :: rest) list =
            if (topics.get? topic).isNone then Except.ok none
            else parseConsumers topics rest (list ++ [info])))) := by
  cases value with
  | object o =>
    simp only [parseConsumers, asObject, consumerTyped, JSON.hasStrings, JSON.hasNumbers,
      JSON.field, asString_eq, asInt_eq, bind, Except.bind, List.all_cons, List.all_nil,
      Bool.and_true]
    cases h1 : JSON.str? (List.lookup "topic" o) with
    | none => left; simp
    | some topic =>
      cases h2 : JSON.str? (List.lookup "groupId" o) with
      | none => left; simp
      | some groupId =>
        cases h3 : JSON.num? (List.lookup "rateLimit" o) with
        | none => left; simp
        | some rateLimit =>
          cases h4 : JSON.num? (List.lookup "retries" o) with
          | none => left; simp
          | some retries =>
            cases h5 : JSON.num? (List.lookup "timeout" o) with
            | none => left; simp
            | some timeout =>
              cases h6 : JSON.num? (List.lookup "concurrency" o) with
              | none => left; simp
              | some concurrency =>
                rcases parseBreaker_cases o with ⟨⟨block, hb, ht⟩, key, hk⟩ | ⟨hb, hk⟩ |
                  ⟨block, hb, ht, ⟨hr, hk⟩ | ⟨hr, cb, hk⟩⟩
                · left; simp [hb, ht, hk]
                · right; simp [hb, hk]; exact ⟨_, rfl⟩
                · right; simp [hb, ht, hk, hr]
                · right; simp [hb, ht, hk, hr]; exact ⟨_, rfl⟩
  | _ =>
    left
    simp [parseConsumers, asObject, consumerTyped, JSON.hasStrings, bind, Except.bind]

/-! ## The three loops of ParseConfig -/

theorem GoMap.isSome_get?_set {α : Type} (m : GoMap α) (k j : String) (v : α) :
    ((m.set k v).get? j).isSome = true ↔ j = k ∨ (m.get? j).isSome = true := by
  by_cases h : j = k
  · subst h
    simp [GoMap.get?_set_self]
  · rw [GoMap.get?_set_of_ne m k j v h]
    simp [h]

theorem stringsOf_cons_some (value : JSON) (rest : List JSON) (key s : String)
    (h : JSON.str? (value.field key) = some s) :
    stringsOf (value :: rest) key = s :: stringsOf rest key := by
  simp [stringsOf, List.filterMap_cons, h]

theorem parseTopics_typed (xs : List JSON) :
    ∀ acc, xs.all topicTyped = true → ∃ r, parseTopics xs acc = Except.ok r := by
  induction xs with
  | nil => intro acc _; exact ⟨acc, rfl⟩
  | cons value rest ih =>
    intro acc h
    simp only [List.all_cons, Bool.and_eq_true] at h
    rcases parseTopics_cons value rest acc with ⟨hf, -⟩ | ⟨-, name, p, -, he⟩
    · rw [h.1] at hf; cases hf
    · rw [he]; exact ih _ h.2

theorem parseTopics_ok (xs : List JSON) :
    ∀ acc r, parseTopics xs acc = Except.ok r → xs.all topicTyped = true ∧
      ∀ t, (r.get? t).isSome = true ↔ (acc.get? t).isSome = true ∨ t ∈ stringsOf xs "name" := by
  induction xs with
  | nil =>
    intro acc r h
    simp only [parseTopics, Except.ok.injEq] at h
    subst h
    simp [stringsOf]
  | cons value rest ih =>
    intro acc r h
    rcases parseTopics_cons value rest acc with ⟨-, key, he⟩ | ⟨ht, name, p, hn, he⟩
    · rw [he] at h; cases h
    · rw [he] at h
      obtain ⟨h1, h2⟩ := ih _ r h
      refine ⟨by simp [ht, h1], ?_⟩
      intro t
      rw [h2 t, GoMap.isSome_get?_set, stringsOf_cons_some value rest "name" name hn]
      simp only [List.mem_cons]
      tauto

theorem parseAcl_typed (topics : GoMap TopicInfo) (xs : List JSON) :
    ∀ acc, xs.all aclTyped = true → ∃ r, parseAcl topics xs acc = Except.ok r := by
  induction xs with
  | nil => intro acc _; exact ⟨some acc, rfl⟩
  | cons value rest ih =>
    intro acc h
    simp only [List.all_cons, Bool.and_eq_true] at h
    rcases parseAcl_cons topics value rest acc with ⟨hf, -⟩ | ⟨-, name, secret, topic, -, he⟩
    · rw [h.1] at hf; cases hf
    · rw [he]
      split
      · exact ⟨none, rfl⟩
      · exact ih _ h.2

theorem parseAcl_some (topics : GoMap TopicInfo) (xs : List JSON) :
    ∀ acc r, parseAcl topics xs acc = Except.ok (some r) → xs.all aclTyped = true ∧
      ∀ t, t ∈ stringsOf xs "topic" → (topics.get? t).isSome = true := by
  induction xs with
  | nil => intro acc r _; simp [stringsOf]
  | cons value rest ih =>
    intro acc r h
    rcases parseAcl_cons topics value rest acc with ⟨-, key, he⟩ | ⟨ht, name, secret, topic, hn, he⟩
    · rw [he] at h; cases h
    · rw [he] at h
      split at h
      · cases h
      · rename_i hpresent
        obtain ⟨h1, h2⟩ := ih _ r h
        refine ⟨by simp [ht, h1], ?_⟩
        intro t hmem
        rw [stringsOf_cons_some value rest "topic" topic hn, List.mem_cons] at hmem
        rcases hmem with rfl | hmem
        · rw [Option.isSome_iff_ne_none]; simpa using hpresent
        · exact h2 t hmem

theorem parseAcl_not_nil (topics : GoMap TopicInfo) (xs : List JSON) :
    ∀ acc, (∀ t, t ∈ stringsOf xs "topic" → (topics.get? t).isSome = true) →
      parseAcl topics xs acc ≠ Except.ok none := by
  induction xs with
  | nil => intro acc _ h; simp [parseAcl] at h
  | cons value rest ih =>
    intro acc hall h
    rcases parseAcl_cons topics value rest acc with ⟨-, key, he⟩ | ⟨ht, name, secret, topic, hn, he⟩
    · rw [he] at h; cases h
    · rw [he] at h
      rw [stringsOf_cons_some value rest "topic" topic hn] at hall
      have hp := hall topic (List.mem_cons_self _ _)
      rw [if_neg (by simp [Option.isSome_iff_ne_none.1 hp])] at h
      exact ih _ (fun t ht => hall t (List.mem_cons_of_mem _ ht)) h

theorem blocksOf_cons (value : JSON) (rest : List JSON) :
    blocksOf (value :: rest) =
      (match value.field "circuitBreaker" with
        | some block => [block]
        | none => []) ++ blocksOf rest := by
  unfold blocksOf
  cases h : value.field "circuitBreaker" <;> simp [List.filterMap_cons, h]

theorem parseConsumers_typed (topics : GoMap TopicInfo) (xs : List JSON) :
    ∀ list, xs.all consumerTyped = true → ∃ r, parseConsumers topics xs list = Except.ok r := by
  induction xs with
  | nil => intro list _; exact ⟨some list, rfl⟩
  | cons value rest ih =>
    intro list h
    simp only [List.all_cons, Bool.and_eq_true] at h
    rcases parseConsumers_cons topics value rest list with
      ⟨hf, -⟩ | ⟨-, topic, -, ⟨-, he⟩ | ⟨-, info, he⟩⟩
    · rw [h.1] at hf; cases hf
    · exact ⟨none, he⟩
    · rw [he]
      split
      · exact ⟨none, rfl⟩
      · exact ih _ h.2

theorem parseConsumers_some (topics : GoMap TopicInfo) (xs : List JSON) :
    ∀ list r, parseConsumers topics xs list = Except.ok (some r) →
      xs.all consumerTyped = true ∧
      (∀ t, t ∈ stringsOf xs "topic" → (topics.get? t).isSome = true) ∧
      ∀ b, b ∈ blocksOf xs → blockRejected b = false := by
  induction xs with
  | nil => intro list r _; simp [stringsOf, blocksOf]
  | cons value rest ih =>
    intro list r h
    rcases parseConsumers_cons topics value rest list with
      ⟨-, key, he⟩ | ⟨ht, topic, hn, ⟨-, he⟩ | ⟨hb, info, he⟩⟩
    · rw [he] at h; cases h
    · rw [he] at h; cases h
    · rw [he] at h
      split at h
      · cases h
      · rename_i hpresent
        obtain ⟨h1, h2, h3⟩ := ih _ r h
        refine ⟨by simp [ht, h1], ?_, ?_⟩
        · intro t hmem
          rw [stringsOf_cons_some value rest "topic" topic hn, List.mem_cons] at hmem
          rcases hmem with rfl | hmem
          · rw [Option.isSome_iff_ne_none]; simpa using hpresent
          · exact h2 t hmem
        · intro b hmem
          rw [blocksOf_cons, List.mem_append] at hmem
          rcases hmem with hmem | hmem
          · cases hf : value.field "circuitBreaker" with
            | none => simp [hf] at hmem
            | some block =>
              simp only [hf, List.mem_singleton] at hmem
              subst hmem
              exact hb _ hf
          · exact h3 b hmem

theorem parseConsumers_not_nil (topics : GoMap TopicInfo) (xs : List JSON) :
    ∀ list, (∀ t, t ∈ stringsOf xs "topic" → (topics.get? t).isSome = true) →
      (∀ b, b ∈ blocksOf xs → blockRejected b = false) →
      parseConsumers topics xs list ≠ Except.ok none := by
  induction xs with
  | nil => intro list _ _ h; simp [parseConsumers] at h
  | cons value rest ih =>
    intro list hall hblocks h
    rw [blocksOf_cons] at hblocks
    rcases parseConsumers_cons topics value rest list with
      ⟨-, key, he⟩ | ⟨ht, topic, hn, ⟨⟨block, hf, hr⟩, -⟩ | ⟨hb, info, he⟩⟩
    · rw [he] at h; cases h
    · have := hblocks block (by simp [hf])
      rw [hr] at this; cases this
    · rw [he] at h
      rw [stringsOf_cons_some value rest "topic" topic hn] at hall
      have hp := hall topic (List.mem_cons_self _ _)
      rw [if_neg (by simp [Option.isSome_iff_ne_none.1 hp])] at h
      exact ih _ (fun t ht => hall t (List.mem_cons_of_mem _ ht))
        (fun b hb => hblocks b (List.mem_append_right _ hb)) h

/-! ## ParseConfig as a whole -/

theorem parseScalars_cases (dict : List (String × JSON)) :
    (scalarsTyped dict = false ∧ ∃ key, parseScalars dict =
        Except.error (Panic.interfaceConversion key)) ∨
    (scalarsTyped dict = true ∧ ∃ c, parseScalars dict = Except.ok c ∧
      c.Kafka_consumer_list = []) := by
  simp only [parseScalars, scalarsTyped, JSON.hasStrings, JSON.hasNumbers, asString_eq,
    asInt_eq, bind, Except.bind, List.all_cons, List.all_nil, Bool.and_true]
  cases h1 : JSON.str? (List.lookup "log.directory" dict) with
  | none => left; simp [h1]
  | some v1 =>
    cases h2 : JSON.num? (List.lookup "log.level" dict) with
    | none => left; simp [h1, h2]
    | some v2 =>
      cases h3 : JSON.str? (List.lookup "kafka.bootstrap.servers" dict) with
      | none => left; simp [h1, h2, h3]
      | some v3 =>
        cases h4 : JSON.num? (List.lookup "kafka.producer.retries" dict) with
        | none => left; simp [h1, h2, h3, h4]
        | some v4 =>
          cases h5 : JSON.num? (List.lookup "http.server.port" dict) with
          | none => left; simp [h1, h2, h3, h4, h5]
          | some v5 =>
            cases h6 : JSON.num? (List.lookup "http.server.read.timeout" dict) with
            | none => left; simp [h1, h2, h3, h4, h5, h6]
            | some v6 =>
              cases h7 : JSON.num? (List.lookup "http.server.write.timeout" dict) with
              | none => left; simp [h1, h2, h3, h4, h5, h6, h7]
              | some v7 =>
                cases h8 : JSON.num? (List.lookup "http.server.handler.channel.size" dict) with
                | none => left; simp [h1, h2, h3, h4, h5, h6, h7, h8]
                | some v8 => right; simp [h1, h2, h3, h4, h5, h6, h7, h8]

/-- A returned Config: every asserted field had its type, every referenced topic
is configured and no block met the test of line 131. -/
theorem parseDict_some (dict : List (String × JSON)) (cfg : Config)
    (h : parseDict dict = Except.ok (some cfg)) :
    wellTyped dict = true ∧ (∀ t, t ∈ aclTopics dict → t ∈ topicNames dict) ∧
      (∀ t, t ∈ consumerTopics dict → t ∈ topicNames dict) ∧
      ∀ b, b ∈ breakerBlocks dict → blockRejected b = false := by
  rcases parseScalars_cases dict with ⟨-, key, hk⟩ | ⟨hs, c, hc, -⟩
  · simp [parseDict, hk, bind, Except.bind] at h
  simp only [parseDict, hc, bind, Except.bind, parseLists, asArray_eq] at h
  cases h1 : JSON.arr? (dict.lookup "kafka.topics") with
  | none => simp [h1] at h
  | some xs =>
    simp only [h1] at h
    cases h2 : parseTopics xs [] with
    | error e => simp [h2] at h
    | ok topics =>
      simp only [h2] at h
      cases h3 : JSON.arr? (dict.lookup "kafka.producer.acl") with
      | none => simp [h3] at h
      | some ys =>
        simp only [h3] at h
        cases h4 : parseAcl topics ys [] with
        | error e => simp [h4] at h
        | ok r =>
          cases r with
          | none => simp [h4] at h
          | some acl =>
            simp only [h4] at h
            cases h5 : JSON.arr? (dict.lookup "kafka.consumer.list") with
            | none => simp [h5] at h
            | some zs =>
              simp only [h5] at h
              cases h6 : parseConsumers topics zs c.Kafka_consumer_list with
              | error e => simp [h6] at h
              | ok r =>
                cases r with
                | none => simp [h6] at h
                | some list =>
                  obtain ⟨t1, t2⟩ := parseTopics_ok xs [] topics h2
                  obtain ⟨a1, a2⟩ := parseAcl_some topics ys [] acl h4
                  obtain ⟨c1, c2, c3⟩ := parseConsumers_some topics zs _ list h6
                  have key : ∀ t, (topics.get? t).isSome = true → t ∈ topicNames dict := by
                    intro t ht
                    have := (t2 t).1 ht
                    simpa [topicNames, entriesOf, h1, GoMap.get?] using this
                  refine ⟨?_, ?_, ?_, ?_⟩
                  · simp [wellTyped, hs, arrayTyped, h1, h3, h5, t1, a1, c1]
                  · intro t ht
                    exact key t (a2 t (by simpa [aclTopics, entriesOf, h3] using ht))
                  · intro t ht
                    exact key t (c2 t (by simpa [consumerTopics, entriesOf, h5] using ht))
                  · intro b hb
                    exact c3 b (by simpa [breakerBlocks, entriesOf, h5] using hb)

/-- A well-typed configuration never panics. -/
theorem parseDict_typed (dict : List (String × JSON)) (h : wellTyped dict = true) :
    ∃ r, parseDict dict = Except.ok r := by
  simp only [wellTyped, Bool.and_eq_true] at h
  obtain ⟨⟨⟨hs, ht⟩, ha⟩, hcs⟩ := h
  rcases parseScalars_cases dict with ⟨hf, -⟩ | ⟨-, c, hc, -⟩
  · rw [hs] at hf; cases hf
  simp only [parseDict, hc, bind, Except.bind, parseLists, asArray_eq]
  unfold arrayTyped at ht ha hcs
  cases h1 : JSON.arr? (dict.lookup "kafka.topics") with
  | none => simp [h1] at ht
  | some xs =>
    simp only [h1] at ht ⊢
    obtain ⟨topics, h2⟩ := parseTopics_typed xs [] ht
    simp only [h2]
    cases h3 : JSON.arr? (dict.lookup "kafka.producer.acl") with
    | none => simp [h3] at ha
    | some ys =>
      simp only [h3] at ha ⊢
      obtain ⟨r, h4⟩ := parseAcl_typed topics ys [] ha
      simp only [h4]
      cases r with
      | none => exact ⟨none, rfl⟩
      | some acl =>
        cases h5 : JSON.arr? (dict.lookup "kafka.consumer.list") with
        | none => simp [h5] at hcs
        | some zs =>
          simp only [h5] at hcs ⊢
          obtain ⟨r, h6⟩ := parseConsumers_typed topics zs c.Kafka_consumer_list hcs
          simp only [h6]
          cases r with
          | none => exact ⟨none, rfl⟩
          | some list => exact ⟨_, rfl⟩

/-- The nil result comes from a failed check only: when every referenced topic is
configured and no block meets the test of line 131, the result is not nil. -/
theorem parseDict_not_nil (dict : List (String × JSON))
    (hacl : ∀ t, t ∈ aclTopics dict → t ∈ topicNames dict)
    (hcons : ∀ t, t ∈ consumerTopics dict → t ∈ topicNames dict)
    (hblocks : ∀ b, b ∈ breakerBlocks dict → blockRejected b = false) :
    parseDict dict ≠ Except.ok none := by
  intro h
  rcases parseScalars_cases dict with ⟨-, key, hk⟩ | ⟨hs, c, hc, -⟩
  · simp [parseDict, hk, bind, Except.bind] at h
  simp only [parseDict, hc, bind, Except.bind, parseLists, asArray_eq] at h
  cases h1 : JSON.arr? (dict.lookup "kafka.topics") with
  | none => simp [h1] at h
  | some xs =>
    simp only [h1] at h
    cases h2 : parseTopics xs [] with
    | error e => simp [h2] at h
    | ok topics =>
      simp only [h2] at h
      obtain ⟨-, t2⟩ := parseTopics_ok xs [] topics h2
      have key : ∀ t, t ∈ topicNames dict → (topics.get? t).isSome = true := by
        intro t ht
        refine (t2 t).2 (Or.inr ?_)
        simpa [topicNames, entriesOf, h1] using ht
      cases h3 : JSON.arr? (dict.lookup "kafka.producer.acl") with
      | none => simp [h3] at h
      | some ys =>
        simp only [h3] at h
        have hn := parseAcl_not_nil topics ys [] (fun t ht =>
          key t (hacl t (by simpa [aclTopics, entriesOf, h3] using ht)))
        cases h4 : parseAcl topics ys [] with
        | error e => simp [h4] at h
        | ok r =>
          cases r with
          | none => exact hn h4
          | some acl =>
            simp only [h4] at h
            cases h5 : JSON.arr? (dict.lookup "kafka.consumer.list") with
            | none => simp [h5] at h
            | some zs =>
              simp only [h5] at h
              have hn2 := parseConsumers_not_nil topics zs c.Kafka_consumer_list
                (fun t ht => key t (hcons t (by simpa [consumerTopics, entriesOf, h5] using ht)))
                (fun b hb => hblocks b (by simpa [breakerBlocks, entriesOf, h5] using hb))
              cases h6 : parseConsumers topics zs c.Kafka_consumer_list with
              | error e => simp [h6] at h
              | ok r =>
                cases r with
                | none => exact hn2 h6
                | some list => simp [h6] at h

/-! ## float64 to int -/

theorem Float64.leInt_eq_not_gtInt (f : Float64) (n : Int) : f.leInt n = !f.gtInt n := by
  unfold Float64.leInt Float64.gtInt
  by_cases h : f.mant ≤ n * 2 ^ f.scale
  · simp [h]
  · simp [h, not_le.1 h]

theorem Float64.toInt_le_zero (f : Float64) (h : f.isInt = true) :
    decide (f.toInt ≤ 0) = !f.gtInt 0 := by
  simp only [Float64.isInt, Bool.and_eq_true, decide_eq_true_eq] at h
  obtain ⟨⟨⟨q, hq⟩, h1⟩, h2⟩ := h
  have hpos : (0 : Int) < 2 ^ f.scale := by positivity
  have htr : f.trunc = q := by
    unfold Float64.trunc
    rw [hq, Int.mul_tdiv_cancel_left _ (ne_of_gt hpos)]
  have hto : f.toInt = q := by
    unfold Float64.toInt
    rw [if_pos ⟨h1, h2⟩, htr]
  unfold Float64.gtInt
  rw [hto, hq]
  by_cases hq0 : q ≤ 0
  · have : ¬ (0 * 2 ^ f.scale < 2 ^ f.scale * q) := by
      rw [zero_mul]
      exact not_lt.2 (Int.mul_nonpos_of_nonneg_of_nonpos (le_of_lt hpos) hq0)
    simp [hq0, this]
  · have : 0 * 2 ^ f.scale < 2 ^ f.scale * q := by
      rw [zero_mul]
      exact Int.mul_pos hpos (not_le.1 hq0)
    simp [hq0, this, not_le.1 hq0]

theorem blockRejected_eq_not_valid (block : JSON) (ht : breakerTyped block = true)
    (h : blockIntegral block = true) :
    blockRejected block = !blockValid block := by
  unfold blockIntegral at h
  unfold blockRejected blockValid
  cases h1 : JSON.num? (block.field "winSize") with
  | none => simp [h1] at h
  | some winSize =>
    cases h2 : JSON.num? (block.field "minStats") with
    | none => simp [h1, h2] at h
    | some minStats =>
      simp only [h1, h2, Bool.and_eq_true] at h
      cases h3 : JSON.num? (block.field "healthRate") with
      | none =>
        cases block with
        | object o =>
          simp only [breakerTyped, JSON.hasNumbers, List.all_cons, List.all_nil, Bool.and_true,
            Bool.and_eq_true] at ht
          simp only [JSON.field] at h3
          simp [h3] at ht
        | _ => simp [breakerTyped, JSON.hasNumbers] at ht
      | some healthRate =>
        simp only [Float64.toInt_le_zero _ h.1, Float64.toInt_le_zero _ h.2,
          Float64.leInt_eq_not_gtInt]
        cases winSize.gtInt 0 <;> cases minStats.gtInt 0 <;> cases healthRate.gtInt 0 <;>
          cases healthRate.gtInt 100 <;> rfl

theorem blocksOf_typed (xs : List JSON) (h : xs.all consumerTyped = true) :
    ∀ b, b ∈ blocksOf xs → breakerTyped b = true := by
  induction xs with
  | nil => intro b hb; simp [blocksOf] at hb
  | cons value rest ih =>
    intro b hb
    simp only [List.all_cons, Bool.and_eq_true] at h
    rw [blocksOf_cons, List.mem_append] at hb
    rcases hb with hb | hb
    · cases hf : value.field "circuitBreaker" with
      | none => simp [hf] at hb
      | some block =>
        simp only [hf, List.mem_singleton] at hb
        subst hb
        have := h.1
        simp only [consumerTyped, hf, Bool.and_eq_true] at this
        exact this.2
    · exact ih h.2 b hb

theorem breakerBlocks_typed (dict : List (String × JSON)) (h : wellTyped dict = true) :
    ∀ b, b ∈ breakerBlocks dict → breakerTyped b = true := by
  simp only [wellTyped, Bool.and_eq_true] at h
  have hc := h.2
  unfold arrayTyped at hc
  cases h5 : JSON.arr? (dict.lookup "kafka.consumer.list") with
  | none => simp [h5] at hc
  | some zs =>
    simp only [h5] at hc
    intro b hb
    exact blocksOf_typed zs hc b (by simpa [breakerBlocks, entriesOf, h5] using hb)

/-! ## Checks that return nil -/

theorem topicMissing_eq (names : List String) (value : JSON) (topic : String)
    (h : JSON.str? (value.field "topic") = some topic) :
    topicMissing names value = !names.contains topic := by
  simp [topicMissing, h]

theorem isNone_eq_missing (topics : GoMap TopicInfo) (names : List String)
    (hkey : ∀ t, (topics.get? t).isSome = true ↔ t ∈ names) (value : JSON) (topic : String)
    (h : JSON.str? (value.field "topic") = some topic) :
    (topics.get? topic).isNone = topicMissing names value := by
  rw [topicMissing_eq names value topic h]
  by_cases hm : topic ∈ names
  · have := (hkey topic).2 hm
    cases hg : topics.get? topic with
    | none => rw [hg] at this; cases this
    | some v => simp [hm]
  · have : ¬ (topics.get? topic).isSome = true := fun hs => hm ((hkey topic).1 hs)
    simp only [Option.isSome_iff_ne_none, ne_eq, not_not] at this
    simp [hm, this]

/-- The ACL loop returns nil exactly when a topic check fails before any defective
field. -/
theorem parseAcl_nil_iff (topics : GoMap TopicInfo) (names : List String)
    (hkey : ∀ t, (topics.get? t).isSome = true ↔ t ∈ names) (xs : List JSON) :
    ∀ acc, parseAcl topics xs acc = Except.ok none ↔
      checkFailsFirst aclTyped (topicMissing names) xs = true := by
  induction xs with
  | nil => intro acc; simp [parseAcl, checkFailsFirst]
  | cons value rest ih =>
    intro acc
    rcases parseAcl_cons topics value rest acc with
      ⟨hf, key, he⟩ | ⟨ht, name, secret, topic, hn, he⟩
    · rw [he]; simp [checkFailsFirst, hf]
    · rw [he, isNone_eq_missing topics names hkey value topic hn]
      by_cases hm : topicMissing names value = true
      · simp [checkFailsFirst, ht, hm]
      · simp only [Bool.not_eq_true] at hm
        simp only [hm, Bool.false_eq_true, if_false, checkFailsFirst, ht, Bool.true_and,
          Bool.false_or]
        exact ih _

/-- The ACL loop completes exactly when every entry is well typed and passes. -/
theorem parseAcl_some_iff (topics : GoMap TopicInfo) (names : List String)
    (hkey : ∀ t, (topics.get? t).isSome = true ↔ t ∈ names) (xs : List JSON) :
    ∀ acc, (∃ r, parseAcl topics xs acc = Except.ok (some r)) ↔
      xs.all (fun j => aclTyped j && !topicMissing names j) = true := by
  induction xs with
  | nil => intro acc; simp [parseAcl]
  | cons value rest ih =>
    intro acc
    rcases parseAcl_cons topics value rest acc with
      ⟨hf, key, he⟩ | ⟨ht, name, secret, topic, hn, he⟩
    · rw [he]; simp [hf]
    · rw [he, isNone_eq_missing topics names hkey value topic hn]
      by_cases hm : topicMissing names value = true
      · simp [ht, hm]
      · simp only [Bool.not_eq_true] at hm
        simp only [hm, Bool.false_eq_true, if_false, List.all_cons, ht, Bool.not_false,
          Bool.and_self, Bool.true_and]
        exact ih _

/-- The consumer loop returns nil exactly when a circuit-breaker check or a topic
check fails before any defective field. -/
theorem parseConsumers_nil_iff (topics : GoMap TopicInfo) (names : List String)
    (hkey : ∀ t, (topics.get? t).isSome = true ↔ t ∈ names) (xs : List JSON) :
    ∀ list, parseConsumers topics xs list = Except.ok none ↔
      checkFailsFirst consumerTyped (consumerFails names) xs = true := by
  induction xs with
  | nil => intro list; simp [parseConsumers, checkFailsFirst]
  | cons value rest ih =>
    intro list
    rcases parseConsumers_cons topics value rest list with
      ⟨hf, key, he⟩ | ⟨ht, topic, hn, ⟨⟨block, hb, hr⟩, he⟩ | ⟨hb, info, he⟩⟩
    · rw [he]; simp [checkFailsFirst, hf]
    · rw [he]; simp [checkFailsFirst, ht, consumerFails, hb, hr]
    · rw [he, isNone_eq_missing topics names hkey value topic hn]
      by_cases hm : topicMissing names value = true
      · simp [checkFailsFirst, ht, consumerFails, hm]
      · simp only [Bool.not_eq_true] at hm
        have hcf : consumerFails names value = false := by
          unfold consumerFails
          cases hf : value.field "circuitBreaker" with
          | none => simp [hm]
          | some block => simp [hb block hf, hm]
        simp only [hm, Bool.false_eq_true, if_false, checkFailsFirst, ht, Bool.true_and,
          hcf, Bool.false_or]
        exact ih _

/-- ParseConfig returns nil on a decoded file exactly when a check fails before any
type assertion does. -/
theorem parseDict_nil_iff (dict : List (String × JSON)) :
    parseDict dict = Except.ok none ↔ nilBeforePanic dict = true := by
  unfold nilBeforePanic
  rcases parseScalars_cases dict with ⟨hs, key, hk⟩ | ⟨hs, c, hc, -⟩
  · simp [parseDict, hk, bind, Except.bind, hs]
  simp only [parseDict, hc, bind, Except.bind, parseLists, asArray_eq, hs, Bool.true_and,
    arrayTyped]
  cases h1 : JSON.arr? (dict.lookup "kafka.topics") with
  | none => simp
  | some xs =>
    simp only []
    cases h2 : parseTopics xs [] with
    | error e =>
      have hnt : xs.all topicTyped = false := by
        cases hall : xs.all topicTyped with
        | false => rfl
        | true =>
          obtain ⟨r, hr⟩ := parseTopics_typed xs [] hall
          rw [hr] at h2; cases h2
      simp [hnt]
    | ok topics =>
      obtain ⟨t1, t2⟩ := parseTopics_ok xs [] topics h2
      have hkey : ∀ t, (topics.get? t).isSome = true ↔ t ∈ topicNames dict := by
        intro t
        rw [t2 t]
        simp [topicNames, entriesOf, h1, GoMap.get?]
      simp only [t1, Bool.true_and]
      cases h3 : JSON.arr? (dict.lookup "kafka.producer.acl") with
      | none => simp
      | some ys =>
        simp only []
        have hnil := parseAcl_nil_iff topics (topicNames dict) hkey ys []
        have hsome := parseAcl_some_iff topics (topicNames dict) hkey ys []
        cases h4 : parseAcl topics ys [] with
        | error e =>
          rw [h4] at hnil hsome
          have a1 : checkFailsFirst aclTyped (topicMissing (topicNames dict)) ys = false := by
            cases hc1 : checkFailsFirst aclTyped (topicMissing (topicNames dict)) ys with
            | false => rfl
            | true => exact absurd (hnil.2 hc1) (by simp)
          have a2 : ys.all (fun j => aclTyped j && !topicMissing (topicNames dict) j) =
              false := by
            cases hc2 : ys.all (fun j => aclTyped j && !topicMissing (topicNames dict) j) with
            | false => rfl
            | true =>
              obtain ⟨r, hr⟩ := hsome.2 hc2
              cases hr
          simp [a1, a2]
        | ok r =>
          cases r with
          | none =>
            rw [h4] at hnil
            simp [hnil.1 rfl]
          | some acl =>
            rw [h4] at hnil hsome
            have a1 : checkFailsFirst aclTyped (topicMissing (topicNames dict)) ys = false := by
              cases hc1 : checkFailsFirst aclTyped (topicMissing (topicNames dict)) ys with
              | false => rfl
              | true => exact absurd (hnil.2 hc1) (by simp)
            have a2 := hsome.1 ⟨acl, rfl⟩
            simp only [a1, a2, Bool.false_or, Bool.true_and]
            cases h5 : JSON.arr? (dict.lookup "kafka.consumer.list") with
            | none => simp
            | some zs =>
              simp only []
              have hcn := parseConsumers_nil_iff topics (topicNames dict) hkey zs
                c.Kafka_consumer_list
              cases h6 : parseConsumers topics zs c.Kafka_consumer_list with
              | error e =>
                rw [h6] at hcn
                simp only [reduceCtorEq, false_iff] at hcn ⊢
                exact hcn
              | ok r =>
                cases r with
                | none =>
                  rw [h6] at hcn
                  simpa using hcn.1 rfl
                | some list =>
                  rw [h6] at hcn
                  simp only [Except.ok.injEq, reduceCtorEq, false_iff] at hcn ⊢
                  exact hcn

/-! ## Claims on ParseConfig -/

/-- C6: for every otherwise well-typed configuration, if some entry of
kafka.producer.acl or some entry of kafka.consumer.list names a topic that is not
among the names in kafka.topics, ParseConfig returns nil: neither a panic nor a
partially filled Config. -/
theorem ParseConfig_nil_of_unknown_topic (dict : List (String × JSON))
    (ht : wellTyped dict = true) (t : String)
    (hmem : t ∈ aclTopics dict ∨ t ∈ consumerTopics dict) (hmiss : t ∉ topicNames dict) :
    ParseConfig (FileContent.decoded dict) = Except.ok none := by
  obtain ⟨r, hr⟩ := parseDict_typed dict ht
  cases r with
  | none => exact hr
  | some cfg =>
    obtain ⟨-, h1, h2, -⟩ := parseDict_some dict cfg hr
    rcases hmem with hmem | hmem
    · exact absurd (h1 t hmem) hmiss
    · exact absurd (h2 t hmem) hmiss

/-- C6 on a configuration whose consumer names the topic `payments`, which
`kafka.topics` does not list. -/
theorem ParseConfig_nil_of_unknown_topic_witness :
    wellTyped (sampleDict "orders" [sampleConsumer "payments"]) = true ∧
    "payments" ∈ consumerTopics (sampleDict "orders" [sampleConsumer "payments"]) ∧
    "payments" ∉ topicNames (sampleDict "orders" [sampleConsumer "payments"]) ∧
    ParseConfig (FileContent.decoded (sampleDict "orders" [sampleConsumer "payments"])) =
      Except.ok none :=
  ⟨by decide, by decide, by decide,
    ParseConfig_nil_of_unknown_topic _ (by decide) "payments" (Or.inr (by decide)) (by decide)⟩

/-- C7 as amended: for every otherwise valid configuration (well typed, every
referenced topic configured) whose circuitBreaker blocks have winSize and minStats
that are whole numbers within the range of int, ParseConfig returns nil if and only
if some block violates winSize > 0 and minStats > 0 and 0 < healthRate ≤ 100, and
returns a Config otherwise. -/
theorem ParseConfig_nil_iff_breaker_invalid (dict : List (String × JSON))
    (ht : wellTyped dict = true)
    (hacl : ∀ t, t ∈ aclTopics dict → t ∈ topicNames dict)
    (hcons : ∀ t, t ∈ consumerTopics dict → t ∈ topicNames dict)
    (hint : ∀ b, b ∈ breakerBlocks dict → blockIntegral b = true) :
    (ParseConfig (FileContent.decoded dict) = Except.ok none ↔
        ∃ b, b ∈ breakerBlocks dict ∧ blockValid b = false) ∧
      (ParseConfig (FileContent.decoded dict) ≠ Except.ok none →
        ∃ cfg, ParseConfig (FileContent.decoded dict) = Except.ok (some cfg)) := by
  have hrej : ∀ b, b ∈ breakerBlocks dict → blockRejected b = !blockValid b := fun b hb =>
    blockRejected_eq_not_valid b (breakerBlocks_typed dict ht b hb) (hint b hb)
  obtain ⟨r, hr⟩ := parseDict_typed dict ht
  refine ⟨⟨?_, ?_⟩, ?_⟩
  · intro hnil
    by_contra hno
    simp only [not_exists, not_and, Bool.not_eq_false] at hno
    refine parseDict_not_nil dict hacl hcons (fun b hb => ?_) hnil
    rw [hrej b hb, hno b hb]
    rfl
  · rintro ⟨b, hb, hv⟩
    cases r with
    | none => exact hr
    | some cfg =>
      obtain ⟨-, -, -, h3⟩ := parseDict_some dict cfg hr
      have := h3 b hb
      rw [hrej b hb, hv] at this
      cases this
  · intro hne
    cases r with
    | none => exact absurd hr hne
    | some cfg => exact ⟨cfg, hr⟩

/-- C7 as amended, the cases the claim names: healthRate exactly 100 is accepted; healthRate 0,
healthRate 101, winSize 0 and minStats -1 are each rejected with nil. -/
theorem ParseConfig_nil_iff_breaker_invalid_witness :
    (∃ cfg, ParseConfig (FileContent.decoded (sampleDictWith 10 5 100)) =
      Except.ok (some cfg)) ∧
    ParseConfig (FileContent.decoded (sampleDictWith 10 5 0)) = Except.ok none ∧
    ParseConfig (FileContent.decoded (sampleDictWith 10 5 101)) = Except.ok none ∧
    ParseConfig (FileContent.decoded (sampleDictWith 0 5 50)) = Except.ok none ∧
    ParseConfig (FileContent.decoded (sampleDictWith 10 (-1) 50)) = Except.ok none :=
  ⟨(ParseConfig_nil_iff_breaker_invalid (sampleDictWith 10 5 100) (by decide) (by decide)
      (by decide) (by decide)).2
      (fun h => absurd ((ParseConfig_nil_iff_breaker_invalid (sampleDictWith 10 5 100)
        (by decide) (by decide) (by decide) (by decide)).1.1 h) (by decide)),
    (ParseConfig_nil_iff_breaker_invalid (sampleDictWith 10 5 0) (by decide) (by decide)
      (by decide) (by decide)).1.2 (by decide),
    (ParseConfig_nil_iff_breaker_invalid (sampleDictWith 10 5 101) (by decide) (by decide)
      (by decide) (by decide)).1.2 (by decide),
    (ParseConfig_nil_iff_breaker_invalid (sampleDictWith 0 5 50) (by decide) (by decide)
      (by decide) (by decide)).1.2 (by decide),
    (ParseConfig_nil_iff_breaker_invalid (sampleDictWith 10 (-1) 50) (by decide) (by decide)
      (by decide) (by decide)).1.2 (by decide)⟩

/-- C7, counterexample: an otherwise valid configuration whose one circuitBreaker
block has winSize 10000000000000000000 (ten to the nineteenth, a float64 value),
minStats 5 and healthRate 50. Both numbers are integer-valued and the block
satisfies winSize > 0 and minStats > 0 and 0 < healthRate ≤ 100, yet ParseConfig
returns nil: the value is beyond the largest int, int(winSize) is the smallest int
on amd64, and the test WinSize <= 0 of line 131 holds. -/
theorem ParseConfig_nil_on_winSize_beyond_int :
    wellTyped (sampleDictWinSize ⟨10000000000000000000, 0⟩) = true ∧
    (∀ t, t ∈ aclTopics (sampleDictWinSize ⟨10000000000000000000, 0⟩) →
      t ∈ topicNames (sampleDictWinSize ⟨10000000000000000000, 0⟩)) ∧
    (∀ t, t ∈ consumerTopics (sampleDictWinSize ⟨10000000000000000000, 0⟩) →
      t ∈ topicNames (sampleDictWinSize ⟨10000000000000000000, 0⟩)) ∧
    (∀ b, b ∈ breakerBlocks (sampleDictWinSize ⟨10000000000000000000, 0⟩) →
      blockWhole b = true ∧ blockValid b = true) ∧
    Float64.toInt ⟨10000000000000000000, 0⟩ = minInt ∧
    ParseConfig (FileContent.decoded (sampleDictWinSize ⟨10000000000000000000, 0⟩)) =
      Except.ok none :=
  ⟨by decide, by decide, by decide, by decide, by decide, rfl⟩

/-- C8 as amended: for every input in which a required configuration field is
missing or has the wrong JSON type, ParseConfig returns no Config, partial or not. It
returns nil exactly when a topic check or a circuit-breaker check fails before any
type assertion does, that is on an entry which the loader reaches with the top-level
scalars, the topics, every entry before it and the entry itself all well typed; in
every other case it aborts with a run-time panic (failed type assertion): always so
when the field is a top-level scalar, and whenever every referenced topic is
configured and no circuitBreaker block meets the rejection test. Nil is also what an
unreadable file and malformed JSON give. -/
theorem ParseConfig_ill_typed (dict : List (String × JSON)) (h : wellTyped dict = false) :
    (∀ cfg, ParseConfig (FileContent.decoded dict) ≠ Except.ok (some cfg)) ∧
      (ParseConfig (FileContent.decoded dict) = Except.ok none ↔
        nilBeforePanic dict = true) ∧
      ((∃ e, ParseConfig (FileContent.decoded dict) = Except.error e) ↔
        nilBeforePanic dict = false) ∧
      (scalarsTyped dict = false →
        ∃ key, ParseConfig (FileContent.decoded dict) =
          Except.error (Panic.interfaceConversion key)) ∧
      ((∀ t, t ∈ aclTopics dict → t ∈ topicNames dict) →
        (∀ t, t ∈ consumerTopics dict → t ∈ topicNames dict) →
        (∀ b, b ∈ breakerBlocks dict → blockRejected b = false) →
        ∃ e, ParseConfig (FileContent.decoded dict) = Except.error e) ∧
      ParseConfig FileContent.readError = Except.ok none ∧
      ParseConfig FileContent.unmarshalError = Except.ok none := by
  have hnot : ∀ cfg, ParseConfig (FileContent.decoded dict) ≠ Except.ok (some cfg) := by
    intro cfg hcfg
    have := (parseDict_some dict cfg hcfg).1
    rw [h] at this
    cases this
  have hnil : ParseConfig (FileContent.decoded dict) = Except.ok none ↔
      nilBeforePanic dict = true := parseDict_nil_iff dict
  refine ⟨hnot, hnil, ?_, ?_, ?_, rfl, rfl⟩
  · constructor
    · rintro ⟨e, he⟩
      cases hb : nilBeforePanic dict with
      | false => rfl
      | true =>
        rw [hnil.2 hb] at he
        cases he
    · intro hb
      cases hr : ParseConfig (FileContent.decoded dict) with
      | error e => exact ⟨e, rfl⟩
      | ok r =>
        cases r with
        | none =>
          rw [hnil.1 hr] at hb
          cases hb
        | some cfg => exact absurd hr (hnot cfg)
  · intro hs
    rcases parseScalars_cases dict with ⟨-, key, hk⟩ | ⟨hs1, -⟩
    · exact ⟨key, by simp [ParseConfig, parseDict, hk, bind, Except.bind]⟩
    · rw [hs] at hs1; cases hs1
  · intro hacl hcons hblocks
    cases hr : ParseConfig (FileContent.decoded dict) with
    | error e => exact ⟨e, rfl⟩
    | ok r =>
      cases r with
      | none => exact absurd hr (parseDict_not_nil dict hacl hcons hblocks)
      | some cfg => exact absurd hr (hnot cfg)

/-- C8 as amended, on three configurations whose first consumer entry has no
retries. With every check passing the load panics; with a second consumer entry
that names an unknown topic it panics as well, the failed assertion coming first;
with an ACL entry that names an unknown topic it returns nil, the failed check
coming first. -/
theorem ParseConfig_ill_typed_witness :
    (wellTyped (sampleDict "orders" [JSON.object (sampleConsumerFields "orders")]) = false ∧
      (∀ cfg, ParseConfig (FileContent.decoded
        (sampleDict "orders" [JSON.object (sampleConsumerFields "orders")])) ≠
          Except.ok (some cfg)) ∧
      ∃ e, ParseConfig (FileContent.decoded
        (sampleDict "orders" [JSON.object (sampleConsumerFields "orders")])) =
          Except.error e) ∧
    (wellTyped (sampleDict "orders"
        [JSON.object (sampleConsumerFields "orders"), sampleConsumer "payments"]) = false ∧
      "payments" ∉ topicNames (sampleDict "orders"
        [JSON.object (sampleConsumerFields "orders"), sampleConsumer "payments"]) ∧
      ∃ e, ParseConfig (FileContent.decoded (sampleDict "orders"
        [JSON.object (sampleConsumerFields "orders"), sampleConsumer "payments"])) =
          Except.error e) ∧
    (wellTyped (sampleDict "payments" [JSON.object (sampleConsumerFields "orders")]) = false ∧
      ParseConfig (FileContent.decoded
        (sampleDict "payments" [JSON.object (sampleConsumerFields "orders")])) =
          Except.ok none) :=
  ⟨⟨by decide,
      (ParseConfig_ill_typed (sampleDict "orders" [JSON.object (sampleConsumerFields "orders")])
        (by decide)).1,
      (ParseConfig_ill_typed (sampleDict "orders" [JSON.object (sampleConsumerFields "orders")])
        (by decide)).2.2.2.2.1 (by decide) (by decide) (by decide)⟩,
    ⟨by decide, by decide,
      (ParseConfig_ill_typed (sampleDict "orders"
        [JSON.object (sampleConsumerFields "orders"), sampleConsumer "payments"])
        (by decide)).2.2.1.2 (by decide)⟩,
    ⟨by decide,
      (ParseConfig_ill_typed (sampleDict "payments"
        [JSON.object (sampleConsumerFields "orders")]) (by decide)).2.1.2 (by decide)⟩⟩

/-- C8, counterexample: with log.directory absent, with log.level a string, and
with a consumer entry without retries, ParseConfig does not return nil: it panics on
the type assertion of that field. -/
theorem ParseConfig_panics_on_missing_field :
    ParseConfig (FileContent.decoded
      (sampleScalars (JSON.int 5) ++ sampleLists "orders" [sampleConsumer "orders"])) =
      Except.error (Panic.interfaceConversion "log.directory") ∧
    ParseConfig (FileContent.decoded
      (("log.directory", JSON.string "./logs") :: sampleScalars (JSON.string "debug") ++
        sampleLists "orders" [sampleConsumer "orders"])) =
      Except.error (Panic.interfaceConversion "log.level") ∧
    ParseConfig (FileContent.decoded
      (sampleDict "orders" [JSON.object (sampleConsumerFields "orders")])) =
      Except.error (Panic.interfaceConversion "retries") :=
  ⟨rfl, rfl, rfl⟩

/-! ## The slot is held for the whole retry sequence -/

/-- With capacity 1, a delivery that holds the slot keeps every send blocked. -/
theorem System.Inv.send_blocked {s : System} (hs : s.Inv 1) (k : Nat) (p : Phase)
    (h : s.deliveries.get? k = some p) (hp : p.holdsSlot = true) (j : Nat) :
    s.step (Step.send j) = none := by
  obtain ⟨hcap, hle, hlen⟩ := hs
  have hpos := countP_pos_of_get? Phase.holdsSlot s.deliveries k p h hp
  have hfull : ¬ s.client.pending.buf.length < s.client.pending.cap := by
    simp only [Chan.len, System.outstanding] at hle hlen
    omega
  simp only [System.step, Chan.send, hfull, if_false]
  split <;> simp_all

theorem loopBound_of_neg (client : AsyncClient) (h0 : minInt ≤ client.retries)
    (h1 : client.retries < 0) : loopBound client = 0 := by
  unfold loopBound
  rw [wrapInt_of_inRange _ (by unfold minInt at *; omega) (by unfold maxInt; omega)]
  omega

theorem init_inv_of_create (info : ConsumerInfo) (client : AsyncClient)
    (hc : CreateAsyncClient info = Except.ok client) :
    (System.init client).Inv info.Concurrency.toNat := by
  have hcap : client.pending.cap = info.Concurrency.toNat := by
    unfold CreateAsyncClient at hc
    split at hc
    · simp at hc
    · simp only [Except.ok.injEq] at hc
      subst hc
      rfl
  exact ⟨hcap, by simp [System.init, Chan.len], by simp [System.init, Chan.len, System.outstanding]⟩

/-- C11: a delivery holds its gate slot for its entire retry sequence. In every run
of callWithRetry the new events are the events of the attempts followed by nothing
or by the one release and the disposition, so the release comes after the last
attempt and never between two attempts; the release is there when the header map of
the message is allocated and the gate holds an element, and it is missing when the
gate is empty. On a client of concurrency 1, in every reachable state in which a
delivery holds the slot (admitted, anywhere in its loop, or past it and not yet
released) no Call can be admitted, and a delivery with attempts left cannot
release. -/
theorem slot_held_for_whole_retry_sequence (http : Nat → Outcome) (message : CallMessage)
    (w : World) (info : ConsumerInfo) (client : AsyncClient) (hK : info.Concurrency = 1)
    (hc : CreateAsyncClient info = Except.ok client) (steps : List Step) (s : System)
    (hrun : (System.init client).run steps = some s) :
    (∃ loopEvs rest, (∀ e, e ∈ loopEvs → e.isAttemptEvent = true) ∧
      (callWithRetry http message w).state.2.trace = w.trace ++ loopEvs ++ rest ∧
      (rest = [] ∨ ∃ d, (d = Event.rpcSuccess message.Topic ∨ d = Event.rpcFail message.Topic) ∧
        rest = [Event.pendingRecv, d]) ∧
      (message.Headers ≠ none → w.client.pending.buf ≠ [] → rest ≠ []) ∧
      (w.client.pending.buf = [] → rest = [])) ∧
    (∀ k p, s.deliveries.get? k = some p → p.holdsSlot = true →
      ∀ j, s.step (Step.send j) = none) ∧
    (∀ k i, s.deliveries.get? k = some (Phase.looping i) → i < loopBound s.client →
      s.step (Step.release k) = none) := by
  refine ⟨?_, ?_, ?_⟩
  · obtain ⟨evs, h1, h2, -⟩ := retryLoop_events http (loopBound w.client) 0
      ⟨false, message, w.trace, none⟩
    obtain ⟨tail, t1, -, -, -, t5⟩ := callWithRetry_state_trace http message w
    refine ⟨evs, tail, h2, by rw [t1, h1], t5, ?_, ?_⟩
    · intro hH hb htail
      have hr := callWithRetry_returned http message w
        (retryLoop_panic_none http _ message w.trace (fun hno => absurd hno hH)) hb
      rw [hr, htail] at t1
      simp [Progress.state] at t1
    · intro hb
      have hno : (callWithRetry http message w).state.2.trace =
          (retryLoop http (loopBound w.client) 0 ⟨false, message, w.trace, none⟩).trace := by
        unfold callWithRetry Chan.recv
        cases hp : (retryLoop http (loopBound w.client) 0
          ⟨false, message, w.trace, none⟩).panic <;> simp [hp, hb, Progress.state]
      rw [hno] at t1
      simpa using t1
  · have hinv := System.run_inv _ steps _ _ (init_inv_of_create info client hc) hrun
    rw [hK] at hinv
    intro k p h hp j
    exact System.Inv.send_blocked hinv k p h hp j
  · intro k i h hi
    simp only [System.step, h]
    split
    · rename_i i1 ch heq hrecv
      simp only [Option.some.injEq, Phase.looping.injEq] at heq
      subst heq
      simp [hi]
    · rename_i heq _
      simp at heq
    · rfl

/-- C11 on a client of concurrency 1 and retries 2: after the first of the three
attempts of delivery 0, the second call cannot be admitted and delivery 0 cannot
release. -/
theorem slot_held_for_whole_retry_sequence_witness :
    sampleInfo.Concurrency = 1 ∧ CreateAsyncClient sampleInfo = Except.ok sampleClient ∧
    (System.init sampleClient).run sampleMidRetry = some sampleMidState ∧
    sampleMidState.step (Step.send 1) = none ∧
    sampleMidState.step (Step.release 0) = none :=
  ⟨rfl, rfl, by decide,
    (slot_held_for_whole_retry_sequence okAtFirst sampleMessage (sampleWorld 2) sampleInfo
      sampleClient rfl rfl sampleMidRetry sampleMidState (by decide)).2.1
      0 (Phase.looping 1) rfl rfl 1,
    (slot_held_for_whole_retry_sequence okAtFirst sampleMessage (sampleWorld 2) sampleInfo
      sampleClient rfl rfl sampleMidRetry sampleMidState (by decide)).2.2 0 1 rfl (by decide)⟩

/-! ## Go maps built by repeated assignment -/

theorem GoMap.keys_set {α : Type} (m : GoMap α) (k : String) (v : α) :
    (m.set k v).keys = if k ∈ m.keys then m.keys else m.keys ++ [k] := by
  induction m with
  | nil => simp [GoMap.set, GoMap.keys]
  | cons p rest ih =>
    obtain ⟨k1, v1⟩ := p
    simp only [GoMap.keys] at ih
    by_cases h : k1 = k
    · subst h
      simp [GoMap.set, GoMap.keys]
    · have hne : ¬ k = k1 := fun e => h e.symm
      simp only [GoMap.set, GoMap.keys, beq_iff_eq, h, if_false, List.map_cons, ih,
        List.mem_cons, hne, false_or]
      split <;> simp

theorem GoMap.nodup_keys_set {α : Type} (m : GoMap α) (k : String) (v : α)
    (h : m.keys.Nodup) : (m.set k v).keys.Nodup := by
  rw [GoMap.keys_set]
  split
  · exact h
  · rename_i hk
    exact List.nodup_append.2 ⟨h, List.nodup_singleton k, by simpa using hk⟩

theorem GoMap.nodup_keys_setAll {α : Type} (pairs : List (String × α)) :
    ∀ m : GoMap α, m.keys.Nodup → (m.setAll pairs).keys.Nodup := by
  induction pairs with
  | nil => intro m h; exact h
  | cons p rest ih =>
    intro m h
    exact ih _ (GoMap.nodup_keys_set m p.1 p.2 h)

theorem GoMap.get?_setAll {α : Type} (pairs : List (String × α)) :
    ∀ (m : GoMap α) (k : String),
      (m.setAll pairs).get? k = (lastWith pairs k).or (m.get? k) := by
  induction pairs with
  | nil => intro m k; simp [GoMap.setAll, lastWith]
  | cons p rest ih =>
    intro m k
    obtain ⟨k1, v1⟩ := p
    have hstep : GoMap.setAll m ((k1, v1) :: rest) = GoMap.setAll (m.set k1 v1) rest := rfl
    rw [hstep, ih]
    simp only [lastWith, List.reverse_cons, List.lookup_append]
    by_cases hk : k = k1
    · subst hk
      rw [GoMap.get?_set_self]
      cases List.lookup k rest.reverse <;> simp [List.lookup]
    · rw [GoMap.get?_set_of_ne m k1 k v1 hk]
      have hb : (k == k1) = false := by simpa using hk
      cases List.lookup k rest.reverse <;> simp [List.lookup, hb]

theorem GoMap.mem_keys_iff {α : Type} (m : GoMap α) (k : String) :
    k ∈ m.keys ↔ (m.get? k).isSome = true := by
  induction m with
  | nil => simp [GoMap.keys, GoMap.get?]
  | cons p rest ih =>
    obtain ⟨k1, v1⟩ := p
    simp only [GoMap.keys, GoMap.get?] at ih ⊢
    by_cases hk : k = k1
    · subst hk
      simp [List.lookup]
    · have hb : (k == k1) = false := by simpa using hk
      simp [List.lookup, hb, hk, ih]

theorem lastWith_isSome {α : Type} (pairs : List (String × α)) (k : String) :
    (lastWith pairs k).isSome = true ↔ k ∈ pairs.map Prod.fst := by
  have := GoMap.mem_keys_iff pairs.reverse k
  simp only [GoMap.keys, GoMap.get?, List.map_reverse, List.mem_reverse] at this
  exact this.symm

/-! ## What the three loops store -/

theorem parseTopics_entry (value : JSON) (rest : List JSON) (acc r : GoMap TopicInfo)
    (h : parseTopics (value :: rest) acc = Except.ok r) :
    ∃ p, topicOf value = some p ∧ parseTopics rest (acc.set p.1 p.2) = Except.ok r := by
  cases value with
  | object o =>
    simp only [parseTopics, asObject, asString_eq, asInt_eq, bind, Except.bind] at h
    simp only [topicOf, JSON.intField, JSON.field]
    cases h1 : JSON.str? (List.lookup "name" o) with
    | none => simp [h1] at h
    | some name =>
      cases h2 : JSON.num? (List.lookup "partitions" o) with
      | none => simp [h1, h2] at h
      | some p =>
        simp only [h1, h2] at h
        exact ⟨_, rfl, h⟩
  | _ => simp [parseTopics, asObject, bind, Except.bind] at h

theorem parseTopics_setAll (xs : List JSON) :
    ∀ acc r, parseTopics xs acc = Except.ok r → r = acc.setAll (xs.filterMap topicOf) := by
  induction xs with
  | nil =>
    intro acc r h
    simp only [parseTopics, Except.ok.injEq] at h
    subst h
    rfl
  | cons value rest ih =>
    intro acc r h
    obtain ⟨p, hp, hrest⟩ := parseTopics_entry value rest acc r h
    rw [ih _ r hrest]
    simp [List.filterMap_cons, hp, GoMap.setAll]

theorem parseAcl_entry (topics : GoMap TopicInfo) (value : JSON) (rest : List JSON)
    (acc r : GoMap ProducerACL) (h : parseAcl topics (value :: rest) acc = Except.ok (some r)) :
    ∃ p, aclOf value = some p ∧ parseAcl topics rest (acc.set p.1 p.2) = Except.ok (some r) := by
  cases value with
  | object o =>
    simp only [parseAcl, asObject, asString_eq, bind, Except.bind] at h
    simp only [aclOf, JSON.field]
    cases h1 : JSON.str? (List.lookup "name" o) with
    | none => simp [h1] at h
    | some name =>
      cases h2 : JSON.str? (List.lookup "secret" o) with
      | none => simp [h1, h2] at h
      | some secret =>
        cases h3 : JSON.str? (List.lookup "topic" o) with
        | none => simp [h1, h2, h3] at h
        | some topic =>
          simp only [h1, h2, h3] at h
          split at h
          · cases h
          · exact ⟨_, rfl, h⟩
  | _ => simp [parseAcl, asObject, bind, Except.bind] at h

theorem parseAcl_setAll (topics : GoMap TopicInfo) (xs : List JSON) :
    ∀ acc r, parseAcl topics xs acc = Except.ok (some r) →
      r = acc.setAll (xs.filterMap aclOf) := by
  induction xs with
  | nil =>
    intro acc r h
    simp only [parseAcl, Except.ok.injEq, Option.some.injEq] at h
    subst h
    rfl
  | cons value rest ih =>
    intro acc r h
    obtain ⟨p, hp, hrest⟩ := parseAcl_entry topics value rest acc r h
    rw [ih _ r hrest]
    simp [List.filterMap_cons, hp, GoMap.setAll]

theorem parseBreaker_entry (o : List (String × JSON)) (v : Option CircuitBreakerInfo)
    (h : parseBreaker o = Except.ok (some v)) :
    BlockMatches (o.lookup "circuitBreaker") v := by
  unfold parseBreaker at h
  cases hb : o.lookup "circuitBreaker" with
  | none =>
    simp only [hb, Except.ok.injEq, Option.some.injEq] at h
    subst h
    trivial
  | some block =>
    simp only [hb] at h
    cases block with
    | object b =>
      simp only [asObject, asInt_eq, asFloat64_eq, bind, Except.bind] at h
      cases h1 : JSON.num? (List.lookup "recoverPeriod" b) with
      | none => simp [h1] at h
      | some recoverPeriod =>
        cases h2 : JSON.num? (List.lookup "breakPeriod" b) with
        | none => simp [h1, h2] at h
        | some breakPeriod =>
          cases h3 : JSON.num? (List.lookup "winSize" b) with
          | none => simp [h1, h2, h3] at h
          | some winSize =>
            cases h4 : JSON.num? (List.lookup "healthRate" b) with
            | none => simp [h1, h2, h3, h4] at h
            | some healthRate =>
              cases h5 : JSON.num? (List.lookup "minStats" b) with
              | none => simp [h1, h2, h3, h4, h5] at h
              | some minStats =>
                simp only [h1, h2, h3, h4, h5] at h
                split at h
                · cases h
                · simp only [Except.ok.injEq, Option.some.injEq] at h
                  subst h
                  simp [BlockMatches, BreakerMatches, JSON.intField, JSON.field, h1, h2, h3,
                    h4, h5]
    | _ => simp [asObject, bind, Except.bind] at h

theorem parseConsumers_entry (topics : GoMap TopicInfo) (value : JSON) (rest : List JSON)
    (list r : List ConsumerInfo)
    (h : parseConsumers topics (value :: rest) list = Except.ok (some r)) :
    ∃ info, ConsumerMatches value info ∧
      parseConsumers topics rest (list ++ [info]) = Except.ok (some r) := by
  cases value with
  | object o =>
    simp only [parseConsumers, asObject, asString_eq, asInt_eq, bind, Except.bind] at h
    cases h1 : JSON.str? (List.lookup "topic" o) with
    | none => simp [h1] at h
    | some topic =>
      cases h2 : JSON.str? (List.lookup "groupId" o) with
      | none => simp [h1, h2] at h
      | some groupId =>
        cases h3 : JSON.num? (List.lookup "rateLimit" o) with
        | none => simp [h1, h2, h3] at h
        | some rateLimit =>
          cases h4 : JSON.num? (List.lookup "retries" o) with
          | none => simp [h1, h2, h3, h4] at h
          | some retries =>
            cases h5 : JSON.num? (List.lookup "timeout" o) with
            | none => simp [h1, h2, h3, h4, h5] at h
            | some timeout =>
              cases h6 : JSON.num? (List.lookup "concurrency" o) with
              | none => simp [h1, h2, h3, h4, h5, h6] at h
              | some concurrency =>
                simp only [h1, h2, h3, h4, h5, h6] at h
                cases hbr : parseBreaker o with
                | error e => simp [hbr] at h
                | ok v =>
                  cases v with
                  | none => simp [hbr] at h
                  | some v =>
                    simp only [hbr] at h
                    split at h
                    · cases h
                    · refine ⟨_, ?_, h⟩
                      have hm := parseBreaker_entry o v hbr
                      simp only [ConsumerMatches, JSON.intField, JSON.field, h1, h2, h3, h4, h5,
                        h6, Option.map_some', true_and]
                      exact hm
  | _ => simp [parseConsumers, asObject, bind, Except.bind] at h

theorem parseConsumers_matches (topics : GoMap TopicInfo) (xs : List JSON) :
    ∀ list r, parseConsumers topics xs list = Except.ok (some r) →
      ∃ infos, r = list ++ infos ∧ List.Forall₂ ConsumerMatches xs infos := by
  induction xs with
  | nil =>
    intro list r h
    simp only [parseConsumers, Except.ok.injEq, Option.some.injEq] at h
    exact ⟨[], by simp [h], List.Forall₂.nil⟩
  | cons value rest ih =>
    intro list r h
    obtain ⟨info, hm, hrest⟩ := parseConsumers_entry topics value rest list r h
    obtain ⟨infos, hr, hall⟩ := ih _ r hrest
    exact ⟨info :: infos, by simp [hr], List.Forall₂.cons hm hall⟩

/-! ## The loaded configuration -/

/-- A returned Config holds what its three loops gave. -/
theorem parseDict_parts (dict : List (String × JSON)) (cfg : Config)
    (h : parseDict dict = Except.ok (some cfg)) :
    parseTopics (entriesOf dict "kafka.topics") [] = Except.ok cfg.Kafka_topics ∧
      parseAcl cfg.Kafka_topics (entriesOf dict "kafka.producer.acl") [] =
        Except.ok (some cfg.Kafka_producer_acl) ∧
      parseConsumers cfg.Kafka_topics (entriesOf dict "kafka.consumer.list") [] =
        Except.ok (some cfg.Kafka_consumer_list) := by
  rcases parseScalars_cases dict with ⟨-, key, hk⟩ | ⟨hs, c, hc, hcl⟩
  · simp [parseDict, hk, bind, Except.bind] at h
  simp only [parseDict, hc, bind, Except.bind, parseLists, asArray_eq] at h
  cases h1 : JSON.arr? (dict.lookup "kafka.topics") with
  | none => simp [h1] at h
  | some xs =>
    simp only [h1] at h
    cases h2 : parseTopics xs [] with
    | error e => simp [h2] at h
    | ok topics =>
      simp only [h2] at h
      cases h3 : JSON.arr? (dict.lookup "kafka.producer.acl") with
      | none => simp [h3] at h
      | some ys =>
        simp only [h3] at h
        cases h4 : parseAcl topics ys [] with
        | error e => simp [h4] at h
        | ok r =>
          cases r with
          | none => simp [h4] at h
          | some acl =>
            simp only [h4] at h
            cases h5 : JSON.arr? (dict.lookup "kafka.consumer.list") with
            | none => simp [h5] at h
            | some zs =>
              simp only [h5] at h
              cases h6 : parseConsumers topics zs c.Kafka_consumer_list with
              | error e => simp [h6] at h
              | ok r =>
                cases r with
                | none => simp [h6] at h
                | some list =>
                  simp only [h6, Except.ok.injEq, Option.some.injEq] at h
                  subst h
                  rw [hcl] at h6
                  simp [entriesOf, h1, h3, h5, h2, h4, h6]

/-- A well-typed configuration that passes every check of the loader is loaded. -/
theorem parseDict_loaded (dict : List (String × JSON)) (ht : wellTyped dict = true)
    (hacl : ∀ t, t ∈ aclTopics dict → t ∈ topicNames dict)
    (hcons : ∀ t, t ∈ consumerTopics dict → t ∈ topicNames dict)
    (hblocks : ∀ b, b ∈ breakerBlocks dict → blockRejected b = false) :
    ∃ cfg, parseDict dict = Except.ok (some cfg) := by
  obtain ⟨r, hr⟩ := parseDict_typed dict ht
  cases r with
  | none => exact absurd hr (parseDict_not_nil dict hacl hcons hblocks)
  | some cfg => exact ⟨cfg, hr⟩

theorem parseDict_consumers (dict : List (String × JSON)) (cfg : Config)
    (h : parseDict dict = Except.ok (some cfg)) :
    List.Forall₂ ConsumerMatches (entriesOf dict "kafka.consumer.list")
      cfg.Kafka_consumer_list := by
  obtain ⟨-, -, h3⟩ := parseDict_parts dict cfg h
  obtain ⟨infos, hr, hall⟩ := parseConsumers_matches _ _ _ _ h3
  simp only [List.nil_append] at hr
  rw [hr]
  exact hall

theorem BlockMatches.none_iff {block : Option JSON} {v : Option CircuitBreakerInfo}
    (h : BlockMatches block v) : v = none ↔ block = none := by
  cases block <;> cases v <;> simp_all [BlockMatches]

/-! ## Truncation -/

theorem Float64.eqInt_toInt_of_isInt (f : Float64) (h : f.isInt = true) :
    f.eqInt f.toInt = true := by
  simp only [Float64.isInt, Bool.and_eq_true, decide_eq_true_eq] at h
  obtain ⟨⟨⟨q, hq⟩, h1⟩, h2⟩ := h
  have hpos : (0 : Int) < 2 ^ f.scale := by positivity
  have htr : f.trunc = q := by
    unfold Float64.trunc
    rw [hq, Int.mul_tdiv_cancel_left _ (ne_of_gt hpos)]
  unfold Float64.eqInt Float64.toInt
  rw [if_pos ⟨h1, h2⟩, htr, hq, mul_comm]
  simp

theorem Float64.toInt_of_fraction (f : Float64) (h0 : f.gtInt 0 = true)
    (h1 : f.ltInt 1 = true) : f.toInt = 0 := by
  simp only [Float64.gtInt, Float64.ltInt, decide_eq_true_eq, zero_mul, one_mul] at h0 h1
  have htr : f.trunc = 0 := Int.tdiv_eq_zero_of_lt (le_of_lt h0) h1
  unfold Float64.toInt
  rw [htr]
  decide

theorem Float64.toInt_of_one_and_fraction (f : Float64) (h0 : f.gtInt 1 = true)
    (h1 : f.ltInt 2 = true) : f.toInt = 1 := by
  simp only [Float64.gtInt, Float64.ltInt, decide_eq_true_eq, one_mul] at h0 h1
  have hpos : (0 : Int) < 2 ^ f.scale := by positivity
  have htr : f.trunc = 1 := by
    unfold Float64.trunc
    rw [Int.tdiv_eq_ediv (by omega) (by omega)]
    have h3 : 1 ≤ f.mant / 2 ^ f.scale := (Int.le_ediv_iff_mul_le hpos).2 (by omega)
    have h4 : f.mant / 2 ^ f.scale < 2 := (Int.ediv_lt_iff_lt_mul hpos).2 (by omega)
    omega
  unfold Float64.toInt
  rw [htr]
  decide

theorem blockRejected_of_fractional (block : JSON) (ht : breakerTyped block = true)
    (h : blockFractional block) : blockRejected block = true := by
  cases block with
  | object o =>
    simp only [breakerTyped, JSON.hasNumbers, List.all_cons, List.all_nil, Bool.and_true,
      Bool.and_eq_true, Option.isSome_iff_exists] at ht
    obtain ⟨-, -, ⟨w, hw⟩, ⟨hr, hh⟩, ⟨m, hm⟩⟩ := ht
    simp only [blockFractional, JSON.field, hw, hm, Option.some.injEq, exists_eq_left'] at h
    simp only [blockRejected, JSON.field, hw, hm, hh, Bool.or_eq_true, decide_eq_true_eq]
    rcases h with ⟨h0, h1⟩ | ⟨h0, h1⟩
    · left; left; left
      rw [Float64.toInt_of_fraction w h0 h1]
    · left; left; right
      rw [Float64.toInt_of_fraction m h0 h1]
  | _ => simp [breakerTyped, JSON.hasNumbers] at ht

/-! ## Claims on the loaded configuration -/

/-- C12 as amended: for every well-typed configuration that satisfies all
cross-reference constraints and whose circuitBreaker blocks pass the check of the
loader (winSize and minStats positive after conversion to int, 0 < healthRate ≤ 100),
ParseConfig returns a non-nil Config whose Kafka_consumer_list has the length and
order of kafka.consumer.list, each entry holding the topic and groupId written and
the rateLimit, retries, timeout and concurrency written, converted by int(...) (equal
to what is written whenever that is a whole number an int holds), with a nil
CircuiteBreakerInfo exactly for the entries without a circuitBreaker block. -/
theorem ParseConfig_consumer_list (dict : List (String × JSON)) (ht : wellTyped dict = true)
    (hacl : ∀ t, t ∈ aclTopics dict → t ∈ topicNames dict)
    (hcons : ∀ t, t ∈ consumerTopics dict → t ∈ topicNames dict)
    (hblocks : ∀ b, b ∈ breakerBlocks dict → blockRejected b = false) :
    ∃ cfg, ParseConfig (FileContent.decoded dict) = Except.ok (some cfg) ∧
      cfg.Kafka_consumer_list.length = (entriesOf dict "kafka.consumer.list").length ∧
      List.Forall₂ ConsumerMatches (entriesOf dict "kafka.consumer.list")
        cfg.Kafka_consumer_list ∧
      List.Forall₂ (fun entry c =>
          c.CircuiteBreakerInfo = none ↔ entry.field "circuitBreaker" = none)
        (entriesOf dict "kafka.consumer.list") cfg.Kafka_consumer_list ∧
      ∀ f : Float64, f.isInt = true → f.eqInt f.toInt = true := by
  obtain ⟨cfg, hcfg⟩ := parseDict_loaded dict ht hacl hcons hblocks
  have hall := parseDict_consumers dict cfg hcfg
  refine ⟨cfg, hcfg, hall.length_eq.symm, hall, ?_, Float64.eqInt_toInt_of_isInt⟩
  exact hall.imp fun _ _ h => BlockMatches.none_iff h.2.2.2.2.2.2

/-- C12 as amended, on a configuration with one consumer without a block and one
with a block. -/
theorem ParseConfig_consumer_list_witness :
    wellTyped (sampleDict "orders" [sampleConsumer "orders",
      sampleConsumerWith "orders" (sampleBlock ⟨10, 0⟩ ⟨5, 0⟩ ⟨50, 0⟩)]) = true ∧
    ∃ cfg, ParseConfig (FileContent.decoded (sampleDict "orders" [sampleConsumer "orders",
        sampleConsumerWith "orders" (sampleBlock ⟨10, 0⟩ ⟨5, 0⟩ ⟨50, 0⟩)])) =
        Except.ok (some cfg) ∧
      cfg.Kafka_consumer_list.length = 2 :=
  ⟨by decide,
    (ParseConfig_consumer_list (sampleDict "orders" [sampleConsumer "orders",
      sampleConsumerWith "orders" (sampleBlock ⟨10, 0⟩ ⟨5, 0⟩ ⟨50, 0⟩)])
      (by decide) (by decide) (by decide) (by decide)).imp fun _ h => ⟨h.1, h.2.1⟩⟩

/-- C12, counterexample: a well-typed configuration whose block has winSize 0.5
satisfies winSize > 0, minStats > 0 and 0 < healthRate ≤ 100 and every
cross-reference, yet the load returns nil; and a consumer written with retries 2.5
is stored with Retries 2, which is not the value written. -/
theorem ParseConfig_consumer_list_fails_on_fractions :
    wellTyped (sampleDictWinSize ⟨1, 1⟩) = true ∧
    (∀ b, b ∈ breakerBlocks (sampleDictWinSize ⟨1, 1⟩) → blockValid b = true) ∧
    (∀ t, t ∈ aclTopics (sampleDictWinSize ⟨1, 1⟩) ++ consumerTopics (sampleDictWinSize ⟨1, 1⟩) →
      t ∈ topicNames (sampleDictWinSize ⟨1, 1⟩)) ∧
    ParseConfig (FileContent.decoded (sampleDictWinSize ⟨1, 1⟩)) = Except.ok none ∧
    wellTyped (sampleDict "orders" [sampleConsumerRetries ⟨5, 1⟩ "orders"]) = true ∧
    loadedRetries (ParseConfig (FileContent.decoded
      (sampleDict "orders" [sampleConsumerRetries ⟨5, 1⟩ "orders"]))) = Except.ok (some [2]) ∧
    Float64.eqInt ⟨5, 1⟩ 2 = false :=
  ⟨by decide, by decide, by decide, rfl, by decide, rfl, by decide⟩

/-- C13: ParseConfig does not validate retries: a configuration is loaded under
conditions that do not mention retries, and each consumer then holds int(retries)
whatever its sign. For a client whose retries is a negative int, callWithRetry makes
no delivery attempt, leaves the retry statistic unchanged, still removes one element
from the gate, and records fail and not success for the topic of the message, for
every message and whatever the HTTP stack would answer. -/
theorem negative_retries_loaded_and_run_fails (dict : List (String × JSON))
    (ht : wellTyped dict = true)
    (hacl : ∀ t, t ∈ aclTopics dict → t ∈ topicNames dict)
    (hcons : ∀ t, t ∈ consumerTopics dict → t ∈ topicNames dict)
    (hblocks : ∀ b, b ∈ breakerBlocks dict → blockRejected b = false)
    (http : Nat → Outcome) (message : CallMessage) (w : World)
    (hint : minInt ≤ w.client.retries) (hneg : w.client.retries < 0)
    (hbuf : w.client.pending.buf ≠ []) :
    (∃ cfg, ParseConfig (FileContent.decoded dict) = Except.ok (some cfg) ∧
      List.Forall₂ (fun entry c => entry.intField "retries" = some c.Retries)
        (entriesOf dict "kafka.consumer.list") cfg.Kafka_consumer_list) ∧
    ∃ msg w1, callWithRetry http message w = Progress.returned (msg, w1) ∧
      attemptIndices w1.trace = attemptIndices w.trace ∧
      (∀ t, retried w1.trace t = retried w.trace t) ∧
      releases w1.trace = releases w.trace + 1 ∧
      PendingCount w1.client + 1 = PendingCount w.client ∧
      failed w1.trace message.Topic = failed w.trace message.Topic + 1 ∧
      succeeded w1.trace message.Topic = succeeded w.trace message.Topic := by
  constructor
  · obtain ⟨cfg, hcfg⟩ := parseDict_loaded dict ht hacl hcons hblocks
    exact ⟨cfg, hcfg, (parseDict_consumers dict cfg hcfg).imp fun _ _ h => h.2.2.2.1⟩
  · have hb := loopBound_of_neg w.client hint hneg
    refine ⟨_, _, callWithRetry_returned http message w (by rw [hb]; rfl) hbuf, ?_⟩
    rw [hb]
    simp only [retryLoop, Bool.false_eq_true, if_false]
    refine ⟨?_, ?_, ?_, ?_, ?_, ?_⟩
    · simp [attemptIndices_append, attemptIndices]
    · intro t; simp [retried, List.count_append, List.count_cons]
    · simp [releases, List.count_append, List.count_cons]
    · simp only [PendingCount, Chan.len]
      cases hbf : w.client.pending.buf with
      | nil => exact absurd hbf hbuf
      | cons b rest => simp
    · simp [failed, List.count_append, List.count_cons]
    · simp [succeeded, List.count_append, List.count_cons]

/-- C13 on a configuration whose consumer is written with retries -3 and on a client
with retries -3: the load stores -3, and the run records fail without any attempt. -/
theorem negative_retries_loaded_and_run_fails_witness :
    loadedRetries (ParseConfig (FileContent.decoded
      (sampleDict "orders" [sampleConsumerRetries ⟨-3, 0⟩ "orders"]))) = Except.ok (some [-3]) ∧
    ∃ msg w1, callWithRetry okAtFirst sampleMessage (sampleWorld (-3)) =
        Progress.returned (msg, w1) ∧
      attemptIndices w1.trace = [] ∧ failed w1.trace "orders" = 1 ∧
      succeeded w1.trace "orders" = 0 ∧ PendingCount w1.client = 0 := by
  have h := negative_retries_loaded_and_run_fails
    (sampleDict "orders" [sampleConsumerRetries ⟨-3, 0⟩ "orders"])
    (by decide) (by decide) (by decide) (by decide) okAtFirst sampleMessage (sampleWorld (-3))
    (by decide) (by decide) (by decide)
  refine ⟨rfl, ?_⟩
  obtain ⟨msg, w1, hr, h1, -, -, h4, h5, h6⟩ := h.2
  refine ⟨msg, w1, hr, h1, h5, h6, ?_⟩
  have : PendingCount (sampleWorld (-3)).client = 1 := rfl
  omega

/-- C14: ParseConfig converts winSize and minStats to int, truncating toward zero,
before it validates them: in a well-typed configuration a circuitBreaker block whose
winSize or minStats is a fraction strictly between 0 and 1 converts to 0 and makes
the load return nil although the value is greater than 0, while a loaded block stores
the converted values, a fraction strictly between 1 and 2 such as 1.5 being stored
as 1. -/
theorem ParseConfig_truncates_before_validating (dict : List (String × JSON))
    (ht : wellTyped dict = true) :
    (∀ b, b ∈ breakerBlocks dict → blockFractional b →
      ParseConfig (FileContent.decoded dict) = Except.ok none) ∧
    ((∀ t, t ∈ aclTopics dict → t ∈ topicNames dict) →
      (∀ t, t ∈ consumerTopics dict → t ∈ topicNames dict) →
      (∀ b, b ∈ breakerBlocks dict → blockRejected b = false) →
      ∃ cfg, ParseConfig (FileContent.decoded dict) = Except.ok (some cfg) ∧
        List.Forall₂ (fun entry c =>
            BlockMatches (entry.field "circuitBreaker") c.CircuiteBreakerInfo)
          (entriesOf dict "kafka.consumer.list") cfg.Kafka_consumer_list) ∧
    (∀ f : Float64, f.gtInt 0 = true → f.ltInt 1 = true → f.toInt = 0) ∧
    (∀ f : Float64, f.gtInt 1 = true → f.ltInt 2 = true → f.toInt = 1) := by
  refine ⟨?_, ?_, Float64.toInt_of_fraction, Float64.toInt_of_one_and_fraction⟩
  · intro b hb hfrac
    have hrej := blockRejected_of_fractional b (breakerBlocks_typed dict ht b hb) hfrac
    obtain ⟨r, hr⟩ := parseDict_typed dict ht
    cases r with
    | none => exact hr
    | some cfg =>
      have := (parseDict_some dict cfg hr).2.2.2 b hb
      rw [hrej] at this
      cases this
  · intro hacl hcons hblocks
    obtain ⟨cfg, hcfg⟩ := parseDict_loaded dict ht hacl hcons hblocks
    exact ⟨cfg, hcfg, (parseDict_consumers dict cfg hcfg).imp fun _ _ h => h.2.2.2.2.2.2⟩

/-- C14 on a configuration with winSize 0.5, which is refused with nil, and on one
with winSize 1.5, which is loaded with WinSize 1. -/
theorem ParseConfig_truncates_before_validating_witness :
    wellTyped (sampleDictWinSize ⟨1, 1⟩) = true ∧
    ParseConfig (FileContent.decoded (sampleDictWinSize ⟨1, 1⟩)) = Except.ok none ∧
    Float64.toInt ⟨3, 1⟩ = 1 ∧
    loadedWinSizes (ParseConfig (FileContent.decoded (sampleDictWinSize ⟨3, 1⟩))) =
      Except.ok (some [some 1]) :=
  ⟨by decide,
    (ParseConfig_truncates_before_validating (sampleDictWinSize ⟨1, 1⟩) (by decide)).1
      (sampleBlock ⟨1, 1⟩ (Float64.ofInt 5) (Float64.ofInt 50)) (List.mem_singleton.2 rfl)
      (Or.inl ⟨⟨1, 1⟩, rfl, by decide, by decide⟩),
    (ParseConfig_truncates_before_validating (sampleDictWinSize ⟨1, 1⟩) (by decide)).2.2.2
      ⟨3, 1⟩ (by decide) (by decide),
    rfl⟩

theorem aclOf_names (xs : List JSON) (h : xs.all aclTyped = true) :
    (xs.filterMap aclOf).map Prod.fst = stringsOf xs "name" := by
  induction xs with
  | nil => rfl
  | cons value rest ih =>
    simp only [List.all_cons, Bool.and_eq_true] at h
    have hrest := ih h.2
    have hv := h.1
    cases value with
    | object o =>
      simp only [aclTyped, JSON.hasStrings, List.all_cons, List.all_nil, Bool.and_true,
        Bool.and_eq_true, Option.isSome_iff_exists] at hv
      obtain ⟨⟨n, hn⟩, ⟨s, hs⟩, ⟨t, htp⟩⟩ := hv
      simp only [stringsOf] at hrest ⊢
      simp [List.filterMap_cons, aclOf, JSON.field, hn, hs, htp, hrest]
    | _ => simp [aclTyped, JSON.hasStrings] at hv

/-- C15: Kafka_topics and Kafka_producer_acl are keyed by name. For every valid
configuration (well typed, every referenced topic configured, no block refused) the
loaded maps have one entry per distinct name, the names of Kafka_topics being those
of kafka.topics, and under each name the partitions, or the secret and topic, of the
last entry of the array with that name; yet in a well-typed configuration an ACL
entry whose topic is absent from kafka.topics makes the load return nil, whatever
later entries of the same name say. -/
theorem maps_keep_last_entry_per_name (dict : List (String × JSON))
    (ht : wellTyped dict = true) :
    ((∀ t, t ∈ aclTopics dict → t ∈ topicNames dict) →
      (∀ t, t ∈ consumerTopics dict → t ∈ topicNames dict) →
      (∀ b, b ∈ breakerBlocks dict → blockRejected b = false) →
      ∃ cfg, ParseConfig (FileContent.decoded dict) = Except.ok (some cfg) ∧
        cfg.Kafka_topics.keys.Nodup ∧
        (∀ name, name ∈ cfg.Kafka_topics.keys ↔ name ∈ topicNames dict) ∧
        (∀ name, cfg.Kafka_topics.get? name =
          lastWith ((entriesOf dict "kafka.topics").filterMap topicOf) name) ∧
        cfg.Kafka_producer_acl.keys.Nodup ∧
        (∀ name, name ∈ cfg.Kafka_producer_acl.keys ↔
          name ∈ stringsOf (entriesOf dict "kafka.producer.acl") "name") ∧
        ∀ name, cfg.Kafka_producer_acl.get? name =
          lastWith ((entriesOf dict "kafka.producer.acl").filterMap aclOf) name) ∧
    ((∃ t, t ∈ aclTopics dict ∧ t ∉ topicNames dict) →
      ParseConfig (FileContent.decoded dict) = Except.ok none) := by
  constructor
  · intro hacl hcons hblocks
    obtain ⟨cfg, hcfg⟩ := parseDict_loaded dict ht hacl hcons hblocks
    obtain ⟨h1, h2, -⟩ := parseDict_parts dict cfg hcfg
    have e1 := parseTopics_setAll _ _ _ h1
    have e2 := parseAcl_setAll _ _ _ _ h2
    refine ⟨cfg, hcfg, ?_, ?_, ?_, ?_, ?_, ?_⟩
    · rw [e1]; exact GoMap.nodup_keys_setAll _ _ List.nodup_nil
    · intro name
      rw [GoMap.mem_keys_iff, (parseTopics_ok _ _ _ h1).2 name]
      simp [GoMap.get?, topicNames]
    · intro name
      rw [e1, GoMap.get?_setAll]
      simp [GoMap.get?]
    · rw [e2]; exact GoMap.nodup_keys_setAll _ _ List.nodup_nil
    · intro name
      rw [GoMap.mem_keys_iff, e2, GoMap.get?_setAll, ← aclOf_names _ (parseAcl_some _ _ _ _ h2).1,
        ← lastWith_isSome]
      simp [GoMap.get?]
    · intro name
      rw [e2, GoMap.get?_setAll]
      simp [GoMap.get?]
  · rintro ⟨t, hmem, hmiss⟩
    obtain ⟨r, hr⟩ := parseDict_typed dict ht
    cases r with
    | none => exact hr
    | some cfg => exact absurd ((parseDict_some dict cfg hr).2.1 t hmem) hmiss

/-- C15 on a configuration whose kafka.topics names `orders` twice (3, then 5
partitions) and whose ACL names `shop` twice: the loaded maps hold the last entries;
and on one whose first `shop` entry names an unknown topic: the load returns nil. -/
theorem maps_keep_last_entry_per_name_witness :
    (∃ cfg, ParseConfig (FileContent.decoded (sampleDictOf
        [sampleTopic "orders" 3, sampleTopic "payments" 1, sampleTopic "orders" 5]
        [sampleAcl "shop" "first" "orders", sampleAcl "shop" "second" "payments"]
        [sampleConsumer "orders"])) = Except.ok (some cfg) ∧
      cfg.Kafka_topics.keys.Nodup ∧
      cfg.Kafka_topics.get? "orders" = some { Partitions := 5 } ∧
      cfg.Kafka_producer_acl.keys.Nodup ∧
      cfg.Kafka_producer_acl.get? "shop" =
        some { Name := "shop", Secret := "second", Topic := "payments" }) ∧
    ParseConfig (FileContent.decoded (sampleDictOf [sampleTopic "orders" 3]
      [sampleAcl "shop" "first" "refunds", sampleAcl "shop" "second" "orders"]
      [sampleConsumer "orders"])) = Except.ok none := by
  constructor
  · obtain ⟨cfg, h1, h2, -, h4, h5, -, h7⟩ := (maps_keep_last_entry_per_name (sampleDictOf
      [sampleTopic "orders" 3, sampleTopic "payments" 1, sampleTopic "orders" 5]
      [sampleAcl "shop" "first" "orders", sampleAcl "shop" "second" "payments"]
      [sampleConsumer "orders"]) (by decide)).1 (by decide) (by decide) (by decide)
    exact ⟨cfg, h1, h2, (h4 "orders").trans rfl, h5, (h7 "shop").trans rfl⟩
  · exact (maps_keep_last_entry_per_name (sampleDictOf [sampleTopic "orders" 3]
      [sampleAcl "shop" "first" "refunds", sampleAcl "shop" "second" "orders"]
      [sampleConsumer "orders"]) (by decide)).2 ⟨"refunds", by decide, by decide⟩

end Bigpipe
